import Mathlib

/-!
# AudioPlayer (media/libstagefright/AudioPlayer.cpp)

A shallow embedding of the audio render pump and theorems about it.

Conventions of the embedding.

* The player object is the record `State`; every member function becomes a
  function from a `State` (and the answers of the outside world it uses) to
  the new `State` and the returned value.
* `int64_t` members are `Int`; signed overflow is undefined in the source and
  is not modelled.  `uint32_t` values are reduced modulo `2 ^ 32` where the
  source converts to that type.  `size_t` is `Nat`.  Signed division is the
  truncating `Int.tdiv`.
* A failed `CHECK`, a call through a null pointer and a division by zero end
  the process; the functions return `Except Fault _` and report them.
* The loop of `fillBuffer` may run for ever (a source that only hands out
  buffers of length zero); `fillLoop` takes a bound on the number of
  iterations and reports `Fault.timeout` when it is exhausted.
* Calls made to the collaborators (source, sink or track, observer, media
  buffers) are recorded, in order, in `State.trace`.
* The wall clock `ALooper::GetNowUs()` is an argument `now` of the functions
  that read it.
* The member functions are taken one at a time: the interleaving of a control
  thread with a callback that is inside `fillBuffer` is outside this model.
* The file is read with `INTEL_MUSIC_OFFLOAD_FEATURE` defined (the offload
  branches are present and guarded by `mOffload`) and `BGM_ENABLED` not
  defined.
-/

namespace AudioPlayer

/-! ## Collaborators -/

abbrev status_t := Int

/-- The value of `OK` in utils/Errors.h (header not among the sources). -/
def OK : status_t := 0

/-- The value of `INFO_FORMAT_CHANGED` in MediaErrors.h, `MEDIA_ERROR_BASE - 12`
(header not among the sources). -/
def INFO_FORMAT_CHANGED : status_t := -1012

/-- The value of `ERROR_END_OF_STREAM` in MediaErrors.h, `MEDIA_ERROR_BASE - 11`
(header not among the sources). -/
def ERROR_END_OF_STREAM : status_t := -1011

/-- The value of `BAD_VALUE` in utils/Errors.h, `-EINVAL` (header not among the
sources). -/
def BAD_VALUE : status_t := -22

/-- The value of `CHANNEL_MASK_USE_CHANNEL_ORDER` in MediaPlayerInterface.h
(header not among the sources). -/
def CHANNEL_MASK_USE_CHANNEL_ORDER : Int := 0

/-- Conversion to `uint32_t`. -/
def u32 (n : Nat) : Nat := n % 4294967296

/-- Conversion of an `int64_t` to `uint32_t`. -/
def u32OfInt (i : Int) : Nat := (i % 4294967296).toNat

/-- A `MediaBuffer` as `fillBuffer` uses it: the bytes behind `data()`, the
range `range_offset()`, `range_length()` and the `kKeyTime` entry of
`meta_data()` (absent when `findInt64` fails). -/
structure MediaBuffer where
  data : List Nat
  range_offset : Nat
  range_length : Nat
  kKeyTime : Option Int
deriving DecidableEq, Repr

/-- What `MediaSource::read` hands back: the status and the buffer pointer. -/
structure ReadResult where
  err : status_t
  buffer : Option MediaBuffer
deriving DecidableEq, Repr

/-- The entries of the source format that `start` looks up; `none` is a failed
lookup.  `mimeIsRaw` is the outcome of `findCString(kKeyMIMEType)` followed by
`!strcasecmp(mime, MEDIA_MIMETYPE_AUDIO_RAW)`. -/
structure MetaData where
  mimeIsRaw : Option Bool
  kKeySampleRate : Option Int
  kKeyChannelCount : Option Int
  kKeyChannelMask : Option Int
deriving DecidableEq, Repr

/-- A `MediaSource`: the status of its `start()`, its format, and the answer
of `read` as a function of the requests made to it so far (oldest first, the
current request last; a request is its seek target, if any). -/
structure MediaSource where
  start : status_t
  getFormat : MetaData
  read : List (Option Int) → ReadResult

/-- The answers of the output (the `AudioSink`, or the `AudioTrack` when no
sink was given) to the queries the player makes.  `latency` is indexed by the
number of requests made to the source so far, so that it may change from one
query to the next. -/
structure Output where
  openStatus : status_t
  initCheck : status_t
  latency : Nat → Nat
  frameSize : Nat
  getPosition : status_t × Nat
  needsTrailingPadding : Bool
  channelMaskFromCount : Int → Int

/-- A call made by the player to one of its collaborators.  `sourceRead` is
`mSource->read` with the seek target of its options and what it handed back;
`firstBufferTaken` is the use of the result stashed by `start` in its place
(lines 600-604); `findKeyTime b` is the lookup of `kKeyTime` in the meta data
of `b` (line 678); `memcpy b copy` is the copy of `copy` bytes out of the range
of `b` into the destination (line 718). -/
inductive Event
  | sourceStart
  | sourceStop
  | sourceRead (seekTo : Option Int) (err : status_t) (buffer : Option MediaBuffer)
  | firstBufferTaken (err : status_t) (buffer : Option MediaBuffer)
  | bufferRelease (b : MediaBuffer)
  | findKeyTime (b : MediaBuffer)
  | memcpy (b : MediaBuffer) (copy : Nat)
  | outputOpen
  | outputStart
  | outputStop
  | outputPause
  | outputFlush
  | outputClose
  | setOffloadEOSReached
  | sendMetaDataToHal
  | postAudioEOS (delayUs : Int)
  | postAudioSeekComplete
deriving DecidableEq, Repr

/-- The ways a member function fails to return. -/
inductive Fault
  | check
  | nullDeref
  | divByZero
  | timeout
deriving DecidableEq, Repr

/-! ## The player -/

/-- The members of `AudioPlayer` (AudioPlayer.h), with the pointers reduced to
what the code asks of them: `mAudioSink`, `mAudioTrack` and `mObserver` hold
whether the pointer is non-null.  `reads` is the list of requests made to the
current source and `trace` the calls made so far. -/
structure State where
  mSource : Option MediaSource
  mAudioTrack : Bool
  mInputBuffer : Option MediaBuffer
  mSampleRate : Int
  mLatencyUs : Int
  mFrameSize : Nat
  mNumFramesPlayed : Int
  mNumFramesPlayedSysTimeUs : Int
  mPositionTimeMediaUs : Int
  mPositionTimeRealUs : Int
  mSeeking : Bool
  mReachedEOS : Bool
  mFinalStatus : status_t
  mSeekTimeUs : Int
  mStarted : Bool
  mIsFirstBuffer : Bool
  mFirstBufferResult : status_t
  mFirstBuffer : Option MediaBuffer
  mAudioSink : Bool
  mAllowDeepBuffering : Bool
  mObserver : Bool
  mPinnedTimeUs : Int
  mOffload : Bool
  mStartPos : Int
  mOffloadPostEOSPending : Bool
  reads : List (Option Int)
  trace : List Event

/-- The first constructor (lines 39-69).  `mSeekTimeUs` is not initialised by
the source; its content is the argument `seekTime0`. -/
def construct (audioSink allowDeepBuffering observer : Bool) (now seekTime0 : Int) :
    State :=
  { mSource := none
    mAudioTrack := false
    mInputBuffer := none
    mSampleRate := 0
    mLatencyUs := 0
    mFrameSize := 0
    mNumFramesPlayed := 0
    mNumFramesPlayedSysTimeUs := now
    mPositionTimeMediaUs := -1
    mPositionTimeRealUs := -1
    mSeeking := false
    mReachedEOS := false
    mFinalStatus := OK
    mSeekTimeUs := seekTime0
    mStarted := false
    mIsFirstBuffer := false
    mFirstBufferResult := OK
    mFirstBuffer := none
    mAudioSink := audioSink
    mAllowDeepBuffering := allowDeepBuffering
    mObserver := observer
    mPinnedTimeUs := -1
    mOffload := false
    mStartPos := 0
    mOffloadPostEOSPending := false
    reads := []
    trace := [] }

/-- The constructor for offload (lines 71-103): `flags` carries
`ALLOW_DEEP_BUFFERING = 0x01` and `USE_OFFLOAD = 0x02`. -/
def constructOffload (audioSink : Bool) (flags : Nat) (observer : Bool)
    (now seekTime0 : Int) : State :=
  { construct audioSink (flags.testBit 0) observer now seekTime0 with
    mOffload := flags.testBit 1 }

/-- Member `setSource` (lines 111-114). -/
def setSource (st : State) (source : MediaSource) : Except Fault State :=
  if st.mSource.isSome then .error .check
  else .ok { st with mSource := some source, reads := [] }

/-- Appends calls to the trace. -/
def State.log (st : State) (es : List Event) : State :=
  { st with trace := st.trace ++ es }

/-- The statement `if (mFirstBuffer != NULL) { mFirstBuffer->release();
mFirstBuffer = NULL; }`: the release is made when there is a buffer, and the
pointer is null afterwards in both cases. -/
def releaseFirstBuffer (st : State) : State :=
  { st.log (st.mFirstBuffer.toList.map .bufferRelease) with mFirstBuffer := none }

/-- The statement `if (mInputBuffer != NULL) { mInputBuffer->release();
mInputBuffer = NULL; }`: the release is made when there is a buffer, and the
pointer is null afterwards in both cases. -/
def releaseInputBuffer (st : State) : State :=
  { st.log (st.mInputBuffer.toList.map .bufferRelease) with mInputBuffer := none }

/-- The error exits of `start` after the first read (lines 257-266 and
307-316): release the first buffer, stop the source unless it was already
started. -/
def startCleanup (st : State) (sourceAlreadyStarted : Bool) : State :=
  let st1 := releaseFirstBuffer st
  if sourceAlreadyStarted then st1 else st1.log [.sourceStop]

/-- Lines 153-329 of `start`: the format and the output. -/
def startOutput (st : State) (out : Output) (format : MetaData)
    (sourceAlreadyStarted : Bool) : Except Fault (State × status_t) :=
  match format.mimeIsRaw with
  | none => .error .check
  | some raw =>
    if !(st.mOffload || raw) then .error .check else
    match format.kKeySampleRate with
    | none => .error .check
    | some sampleRate =>
      let st1 := { st with mSampleRate := sampleRate }
      match format.kKeyChannelCount with
      | none => .error .check
      | some numChannels =>
        let channelMask := format.kKeyChannelMask.getD CHANNEL_MASK_USE_CHANNEL_ORDER
        if st1.mAudioSink then
          let st2 := st1.log [.outputOpen]
          if out.openStatus ≠ OK then
            .ok (startCleanup st2 sourceAlreadyStarted, out.openStatus)
          else
            let st3 := { st2 with
              mLatencyUs := (u32 (out.latency st2.reads.length) : Int) * 1000
              mFrameSize := out.frameSize }
            let st4 := if st3.mOffload then st3.log [.sendMetaDataToHal] else st3
            let st5 := st4.log [.outputStart]
            .ok ({ st5 with mStarted := true, mPinnedTimeUs := -1,
                            mOffloadPostEOSPending := false }, OK)
        else
          let audioMask :=
            if channelMask = CHANNEL_MASK_USE_CHANNEL_ORDER
            then out.channelMaskFromCount numChannels else channelMask
          if audioMask = 0 then .ok (st1, BAD_VALUE) else
          let st2 := { st1.log [.outputOpen] with mAudioTrack := true }
          if out.initCheck ≠ OK then
            let st3 := { st2.log [.outputClose] with mAudioTrack := false }
            .ok (startCleanup st3 sourceAlreadyStarted, out.initCheck)
          else
            let st3 := { st2 with
              mLatencyUs := (u32 (out.latency st2.reads.length) : Int) * 1000
              mFrameSize := out.frameSize }
            let st4 := st3.log [.outputStart]
            .ok ({ st4 with mStarted := true, mPinnedTimeUs := -1,
                            mOffloadPostEOSPending := false }, OK)

/-- Lines 134-329 of `start`: the first read, then the format and the
output. -/
def startRead (st : State) (source : MediaSource) (out : Output)
    (sourceAlreadyStarted : Bool) : Except Fault (State × status_t) :=
  if st.mFirstBuffer.isSome then .error .check else
  let seekOpt := if st.mSeeking then some st.mSeekTimeUs else none
  let r := source.read (st.reads ++ [seekOpt])
  let st2 := { st.log [.sourceRead seekOpt r.err r.buffer] with
    mSeeking := false
    reads := st.reads ++ [seekOpt]
    mFirstBuffer := r.buffer
    mFirstBufferResult := r.err }
  if r.err = INFO_FORMAT_CHANGED then
    if r.buffer.isSome then .error .check else
    startOutput { st2 with mFirstBufferResult := OK, mIsFirstBuffer := false }
      out source.getFormat sourceAlreadyStarted
  else
    startOutput { st2 with mIsFirstBuffer := true }
      out source.getFormat sourceAlreadyStarted

/-- Member `start` (lines 116-330). -/
def start (st : State) (out : Output) (sourceAlreadyStarted : Bool) :
    Except Fault (State × status_t) :=
  if st.mStarted then .error .check else
  match st.mSource with
  | none => .error .check
  | some source =>
    if sourceAlreadyStarted then startRead st source out sourceAlreadyStarted
    else
      let st1 := st.log [.sourceStart]
      if source.start ≠ OK then .ok (st1, source.start)
      else startRead st1 source out sourceAlreadyStarted

/-- Member `pause` (lines 332-353). -/
def pause (st : State) (playPendingSamples : Bool) (now : Int) : Except Fault State :=
  if !st.mStarted then .error .check else
  if !st.mAudioSink ∧ !st.mAudioTrack then .error .nullDeref else
  if playPendingSamples then
    .ok { st.log [.outputStop] with
      mNumFramesPlayed := 0
      mNumFramesPlayedSysTimeUs := now }
  else
    .ok { st.log [.outputPause] with mPinnedTimeUs := now }

/-- Member `resume` (lines 355-363). -/
def resume (st : State) : Except Fault State :=
  if !st.mStarted then .error .check else
  if !st.mAudioSink ∧ !st.mAudioTrack then .error .nullDeref else
  .ok (st.log [.outputStart])

/-- Member `reset` (lines 365-418).  The wait for the last strong reference to
the source (lines 398-402) is taken to end. -/
def reset (st : State) (now : Int) : Except Fault State :=
  if !st.mStarted then .error .check else
  if !st.mAudioSink ∧ !st.mAudioTrack then .error .nullDeref else
  let st1 := { st.log [.outputStop, .outputClose] with
    mAudioTrack := if st.mAudioSink then st.mAudioTrack else false }
  let st2 := releaseInputBuffer (releaseFirstBuffer st1)
  if st2.mSource.isNone then .error .nullDeref else
  .ok { st2.log [.sourceStop] with
    mSource := none
    mNumFramesPlayed := 0
    mNumFramesPlayedSysTimeUs := now
    mPositionTimeMediaUs := -1
    mPositionTimeRealUs := -1
    mSeeking := false
    mReachedEOS := false
    mFinalStatus := OK
    mStarted := false
    mStartPos := 0
    mOffload := false
    mOffloadPostEOSPending := false }

/-- Member `isSeeking` (lines 425-428). -/
def isSeeking (st : State) : Bool := st.mSeeking

/-- Member `reachedEOS` (lines 430-436): the returned flag and `*finalStatus`. -/
def reachedEOS (st : State) : Bool × status_t := (st.mReachedEOS, st.mFinalStatus)

/-- Member `getNumFramesPendingPlayout` (lines 524-550). -/
def getNumFramesPendingPlayout (st : State) (out : Output) : Except Fault Nat :=
  if !st.mAudioSink ∧ !st.mAudioTrack then .error .nullDeref else
  let err := out.getPosition.1
  let numFramesPlayedOut := u32 out.getPosition.2
  if err ≠ OK ∨ st.mNumFramesPlayed < (numFramesPlayedOut : Int) then .ok 0
  else .ok (u32OfInt (st.mNumFramesPlayed - numFramesPlayedOut))

/-- Member `notifyAudioEOS` (lines 448-455): `postAudioEOS(NULL)`. -/
def notifyAudioEOS (st : State) : State :=
  if st.mObserver then st.log [.postAudioEOS 0] else st

/-! ## fillBuffer -/

/-- The local variables of `fillBuffer` (lines 561-566) and the bytes stored
so far at `data[0 .. size_done)`. -/
structure Locals where
  postSeekComplete : Bool
  postEOS : Bool
  postEOSDelayUs : Int
  size_done : Nat
  size_remaining : Nat
  data : List Nat
deriving DecidableEq, Repr

/-- The values of the locals at loop entry. -/
def Locals.init (size : Nat) : Locals :=
  { postSeekComplete := false
    postEOS := false
    postEOSDelayUs := 0
    size_done := 0
    size_remaining := size
    data := [] }

/-- Lines 573-593: a pending seek is taken; the third component is the seek
target put in `options`. -/
def seekCheck (st : State) (l : Locals) : State × Locals × Option Int :=
  if st.mSeeking then
    let st1 :=
      if st.mIsFirstBuffer then { releaseFirstBuffer st with mIsFirstBuffer := false }
      else st
    let st2 := releaseInputBuffer st1
    ({ st2 with mSeeking := false },
     { l with postSeekComplete := if st.mObserver then true else l.postSeekComplete },
     some st.mSeekTimeUs)
  else (st, l, none)

/-- Lines 599-607: the stashed first buffer, or a read from the source; the
second component is `err`. -/
def obtainBuffer (st : State) (seekOpt : Option Int) : Except Fault (State × status_t) :=
  if st.mIsFirstBuffer then
    .ok ({ st.log [.firstBufferTaken st.mFirstBufferResult st.mFirstBuffer] with
            mInputBuffer := st.mFirstBuffer
            mFirstBuffer := none
            mIsFirstBuffer := false }, st.mFirstBufferResult)
  else
    match st.mSource with
    | none => .error .nullDeref
    | some source =>
      let r := source.read (st.reads ++ [seekOpt])
      .ok ({ st.log [.sourceRead seekOpt r.err r.buffer] with
              mInputBuffer := r.buffer
              reads := st.reads ++ [seekOpt] }, r.err)

/-- Lines 614-668: the branch `err != OK`, up to the `break`. -/
def readError (st : State) (out : Output) (l : Locals) (err : status_t) :
    Except Fault (State × Locals) :=
  if st.mObserver ∧ !st.mReachedEOS then
    if st.mOffload then
      if !st.mAudioSink ∧ !st.mAudioTrack then .error .nullDeref else
      .ok ({ st.log [.setOffloadEOSReached] with
              mOffloadPostEOSPending := true
              mReachedEOS := true
              mFinalStatus := err }, l)
    else
      match getNumFramesPendingPlayout st out with
      | .error f => .error f
      | .ok pending =>
        if st.mFrameSize = 0 then .error .divByZero else
        let numAdditionalFrames := u32 (l.size_done / st.mFrameSize)
        let numFramesPendingPlayout := u32 (pending + numAdditionalFrames)
        if st.mSampleRate = 0 then .error .divByZero else
        let timeToCompletionUs :=
          Int.tdiv (1000000 * (numFramesPendingPlayout : Int)) st.mSampleRate
        if !st.mAudioSink then .error .nullDeref else
        let postEOSDelayUs :=
          if out.needsTrailingPadding then timeToCompletionUs + st.mLatencyUs else 0
        .ok ({ st with mReachedEOS := true, mFinalStatus := err },
             { l with postEOS := true, postEOSDelayUs := postEOSDelayUs })
  else
    .ok ({ st with mReachedEOS := true, mFinalStatus := err }, l)

/-- Lines 670-703: the bookkeeping after a successful read of buffer `b`. -/
def readSuccess (st : State) (out : Output) (l : Locals) (b : MediaBuffer) :
    Except Fault State :=
  if !st.mAudioSink ∧ !st.mAudioTrack then .error .nullDeref else
  let st1 := { st with mLatencyUs := (u32 (out.latency st.reads.length) : Int) * 1000 }
  if b.range_length ≠ 0 ∧ b.kKeyTime.isNone then .error .check else
  let st2 : State :=
    if b.range_length ≠ 0 then
      { st1.log [.findKeyTime b] with
        mPositionTimeMediaUs := b.kKeyTime.getD st1.mPositionTimeMediaUs }
    else st1
  if st2.mFrameSize = 0 then .error .divByZero else
  if st2.mSampleRate = 0 then .error .divByZero else
  let st3 : State := { st2 with
    mPositionTimeRealUs :=
      Int.tdiv ((st2.mNumFramesPlayed + ((l.size_done / st2.mFrameSize : Nat) : Int)) * 1000000)
        st2.mSampleRate }
  if st3.mSeeking ∧ st3.mOffload then
    .ok { (if st3.mObserver then st3.log [.postAudioSeekComplete] else st3) with
            mSeeking := false
            mStartPos := st3.mPositionTimeMediaUs }
  else .ok st3

/-- Lines 706-726: an empty buffer is released, otherwise
`min(size_remaining, range_length)` bytes are copied out of the range. -/
def consume (st : State) (l : Locals) (b : MediaBuffer) : State × Locals :=
  if b.range_length = 0 then
    ({ st.log [.bufferRelease b] with mInputBuffer := none }, l)
  else
    let copy := if l.size_remaining > b.range_length then b.range_length else l.size_remaining
    ({ st.log [.memcpy b copy] with mInputBuffer := some { b with
          range_offset := b.range_offset + copy
          range_length := b.range_length - copy } },
     { l with
        data := l.data ++ (b.data.drop b.range_offset).take copy
        size_done := l.size_done + copy
        size_remaining := l.size_remaining - copy })

/-- Lines 596-726: the rest of a pass once the pending seek has been looked
at; `seekOpt` is the seek target in `options`.  The third component is `false`
when the pass ends with `break`. -/
def loopTail (out : Output) (st : State) (l : Locals) (seekOpt : Option Int) :
    Except Fault (State × Locals × Bool) :=
  match st.mInputBuffer with
  | some b =>
    let r := consume st l b
    .ok (r.1, r.2, true)
  | none =>
    match obtainBuffer st seekOpt with
    | .error f => .error f
    | .ok (st2, err) =>
      match st2.mInputBuffer with
      | none =>
        if err = OK then .error .check else
        match readError st2 out l err with
        | .error f => .error f
        | .ok (st3, l3) => .ok (st3, l3, false)
      | some b =>
        if err ≠ OK then .error .check else
        match readSuccess st2 out l b with
        | .error f => .error f
        | .ok st3 =>
          let r := consume st3 l b
          .ok (r.1, r.2, true)

/-- One pass through the body of the loop (lines 568-726).  The third
component is `false` when the pass ends with `break`. -/
def loopBody (out : Output) (st : State) (l : Locals) :
    Except Fault (State × Locals × Bool) :=
  loopTail out (seekCheck st l).1 (seekCheck st l).2.1 (seekCheck st l).2.2

/-- The loop `while (size_remaining > 0)` (lines 567-727), with a bound on the
number of passes. -/
def fillLoop (out : Output) : Nat → State → Locals → Except Fault (State × Locals)
  | 0, st, l => if l.size_remaining = 0 then .ok (st, l) else .error .timeout
  | fuel + 1, st, l =>
    if l.size_remaining = 0 then .ok (st, l) else
    match loopBody out st l with
    | .error f => .error f
    | .ok (st1, l1, true) => fillLoop out fuel st1 l1
    | .ok (st1, l1, false) => .ok (st1, l1)

/-- What a call of `fillBuffer` leaves: the player, the returned `size_done`
and the bytes stored at `data[0 .. size_done)`. -/
structure FillResult where
  state : State
  size_done : Nat
  data : List Nat

/-- Lines 729-749: the frame count, the clock and the notifications. -/
def fillFinish (st : State) (l : Locals) (now : Int) : Except Fault FillResult :=
  if st.mFrameSize = 0 then .error .divByZero else
  let st1 := { st with
    mNumFramesPlayed := st.mNumFramesPlayed + ((l.size_done / st.mFrameSize : Nat) : Int)
    mNumFramesPlayedSysTimeUs := now
    mPinnedTimeUs := if st.mReachedEOS then now else -1 }
  if (l.postEOS ∨ l.postSeekComplete) ∧ !st1.mObserver then .error .nullDeref else
  let st2 := if l.postEOS then st1.log [.postAudioEOS l.postEOSDelayUs] else st1
  let st3 := if l.postSeekComplete then st2.log [.postAudioSeekComplete] else st2
  .ok { state := st3, size_done := l.size_done, data := l.data }

/-- Member `fillBuffer` (lines 552-750); `fuel` bounds the passes of its
loop. -/
def fillBuffer (fuel : Nat) (st : State) (out : Output) (size : Nat) (now : Int) :
    Except Fault FillResult :=
  if st.mReachedEOS then .ok { state := st, size_done := 0, data := [] } else
  match fillLoop out fuel st (Locals.init size) with
  | .error f => .error f
  | .ok (st1, l) => fillFinish st1 l now

/-! ## Clock and seek -/

/-- Member `getRealTimeUsLocked` (lines 757-775). -/
def getRealTimeUsLocked (st : State) (now : Int) : Except Fault Int :=
  if !st.mStarted then .error .check else
  if st.mSampleRate = 0 then .error .check else
  let result := -st.mLatencyUs + Int.tdiv (st.mNumFramesPlayed * 1000000) st.mSampleRate
  let diffUs := if st.mPinnedTimeUs ≥ 0 then st.mPinnedTimeUs else now
  .ok (result + (diffUs - st.mNumFramesPlayedSysTimeUs))

/-- Member `getRealTimeUs` (lines 752-755). -/
def getRealTimeUs (st : State) (now : Int) : Except Fault Int :=
  getRealTimeUsLocked st now

/-- Member `getMediaTimeUs` (lines 777-809). -/
def getMediaTimeUs (st : State) (out : Output) (now : Int) : Except Fault Int :=
  if st.mPositionTimeMediaUs < 0 ∨ st.mPositionTimeRealUs < 0 then
    if st.mSeeking then .ok st.mSeekTimeUs else .ok 0
  else if st.mOffload then
    if !st.mAudioSink ∧ !st.mAudioTrack then .error .nullDeref else
    .ok (1000 * (u32 out.getPosition.2 : Int) + st.mStartPos)
  else
    match getRealTimeUsLocked st now with
    | .error f => .error f
    | .ok realTime =>
      let realTimeOffset := realTime - st.mPositionTimeRealUs
      .ok (st.mPositionTimeMediaUs + (if realTimeOffset < 0 then 0 else realTimeOffset))

/-- Member `getMediaTimeMapping` (lines 811-819): the returned flag,
`*realtime_us` and `*mediatime_us`. -/
def getMediaTimeMapping (st : State) : Bool × Int × Int :=
  (decide (st.mPositionTimeRealUs ≠ -1 ∧ st.mPositionTimeMediaUs ≠ -1),
   st.mPositionTimeRealUs, st.mPositionTimeMediaUs)

/-- Member `seekTo` (lines 821-844). -/
def seekTo (st : State) (time_us : Int) (now : Int) : Except Fault (State × status_t) :=
  let st1 := { st with
    mSeeking := true
    mPositionTimeRealUs := -1
    mPositionTimeMediaUs := -1
    mReachedEOS := false
    mSeekTimeUs := time_us
    mStartPos := if st.mOffload then time_us else st.mStartPos
    mNumFramesPlayed := 0
    mNumFramesPlayedSysTimeUs := now }
  if !st1.mAudioSink ∧ !st1.mAudioTrack then .error .nullDeref else
  .ok (st1.log [.outputFlush], OK)

/-! ## Sequences of calls -/

/-- A call of a member function, with the answers of the outside world it
uses. -/
inductive Op
  | setSource (source : MediaSource)
  | start (out : Output) (sourceAlreadyStarted : Bool)
  | pause (playPendingSamples : Bool) (now : Int)
  | resume
  | reset (now : Int)
  | seekTo (time_us : Int) (now : Int)
  | fillBuffer (fuel : Nat) (out : Output) (size : Nat) (now : Int)

/-- The player after one call. -/
def step (st : State) : Op → Except Fault State
  | .setSource source => setSource st source
  | .start out sourceAlreadyStarted => (start st out sourceAlreadyStarted).map Prod.fst
  | .pause playPendingSamples now => pause st playPendingSamples now
  | .resume => resume st
  | .reset now => reset st now
  | .seekTo time_us now => (seekTo st time_us now).map Prod.fst
  | .fillBuffer fuel out size now => (fillBuffer fuel st out size now).map FillResult.state

/-- The player after a sequence of calls. -/
def run (st : State) : List Op → Except Fault State
  | [] => .ok st
  | op :: ops =>
    match step st op with
    | .error f => .error f
    | .ok st1 => run st1 ops

/-- The calls `seekTo` and `reset`. -/
def Op.isSeekOrReset : Op → Bool
  | .seekTo _ _ => true
  | .reset _ => true
  | _ => false

/-! ## Vocabulary of the statements -/

/-- The status a source read, or the stashed first read, yielded. -/
def Event.readStatus : Event → Option status_t
  | .sourceRead _ err _ => some err
  | .firstBufferTaken err _ => some err
  | _ => none

/-- The event is a read that yielded a status other than `OK`. -/
def Event.isFailedRead (e : Event) : Bool :=
  match e.readStatus with
  | some err => err != OK
  | none => false

/-- The number of bytes the event copied to the destination. -/
def Event.copied : Event → Nat
  | .memcpy _ copy => copy
  | _ => 0

/-- The number of bytes copied to the destination by a list of events. -/
def copiedBytes (es : List Event) : Nat := (es.map Event.copied).sum

/-- The event is a source read that carries a seek target. -/
def Event.isSeekRead : Event → Bool
  | .sourceRead (some _) _ _ => true
  | _ => false

/-- The event is the lookup of the time stamp of a buffer, made when a buffer
of non-zero length becomes the input buffer. -/
def Event.isFindKeyTime : Event → Bool
  | .findKeyTime _ => true
  | _ => false

/-- The answer of a read passes the `CHECK`s of lines 609 and 678: a buffer
comes with `OK` and, when not empty, with a time stamp; no buffer comes with
an error. -/
def ReadResult.WellFormed (r : ReadResult) : Prop :=
  match r.buffer with
  | some b => r.err = OK ∧ (b.range_length ≠ 0 → b.kKeyTime.isSome = true)
  | none => r.err ≠ OK

/-- The answer of a read is a buffer of length zero. -/
def ReadResult.isEmpty (r : ReadResult) : Bool :=
  match r.buffer with
  | some b => b.range_length == 0
  | none => false

/-- From every point on, reads without seek target come, after finitely many
buffers of length zero, to a buffer that is not empty or to an error. -/
def MediaSource.NoEndlessEmpties (source : MediaSource) : Prop :=
  ∀ h : List (Option Int), ∃ i : Nat,
    (source.read (h ++ List.replicate (i + 1) none)).isEmpty = false

/-- The time stamps of the non-empty buffers of the source are not negative. -/
def MediaSource.TimesNonneg (source : MediaSource) : Prop :=
  ∀ (h : List (Option Int)) (b : MediaBuffer) (t : Int),
    (source.read h).buffer = some b → b.range_length ≠ 0 → b.kKeyTime = some t → 0 ≤ t

/-- A started session in which `fillBuffer` is defined: the source is there
and its answers pass the `CHECK`s, the output the code calls is there (line
655 calls the sink when an end of stream is notified without offload), frame
size and sample rate are not zero, and a stashed first buffer passes the
`CHECK` of line 609. -/
structure Session (st : State) (source : MediaSource) : Prop where
  started : st.mStarted = true
  hasSource : st.mSource = some source
  wellFormed : ∀ h, (source.read h).WellFormed
  output : st.mAudioSink = true ∨ st.mAudioTrack = true
  eosOutput : st.mObserver = true → st.mOffload = false → st.mAudioSink = true
  frameSize : st.mFrameSize ≠ 0
  sampleRate : st.mSampleRate ≠ 0
  firstBuffer : st.mIsFirstBuffer = true →
    (ReadResult.mk st.mFirstBufferResult st.mFirstBuffer).WellFormed

/-- The members that no pass of the loop of `fillBuffer` assigns. -/
structure SameConfig (a b : State) : Prop where
  mSource : b.mSource = a.mSource
  mAudioTrack : b.mAudioTrack = a.mAudioTrack
  mSampleRate : b.mSampleRate = a.mSampleRate
  mFrameSize : b.mFrameSize = a.mFrameSize
  mNumFramesPlayed : b.mNumFramesPlayed = a.mNumFramesPlayed
  mNumFramesPlayedSysTimeUs : b.mNumFramesPlayedSysTimeUs = a.mNumFramesPlayedSysTimeUs
  mSeekTimeUs : b.mSeekTimeUs = a.mSeekTimeUs
  mStarted : b.mStarted = a.mStarted
  mAudioSink : b.mAudioSink = a.mAudioSink
  mAllowDeepBuffering : b.mAllowDeepBuffering = a.mAllowDeepBuffering
  mObserver : b.mObserver = a.mObserver
  mPinnedTimeUs : b.mPinnedTimeUs = a.mPinnedTimeUs
  mOffload : b.mOffload = a.mOffload
  mFirstBufferResult : b.mFirstBufferResult = a.mFirstBufferResult

/-- The calls that set `mNumFramesPlayed` to zero. -/
def Op.resetsFramesPlayed : Op → Bool
  | .seekTo _ _ => true
  | .reset _ => true
  | .pause playPendingSamples _ => playPendingSamples
  | _ => false

/-! ## Concrete inputs -/

/-- A source of two buffers, of four bytes at time 0 and of two bytes at
time 2000, followed by the end of the stream; sample rate 1000, two
channels. -/
def exSource : MediaSource :=
  { start := OK
    getFormat :=
      { mimeIsRaw := some true
        kKeySampleRate := some 1000
        kKeyChannelCount := some 2
        kKeyChannelMask := none }
    read := fun h =>
      match h.length with
      | 1 => ⟨OK, some ⟨[1, 2, 3, 4], 0, 4, some 0⟩⟩
      | 2 => ⟨OK, some ⟨[5, 6], 0, 2, some 2000⟩⟩
      | _ => ⟨ERROR_END_OF_STREAM, none⟩ }

/-- A source whose first buffer has length zero, followed by the end of the
stream. -/
def exEmptySource : MediaSource :=
  { start := OK
    getFormat :=
      { mimeIsRaw := some true
        kKeySampleRate := some 1000
        kKeyChannelCount := some 2
        kKeyChannelMask := none }
    read := fun h =>
      match h.length with
      | 1 => ⟨OK, some ⟨[], 0, 0, some 0⟩⟩
      | _ => ⟨ERROR_END_OF_STREAM, none⟩ }

/-- A source that is at the end of the stream from the first read on. -/
def exEndedSource : MediaSource :=
  { start := OK
    getFormat :=
      { mimeIsRaw := some true
        kKeySampleRate := some 1000
        kKeyChannelCount := some 2
        kKeyChannelMask := none }
    read := fun _ => ⟨ERROR_END_OF_STREAM, none⟩ }

/-- An output with frames of two bytes and a latency of 10 ms that needs
trailing padding and reports no frame played. -/
def exOutput : Output :=
  { openStatus := OK
    initCheck := OK
    latency := fun _ => 10
    frameSize := 2
    getPosition := (OK, 0)
    needsTrailingPadding := true
    channelMaskFromCount := fun _ => 3 }

/-- The player of a sequence of calls made on a new player with a sink and an
observer. -/
def exRun (ops : List Op) : State :=
  match run (construct true false true 0 0) ops with
  | .ok st => st
  | .error _ => construct true false true 0 0

/-- A started player: a sink, an observer, `exSource`. -/
def exStarted : State := exRun [.setSource exSource, .start exOutput false]

/-- The started player after a `fillBuffer` of three bytes. -/
def exPlayed : State :=
  exRun [.setSource exSource, .start exOutput false, .fillBuffer 8 exOutput 3 5]

/-- The started player after `seekTo(700)`. -/
def exSeeking : State :=
  exRun [.setSource exSource, .start exOutput false, .fillBuffer 8 exOutput 3 5, .seekTo 700 6]

/-- A started player without sink (the `AudioTrack` is used) and with an
observer, on a source at the end of its stream. -/
def exTrackEnded : State :=
  match run (construct false false true 0 0)
      [.setSource exEndedSource, .start exOutput false] with
  | .ok st => st
  | .error _ => construct false false true 0 0

/-- The releases made when a pending seek is taken (lines 574-587): the
stashed first buffer, if it is still to be used, then the input buffer. -/
def heldReleases (st : State) : List Event :=
  (if st.mIsFirstBuffer then st.mFirstBuffer.toList.map Event.bufferRelease else []) ++
    st.mInputBuffer.toList.map Event.bufferRelease

/-- The events are neither reads nor copies. -/
def Silent (d : List Event) : Prop := ∀ e ∈ d, e.readStatus = none ∧ e.copied = 0

/-- No event is a read that failed. -/
def NoFailedRead (d : List Event) : Prop := ∀ e ∈ d, e.isFailedRead = false

/-- The number of buffers the player holds that the loop of `fillBuffer` uses
before it reads from the source: the input buffer and the stashed first
buffer. -/
def heldCount (st : State) : Nat :=
  (if st.mInputBuffer.isSome then 1 else 0) + (if st.mIsFirstBuffer then 1 else 0)

/-- The loop of `fillBuffer` returns when given enough passes. -/
def Halts (out : Output) (st : State) (l : Locals) : Prop :=
  ∃ fuel res, ∀ fuel', fuel ≤ fuel' → fillLoop out fuel' st l = .ok res

/-- The event is the notification `postAudioSeekComplete`. -/
def Event.isSeekComplete : Event → Bool
  | .postAudioSeekComplete => true
  | _ => false

/-- The event is the notification `postAudioEOS`. -/
def Event.isPostEOS : Event → Bool
  | .postAudioEOS _ => true
  | _ => false

/-- No event is a read with a seek target or the notification of a completed
seek. -/
def SeekFree (d : List Event) : Prop :=
  ∀ e ∈ d, e.isSeekRead = false ∧ e.isSeekComplete = false

/-- The player of exTrackEnded with a sink instead of the `AudioTrack`. -/
def exSinkEnded : State := exRun [.setSource exEndedSource, .start exOutput false]

/-- The player that has read one empty buffer and then the end of the
stream. -/
def exMixed : State :=
  exRun [.setSource exEmptySource, .start exOutput false, .fillBuffer 4 exOutput 1 5]

/-- The sample rate in the format of the source, when there is one, is
positive. -/
def MediaSource.RatePositive (source : MediaSource) : Prop :=
  ∀ rate, source.getFormat.kKeySampleRate = some rate → 0 < rate

/-- The sources handed over by the call have time stamps that are not negative
and a positive sample rate. -/
def Op.Good : Op → Prop
  | .setSource source => source.TimesNonneg ∧ source.RatePositive
  | _ => True

/-- A player as a constructor leaves it. -/
def IsNew (st : State) : Prop :=
  (∃ audioSink allowDeepBuffering observer now seekTime0,
      st = construct audioSink allowDeepBuffering observer now seekTime0) ∨
  (∃ audioSink flags observer now seekTime0,
      st = constructOffload audioSink flags observer now seekTime0)

/-- Facts that hold of every player reached from a constructor with sources
whose time stamps are not negative and whose sample rate is positive: frame
count and sample rate are not negative, and the stashed first buffer and the
source have time stamps that are not negative. -/
structure Sane (st : State) : Prop where
  frames : 0 ≤ st.mNumFramesPlayed
  rate : 0 ≤ st.mSampleRate
  firstBuffer : ∀ b t, st.mFirstBuffer = some b → b.range_length ≠ 0 →
    b.kKeyTime = some t → 0 ≤ t
  source : ∀ source, st.mSource = some source → source.TimesNonneg ∧ source.RatePositive

/-- The position times are both -1, or the real time is not negative and
the media time is -1 or not negative. -/
def MappingOK (st : State) : Prop :=
  (st.mPositionTimeRealUs = -1 ∧ st.mPositionTimeMediaUs = -1) ∨
  (0 ≤ st.mPositionTimeRealUs ∧
    (st.mPositionTimeMediaUs = -1 ∨ 0 ≤ st.mPositionTimeMediaUs))

/-- No event is the lookup of a time stamp: no buffer of non-zero length has
become the input buffer. -/
def NoKeyTime (d : List Event) : Prop := ∀ e ∈ d, e.isFindKeyTime = false

/-- Some event is the lookup of a time stamp: a buffer of non-zero length has
become the input buffer. -/
def HasKeyTime (d : List Event) : Prop := ∃ e ∈ d, e.isFindKeyTime = true

/-- The time stamp of the buffer, if it is not empty and has one, is not
negative. -/
def BufferTimeNonneg (buffer : Option MediaBuffer) : Prop :=
  ∀ b t, buffer = some b → b.range_length ≠ 0 → b.kKeyTime = some t → 0 ≤ t

/-- What a sequence of events without `seekTo` and `reset` does to the
position times of a player `a`, giving `b`: either no buffer of non-zero
length became the input buffer, the media time is unchanged and the real time
is unchanged or not negative; or one did, and both are not negative. -/
def MappingStep (a b : State) (d : List Event) : Prop :=
  (NoKeyTime d ∧ b.mPositionTimeMediaUs = a.mPositionTimeMediaUs ∧
    (b.mPositionTimeRealUs = a.mPositionTimeRealUs ∨ 0 ≤ b.mPositionTimeRealUs)) ∨
  (HasKeyTime d ∧ 0 ≤ b.mPositionTimeMediaUs ∧ 0 ≤ b.mPositionTimeRealUs)

/-- The calls that lead to the player exSeeking. -/
def exSeekingOps : List Op :=
  [.setSource exSource, .start exOutput false, .fillBuffer 8 exOutput 3 5, .seekTo 700 6]

/-- The player exSeeking after a `fillBuffer` of three bytes. -/
def exAfterSeek : State :=
  exRun (exSeekingOps ++ [.fillBuffer 8 exOutput 3 7])

/-- The calls that lead to the player exMixed. -/
def exMixedOps : List Op :=
  [.setSource exEmptySource, .start exOutput false, .fillBuffer 4 exOutput 1 5]

/-- The calls other than `fillBuffer`, `seekTo`, `pause` and `reset`. -/
def Op.keepsPin : Op → Bool
  | .setSource _ => true
  | .start _ _ => true
  | .resume => true
  | _ => false

/-- The player exPlayed after `pause(false)` at time 10. -/
def exPaused : State :=
  exRun [.setSource exSource, .start exOutput false, .fillBuffer 8 exOutput 3 5,
    .pause false 10]

/-- The player exPaused after `resume()`. -/
def exResumed : State :=
  exRun [.setSource exSource, .start exOutput false, .fillBuffer 8 exOutput 3 5,
    .pause false 10, .resume]

/-- What a `fillBuffer` of two bytes at time 12 leaves of the player
exResumed. -/
def exRefill : FillResult :=
  match fillBuffer 8 exResumed exOutput 2 12 with
  | .ok r => r
  | .error _ => { state := exResumed, size_done := 0, data := [] }

/-- The player exPaused after `reset()` at time 20. -/
def exPausedReset : State :=
  exRun [.setSource exSource, .start exOutput false, .fillBuffer 8 exOutput 3 5,
    .pause false 10, .reset 20]

/-- The source exSource with three channels and no channel mask in its
format. -/
def exThreeChannelSource : MediaSource :=
  { exSource with getFormat := { exSource.getFormat with kKeyChannelCount := some 3 } }

/-- An output as exOutput for which `audio_channel_out_mask_from_count`
yields the stereo mask for two channels and no mask (0) for the other
counts, three among them. -/
def exNoMaskOutput : Output :=
  { exOutput with channelMaskFromCount := fun n => if n = 2 then 3 else 0 }

/-- A new player without sink that has been given exThreeChannelSource. -/
def exTrackReady : State :=
  match run (construct false false true 0 0) [.setSource exThreeChannelSource] with
  | .ok st => st
  | .error _ => construct false false true 0 0

/-- No event is the notification `postAudioEOS`. -/
def NoPostEOS (d : List Event) : Prop := ∀ e ∈ d, e.isPostEOS = false

/-- The frames pending playout in the words of the specification: the frames
played minus the frames the sink reports, clamped to 0 when the query of the
position fails or the sink reports more frames than were played. -/
def specPendingFrames (framesPlayed : Int) (queryStatus : status_t) (framesReported : Nat) :
    Int :=
  if queryStatus ≠ OK ∨ framesPlayed < framesReported then 0
  else framesPlayed - framesReported

/-- The drain time in the words of the specification: the count
`P = pending + floor(bytesWritten / frameSize)`, as a 32-bit unsigned number,
converted to microseconds at the sample rate and rounded down. -/
def specDrainTimeUs (framesPlayed : Int) (queryStatus : status_t)
    (framesReported bytesWritten frameSize : Nat) (sampleRate : Int) : Int :=
  Int.fdiv
    (1000000 * ((specPendingFrames framesPlayed queryStatus framesReported +
      ((bytesWritten / frameSize : Nat) : Int)) % 4294967296))
    sampleRate

/-- An output as exOutput that needs no trailing padding. -/
def exOutputNoPadding : Output :=
  { exOutput with needsTrailingPadding := false }

/-- What a `fillBuffer` of eight bytes at time 5 leaves of the player
exStarted, with an output that needs trailing padding. -/
def exDrained : FillResult :=
  match fillBuffer 8 exStarted exOutput 8 5 with
  | .ok r => r
  | .error _ => { state := exStarted, size_done := 0, data := [] }

/-- What a `fillBuffer` of eight bytes at time 5 leaves of the player
exStarted, with an output that needs no trailing padding. -/
def exDrainedNoPadding : FillResult :=
  match fillBuffer 8 exStarted exOutputNoPadding 8 5 with
  | .ok r => r
  | .error _ => { state := exStarted, size_done := 0, data := [] }

/-- A buffer of 1764 bytes with time stamp `t`. -/
def scBuffer (t : Int) : MediaBuffer :=
  { data := List.replicate 1764 0, range_offset := 0, range_length := 1764, kKeyTime := some t }

/-- The source of the scenario: sample rate 44100, two channels, three
buffers of 1764 bytes with the time stamps 0, 10000 and 20000, then the end of
the stream. -/
def scSource : MediaSource :=
  { start := OK
    getFormat :=
      { mimeIsRaw := some true
        kKeySampleRate := some 44100
        kKeyChannelCount := some 2
        kKeyChannelMask := none }
    read := fun h =>
      match h.length with
      | 1 => ⟨OK, some (scBuffer 0)⟩
      | 2 => ⟨OK, some (scBuffer 10000)⟩
      | 3 => ⟨OK, some (scBuffer 20000)⟩
      | _ => ⟨ERROR_END_OF_STREAM, none⟩ }

/-- The sink of the scenario: frames of four bytes, a latency of 10 ms,
trailing padding needed, and `reported` frames played. -/
def scOutput (reported : Nat) : Output :=
  { openStatus := OK
    initCheck := OK
    latency := fun _ => 10
    frameSize := 4
    getPosition := (OK, reported)
    needsTrailingPadding := true
    channelMaskFromCount := fun _ => 3 }

/-- The player of the scenario, freshly started: a sink, an observer, no
seek. -/
def scStarted : State := exRun [.setSource scSource, .start (scOutput 0) false]

/-- What the first `fillBuffer` of 2048 bytes leaves. -/
def scFirst : FillResult :=
  match fillBuffer 3 scStarted (scOutput 0) 2048 1 with
  | .ok r => r
  | .error _ => { state := scStarted, size_done := 0, data := [] }

/-- What the second `fillBuffer` of 2048 bytes leaves. -/
def scSecond : FillResult :=
  match fillBuffer 3 scFirst.state (scOutput 0) 2048 2 with
  | .ok r => r
  | .error _ => { state := scStarted, size_done := 0, data := [] }

/-- The player and the locals in the third `fillBuffer` after two passes of
its loop: the rest of the third buffer copied, and the buffer released. -/
def scBeforeEnd : State × Locals :=
  match loopBody (scOutput 0) scSecond.state (Locals.init 2048) with
  | .error _ => (scSecond.state, Locals.init 2048)
  | .ok (s, l, _) =>
    match loopBody (scOutput 0) s l with
    | .error _ => (s, l)
    | .ok (s1, l1, _) => (s1, l1)

/-- The player in the third `fillBuffer` after the read that fails. -/
def scAtEnd : State :=
  match obtainBuffer scBeforeEnd.1 none with
  | .ok (s, _) => s
  | .error _ => scBeforeEnd.1

/-- The arguments of a call of `fillBuffer`: the bound on the passes of its
loop, the answers of the output, the size asked for and the clock value. -/
structure FillCall where
  fuel : Nat
  out : Output
  size : Nat
  now : Int

/-- A sequence of calls of `fillBuffer`: the player afterwards and what each
call returned, in order. -/
def fillSeq (st : State) : List FillCall → Except Fault (State × List FillResult)
  | [] => .ok (st, [])
  | c :: cs =>
    match fillBuffer c.fuel st c.out c.size c.now with
    | .error f => .error f
    | .ok r =>
      match fillSeq r.state cs with
      | .error f => .error f
      | .ok (st1, rs) => .ok (st1, r :: rs)

/-- The sum of the whole frames of the byte counts returned by the calls. -/
def framesOfCalls (frameSize : Nat) (rs : List FillResult) : Nat :=
  (rs.map (fun r => r.size_done / frameSize)).sum

/-- The sum of the byte counts returned by the calls. -/
def bytesOfCalls (rs : List FillResult) : Nat :=
  (rs.map (fun r => r.size_done)).sum

/-- Two calls of `fillBuffer` for three bytes each. -/
def exTwoCalls : List FillCall :=
  [{ fuel := 8, out := exOutput, size := 3, now := 5 },
   { fuel := 8, out := exOutput, size := 3, now := 6 }]

/-- What the two calls exTwoCalls leave of the player exStarted, and what
they return. -/
def exTwoFills : State × List FillResult :=
  match fillSeq exStarted exTwoCalls with
  | .ok x => x
  | .error _ => (exStarted, [])

/-- A source whose first buffer has length zero (and no time stamp), followed
by a buffer of two bytes at time 100 and the end of the stream. -/
def exGapSource : MediaSource :=
  { start := OK
    getFormat :=
      { mimeIsRaw := some true
        kKeySampleRate := some 1000
        kKeyChannelCount := some 2
        kKeyChannelMask := none }
    read := fun h =>
      match h.length with
      | 1 => ⟨OK, some ⟨[], 0, 0, none⟩⟩
      | 2 => ⟨OK, some ⟨[7, 8], 0, 2, some 100⟩⟩
      | _ => ⟨ERROR_END_OF_STREAM, none⟩ }

/-- A started player on exGapSource. -/
def exGapStarted : State := exRun [.setSource exGapSource, .start exOutput false]

/-- The player exGapStarted once the buffer stashed by `start` has become the
input buffer. -/
def exGapTaken : State :=
  match obtainBuffer exGapStarted none with
  | .ok (s, _) => s
  | .error _ => exGapStarted

/-- What a `fillBuffer` of two bytes at time 5 leaves of the player
exGapStarted. -/
def exGapFilled : FillResult :=
  match fillBuffer 8 exGapStarted exOutput 2 5 with
  | .ok r => r
  | .error _ => { state := exGapStarted, size_done := 0, data := [] }

/-- Every read of the source hands back a buffer of length zero. -/
def MediaSource.OnlyEmpties (source : MediaSource) : Prop :=
  ∀ h : List (Option Int), (source.read h).isEmpty = true

/-- The player holds no byte to deliver: the input buffer, if there is one,
has length zero, and so has the stashed first buffer if it is still to be
used. -/
def HoldsNoByte (st : State) : Prop :=
  (∀ b, st.mInputBuffer = some b → b.range_length = 0) ∧
  (st.mIsFirstBuffer = true → ∃ b, st.mFirstBuffer = some b ∧ b.range_length = 0)

/-- A source that hands back buffers of length zero for ever. -/
def exEndlessSource : MediaSource :=
  { start := OK
    getFormat :=
      { mimeIsRaw := some true
        kKeySampleRate := some 1000
        kKeyChannelCount := some 2
        kKeyChannelMask := none }
    read := fun _ => ⟨OK, some ⟨[], 0, 0, none⟩⟩ }

/-- A started player on exEndlessSource. -/
def exEndless : State := exRun [.setSource exEndlessSource, .start exOutput false]

/-- The number of buffers the player holds: the stashed first buffer and the
input buffer, each counted when the pointer is not null. -/
def heldBuffers (st : State) : Nat :=
  (if st.mFirstBuffer.isSome then 1 else 0) + (if st.mInputBuffer.isSome then 1 else 0)

/-- Follows the buffers of the source along a list of calls, `n` being the
number of buffers held before them: a read of the source is allowed only when
no buffer is held, and one is held after it when it hands back a buffer; a
release is allowed only when exactly one buffer is held, and none is held
after it; the other calls change nothing.  The result is the number of
buffers held after the calls, or `none` when a call is not allowed. -/
def holdAfter : Nat → List Event → Option Nat
  | n, [] => some n
  | n, .sourceRead _ _ buffer :: es =>
    if n = 0 then holdAfter (if buffer.isSome then 1 else 0) es else none
  | n, .bufferRelease _ :: es => if n = 1 then holdAfter 0 es else none
  | n, _ :: es => holdAfter n es

/-- The event is a read of the source that hands back a buffer. -/
def Event.isObtain : Event → Bool
  | .sourceRead _ _ (some _) => true
  | _ => false

/-- The event is the release of a buffer. -/
def Event.isRelease : Event → Bool
  | .bufferRelease _ => true
  | _ => false

/-- The event is neither a read of the source nor the release of a buffer. -/
def Event.isNeutral : Event → Bool
  | .sourceRead _ _ _ => false
  | .bufferRelease _ => false
  | _ => true

/-- The call is a `fillBuffer`. -/
def Op.isFill : Op → Bool
  | .fillBuffer _ _ _ _ => true
  | _ => false

/-- Along the sequence of calls, `fillBuffer` is called on a started player
only: it is private and reached from the callback of the output, which runs
between a `start` that returned `OK` and the next `reset`. -/
def FillsWhenStarted (st : State) : List Op → Prop
  | [] => True
  | op :: ops =>
    (op.isFill = true → st.mStarted = true) ∧
    match step st op with
    | .ok st1 => FillsWhenStarted st1 ops
    | .error _ => True

/-- The stashed first buffer, when there is one, is still to be used and no
input buffer is held with it; a player that is not started holds no input
buffer. -/
structure BufferInv (st : State) : Prop where
  first : st.mFirstBuffer.isSome = true → st.mIsFirstBuffer = true ∧ st.mInputBuffer = none
  idle : st.mStarted = false → st.mInputBuffer = none

/-- The stashed first buffer, when there is one, is still to be used and no
input buffer is held with it. -/
def FirstInv (st : State) : Prop :=
  st.mFirstBuffer.isSome = true → st.mIsFirstBuffer = true ∧ st.mInputBuffer = none

/-- The events `d` lead from the buffers held by `a` to those held by `b`,
every read and every release among them being allowed. -/
def HoldStep (a b : State) (d : List Event) : Prop :=
  holdAfter (heldBuffers a) d = some (heldBuffers b)

/-- The bytes of the range of the buffer: `range_length()` bytes from
`data() + range_offset()` on. -/
def MediaBuffer.payload (b : MediaBuffer) : List Nat :=
  (b.data.drop b.range_offset).take b.range_length

/-- The range of the buffer lies within its data. -/
def MediaBuffer.InBounds (b : MediaBuffer) : Prop :=
  b.range_offset + b.range_length ≤ b.data.length

/-- The payloads of the buffers, one after the other. -/
def payloads : List MediaBuffer → List Nat
  | [] => []
  | b :: bs => b.payload ++ payloads bs

/-- The source yields the buffers `bufs` and then an end condition: its reads
without seek target hand back the buffers of `bufs` in order, and no buffer
after them. -/
def MediaSource.Yields (source : MediaSource) (bufs : List MediaBuffer) : Prop :=
  ∀ n : Nat, (source.read (List.replicate (n + 1) none)).buffer = bufs[n]?

/-- The payload of a buffer pointer: nothing when it is null. -/
def heldPayload : Option MediaBuffer → List Nat
  | some b => b.payload
  | none => []

/-- The bytes the player has still to deliver from a source that yields
`bufs`: what is left of the input buffer, the stashed first buffer if it is
still to be used, and the buffers the source has not handed back yet. -/
def upcoming (bufs : List MediaBuffer) (st : State) : List Nat :=
  heldPayload st.mInputBuffer ++
    ((if st.mIsFirstBuffer then heldPayload st.mFirstBuffer else []) ++
      payloads (bufs.drop st.reads.length))

/-- A player in the middle of a stream without seek: no seek is pending and
none was asked of the source, the input buffer is within its bounds, the
result stashed by `start`, when still to be used, is the answer to the last
read, and the end of the stream is marked only when nothing is left to
deliver. -/
structure Streaming (source : MediaSource) (bufs : List MediaBuffer) (st : State) : Prop where
  noSeek : st.mSeeking = false
  reads : st.reads = List.replicate st.reads.length none
  input : ∀ b, st.mInputBuffer = some b → b.InBounds
  first : st.mIsFirstBuffer = true →
    st.reads ≠ [] ∧ st.mFirstBuffer = (source.read st.reads).buffer
  eos : st.mReachedEOS = true → upcoming bufs st = []

/-- A bound on the passes the loop of `fillBuffer` makes from the player `st`
on a source that yields `bufs`: two for each buffer not yet obtained, two for
the stashed first buffer, two for an input buffer that is not empty and one
for an empty one, and the last pass. -/
def passBound (bufs : List MediaBuffer) (st : State) : Nat :=
  2 * (bufs.length - st.reads.length) + (if st.mIsFirstBuffer then 2 else 0) +
    (match st.mInputBuffer with
     | some b => if b.range_length = 0 then 1 else 2
     | none => 0) + 1

/-- The bytes written by the calls, one call after the other. -/
def writtenBytes : List FillResult → List Nat
  | [] => []
  | r :: rs => r.data ++ writtenBytes rs

/-- What the specification has the calls return, for sizes `n1 .. nm` and
`left` bytes of payload not yet delivered: call j returns the minimum of `nj`
and of what is left at that point. -/
def specReturns : Nat → List Nat → List Nat
  | _, [] => []
  | left, n :: ns => min n left :: specReturns (left - min n left) ns

/-- What the specification has the calls write, for a stream `s` and sizes
`n1 .. nm`: each call takes the next `nj` bytes of the stream, or what is
left of it. -/
def specChunks : List Nat → List Nat → List (List Nat)
  | _, [] => []
  | s, n :: ns => s.take n :: specChunks (s.drop n) ns

/-- The buffers that `exSource` yields. -/
def exBuffers : List MediaBuffer :=
  [⟨[1, 2, 3, 4], 0, 4, some 0⟩, ⟨[5, 6], 0, 2, some 2000⟩]

/-- Three calls of `fillBuffer`, for three, two and four bytes. -/
def exStreamCalls : List FillCall :=
  [{ fuel := 9, out := exOutput, size := 3, now := 5 },
   { fuel := 9, out := exOutput, size := 2, now := 6 },
   { fuel := 9, out := exOutput, size := 4, now := 7 }]

/-- What the three calls exStreamCalls leave of the player exStarted, and
what they return. -/
def exStreamFills : State × List FillResult :=
  match fillSeq exStarted exStreamCalls with
  | .ok x => x
  | .error _ => (exStarted, [])

/-- The event is one by which a buffer of non-zero length is obtained: a read
of the source, or the use of the result stashed by `start` (lines 599-607),
that hands back such a buffer. -/
def Event.adoptsNonEmpty : Event → Bool
  | .sourceRead _ _ (some b) => b.range_length != 0
  | .firstBufferTaken _ (some b) => b.range_length != 0
  | _ => false

/-- Some call of `fillBuffer` among the calls `ops`, made from the player
`st`, has obtained a buffer of non-zero length as its input buffer: among the
events of that call there is a read of the source, or the use of the stashed
first buffer, that hands back such a buffer. -/
def adoptedNonEmpty (st : State) : List Op → Bool
  | [] => false
  | op :: ops =>
    match step st op with
    | .ok st1 =>
      (op.isFill && (st1.trace.drop st.trace.length).any Event.adoptsNonEmpty) ||
        adoptedNonEmpty st1 ops
    | .error _ => false

/-- A started player on exEmptySource after a `fillBuffer` of three bytes:
the only buffer read has length zero. -/
def exOnlyEmpty : State :=
  exRun [.setSource exEmptySource, .start exOutput false, .fillBuffer 8 exOutput 3 5]

/-! ## Theorems -/

/-! ### The loop leaves the configuration alone -/

theorem SameConfig.refl (a : State) : SameConfig a a := by
  constructor <;> rfl

theorem SameConfig.trans {a b c : State} (h1 : SameConfig a b) (h2 : SameConfig b c) :
    SameConfig a c := by
  constructor
  · exact h2.mSource.trans h1.mSource
  · exact h2.mAudioTrack.trans h1.mAudioTrack
  · exact h2.mSampleRate.trans h1.mSampleRate
  · exact h2.mFrameSize.trans h1.mFrameSize
  · exact h2.mNumFramesPlayed.trans h1.mNumFramesPlayed
  · exact h2.mNumFramesPlayedSysTimeUs.trans h1.mNumFramesPlayedSysTimeUs
  · exact h2.mSeekTimeUs.trans h1.mSeekTimeUs
  · exact h2.mStarted.trans h1.mStarted
  · exact h2.mAudioSink.trans h1.mAudioSink
  · exact h2.mAllowDeepBuffering.trans h1.mAllowDeepBuffering
  · exact h2.mObserver.trans h1.mObserver
  · exact h2.mPinnedTimeUs.trans h1.mPinnedTimeUs
  · exact h2.mOffload.trans h1.mOffload
  · exact h2.mFirstBufferResult.trans h1.mFirstBufferResult

theorem seekCheck_config (st : State) (l : Locals) : SameConfig st (seekCheck st l).1 := by
  unfold seekCheck
  split
  · split <;> constructor <;> rfl
  · exact SameConfig.refl st

theorem consume_config (st : State) (l : Locals) (b : MediaBuffer) :
    SameConfig st (consume st l b).1 := by
  unfold consume
  split <;> constructor <;> rfl

theorem obtainBuffer_config {st st2 : State} {o : Option Int} {err : status_t}
    (h : obtainBuffer st o = .ok (st2, err)) : SameConfig st st2 := by
  unfold obtainBuffer at h
  split at h
  · cases h; constructor <;> rfl
  · split at h
    · cases h
    · cases h; constructor <;> rfl

theorem readError_config {st st3 : State} {out : Output} {l l3 : Locals} {err : status_t}
    (h : readError st out l err = .ok (st3, l3)) : SameConfig st st3 := by
  unfold readError at h
  repeat' split at h
  all_goals cases h
  all_goals constructor <;> rfl

theorem readSuccess_config {st st3 : State} {out : Output} {l : Locals} {b : MediaBuffer}
    (h : readSuccess st out l b = .ok st3) : SameConfig st st3 := by
  simp only [readSuccess, State.log] at h
  split_ifs at h <;> cases h <;> constructor <;> rfl

/-- The ways a pass of the loop ends: the held buffer is consumed, or a buffer
is obtained and the read failed (`break`), or it succeeded and the new buffer
is consumed. -/
theorem loopTail_cases {out : Output} {st st' : State} {l l' : Locals} {o : Option Int}
    {c : Bool} (h : loopTail out st l o = .ok (st', l', c)) :
    (∃ b, st.mInputBuffer = some b ∧ consume st l b = (st', l') ∧ c = true) ∨
    (st.mInputBuffer = none ∧ ∃ st2 err, obtainBuffer st o = .ok (st2, err) ∧
      ((st2.mInputBuffer = none ∧ err ≠ OK ∧ readError st2 out l err = .ok (st', l') ∧
          c = false) ∨
       (∃ b st3, st2.mInputBuffer = some b ∧ err = OK ∧ readSuccess st2 out l b = .ok st3 ∧
          consume st3 l b = (st', l') ∧ c = true))) := by
  unfold loopTail at h
  split at h
  · rename_i b hb
    left
    refine ⟨b, hb, ?_⟩
    simp only [Except.ok.injEq, Prod.mk.injEq] at h
    exact ⟨Prod.ext h.1 h.2.1, h.2.2.symm⟩
  · rename_i hb
    right
    refine ⟨hb, ?_⟩
    split at h
    · cases h
    · rename_i st2 err ho
      refine ⟨st2, err, ho, ?_⟩
      split at h
      · rename_i hb2
        left
        split at h
        · cases h
        · rename_i herr
          split at h
          · cases h
          · rename_i st3 l3 hre
            simp only [Except.ok.injEq, Prod.mk.injEq] at h
            obtain ⟨rfl, rfl, rfl⟩ := h
            exact ⟨hb2, herr, hre, rfl⟩
      · rename_i b hb2
        right
        split at h
        · cases h
        · rename_i herr
          split at h
          · cases h
          · rename_i st3 hrs
            simp only [Except.ok.injEq, Prod.mk.injEq] at h
            refine ⟨b, st3, hb2, by simpa using herr, hrs, Prod.ext h.1 h.2.1, h.2.2.symm⟩

theorem loopTail_config {out : Output} {st st' : State} {l l' : Locals} {o : Option Int}
    {c : Bool} (h : loopTail out st l o = .ok (st', l', c)) : SameConfig st st' := by
  rcases loopTail_cases h with ⟨b, -, hc, -⟩ | ⟨-, st2, err, ho, h2⟩
  · have := consume_config st l b
    rw [hc] at this; exact this
  · rcases h2 with ⟨-, -, hre, -⟩ | ⟨b, st3, -, -, hrs, hc, -⟩
    · exact (obtainBuffer_config ho).trans (readError_config hre)
    · have := consume_config st3 l b
      rw [hc] at this
      exact ((obtainBuffer_config ho).trans (readSuccess_config hrs)).trans this

theorem loopBody_config {out : Output} {st st' : State} {l l' : Locals} {c : Bool}
    (h : loopBody out st l = .ok (st', l', c)) : SameConfig st st' :=
  (seekCheck_config st l).trans (loopTail_config h)

theorem fillLoop_config {out : Output} (fuel : Nat) {st st' : State} {l l' : Locals}
    (h : fillLoop out fuel st l = .ok (st', l')) : SameConfig st st' := by
  induction fuel generalizing st l with
  | zero =>
    unfold fillLoop at h
    split at h
    · cases h; exact SameConfig.refl _
    · cases h
  | succ n ih =>
    unfold fillLoop at h
    split at h
    · cases h; exact SameConfig.refl _
    · split at h
      · cases h
      · rename_i st1 l1 hb
        exact (loopBody_config hb).trans (ih h)
      · rename_i st1 l1 hb
        cases h
        exact loopBody_config hb

/-! ### seekTo -/

theorem fillFinish_state {st : State} {l : Locals} {now : Int} {r : FillResult}
    (h : fillFinish st l now = .ok r) :
    r.size_done = l.size_done ∧ r.data = l.data ∧
    r.state.mNumFramesPlayed =
      st.mNumFramesPlayed + ((l.size_done / st.mFrameSize : Nat) : Int) ∧
    r.state.mNumFramesPlayedSysTimeUs = now ∧
    r.state.mPinnedTimeUs = (if st.mReachedEOS then now else -1) ∧
    r.state.mReachedEOS = st.mReachedEOS := by
  simp only [fillFinish, State.log] at h
  split_ifs at h <;> cases h <;> simp [*]

/-- The frame count and the clock members across a call of `fillBuffer`
entered with `mReachedEOS` false. -/
theorem fillBuffer_clock (fuel : Nat) (st : State) (out : Output) (size : Nat) (now : Int)
    (r : FillResult) (heos : st.mReachedEOS = false)
    (h : fillBuffer fuel st out size now = .ok r) :
    r.state.mNumFramesPlayed =
      st.mNumFramesPlayed + ((r.size_done / st.mFrameSize : Nat) : Int) ∧
    st.mNumFramesPlayed ≤ r.state.mNumFramesPlayed ∧
    r.state.mNumFramesPlayedSysTimeUs = now ∧
    r.state.mPinnedTimeUs = (if r.state.mReachedEOS then now else -1) := by
  simp only [fillBuffer, heos, Bool.false_eq_true, if_false] at h
  split at h
  · cases h
  · rename_i st1 l hl
    have hc := fillLoop_config fuel hl
    obtain ⟨h1, -, h3, h4, h5, h6⟩ := fillFinish_state h
    rw [hc.mNumFramesPlayed, hc.mFrameSize] at h3
    rw [h1, h6]
    refine ⟨h3, ?_, h4, h5⟩
    rw [h3]
    exact le_add_of_nonneg_right (Int.ofNat_nonneg _)

/-- C7: a call of `fillBuffer` entered with `mReachedEOS` false that returns
`r` bytes at time `now` leaves `mNumFramesPlayed` increased by
`r / mFrameSize` (so not decreased), `mNumFramesPlayedSysTimeUs = now`, and
`mPinnedTimeUs = now` when `mReachedEOS` is true on return, -1 otherwise. -/
theorem fillBuffer_frames (fuel : Nat) (st : State) (out : Output) (size : Nat) (now : Int)
    (r : FillResult) (heos : st.mReachedEOS = false)
    (h : fillBuffer fuel st out size now = .ok r) :
    r.state.mNumFramesPlayed =
      st.mNumFramesPlayed + ((r.size_done / st.mFrameSize : Nat) : Int) ∧
    st.mNumFramesPlayed ≤ r.state.mNumFramesPlayed ∧
    r.state.mNumFramesPlayedSysTimeUs = now ∧
    r.state.mPinnedTimeUs = (if r.state.mReachedEOS then now else -1) :=
  fillBuffer_clock fuel st out size now r heos h

theorem fillBuffer_frames_witness :
    exStarted.mReachedEOS = false ∧
    ∃ r, fillBuffer 8 exStarted exOutput 3 5 = .ok r ∧
      r.state.mNumFramesPlayed =
        exStarted.mNumFramesPlayed + ((r.size_done / exStarted.mFrameSize : Nat) : Int) ∧
      exStarted.mNumFramesPlayed ≤ r.state.mNumFramesPlayed ∧
      r.state.mNumFramesPlayedSysTimeUs = 5 ∧
      r.state.mPinnedTimeUs = (if r.state.mReachedEOS then 5 else -1) :=
  ⟨rfl, _, rfl, fillBuffer_frames 8 exStarted exOutput 3 5 _ rfl rfl⟩

theorem startOutput_framesPlayed {st st' : State} {out : Output} {format : MetaData}
    {b : Bool} {s : status_t} (h : startOutput st out format b = .ok (st', s)) :
    st'.mNumFramesPlayed = st.mNumFramesPlayed := by
  simp only [startOutput, startCleanup, releaseFirstBuffer, State.log] at h
  repeat' split at h
  all_goals cases h
  all_goals rfl

theorem startRead_framesPlayed {st st' : State} {source : MediaSource} {out : Output}
    {b : Bool} {s : status_t} (h : startRead st source out b = .ok (st', s)) :
    st'.mNumFramesPlayed = st.mNumFramesPlayed := by
  simp only [startRead, State.log] at h
  split_ifs at h
  all_goals
    have h2 := startOutput_framesPlayed h
    simpa using h2

theorem start_framesPlayed {st st' : State} {out : Output} {b : Bool} {s : status_t}
    (h : start st out b = .ok (st', s)) : st'.mNumFramesPlayed = st.mNumFramesPlayed := by
  simp only [start, State.log] at h
  split at h
  · cases h
  split at h
  · cases h
  split_ifs at h
  · exact startRead_framesPlayed h
  · cases h; rfl
  · have h2 := startRead_framesPlayed h
    simpa using h2

/-- C8, as amended: `mNumFramesPlayed` is set to zero by `seekTo`, by `reset`
and by `pause(true)`; after every other call (`setSource`, `start`,
`pause(false)`, `resume`, `fillBuffer`) it is at least what it was before the
call.  The queries (`isSeeking`, `reachedEOS`, `getRealTimeUs`,
`getMediaTimeUs`, `getMediaTimeMapping`) do not assign the player at all. -/
theorem framesPlayed_monotone (st : State) (op : Op) (st' : State)
    (h : step st op = .ok st') :
    (op.resetsFramesPlayed = true → st'.mNumFramesPlayed = 0) ∧
    (op.resetsFramesPlayed = false → st.mNumFramesPlayed ≤ st'.mNumFramesPlayed) := by
  cases op with
  | setSource source =>
    simp only [step, setSource] at h
    split at h
    · cases h
    · cases h; simp [Op.resetsFramesPlayed]
  | start out b =>
    simp only [step, Except.map] at h
    split at h
    · cases h
    · rename_i x hx
      cases h
      obtain ⟨st1, s⟩ := x
      simp [Op.resetsFramesPlayed, start_framesPlayed hx]
  | pause p now =>
    simp only [step, pause, State.log] at h
    split_ifs at h <;> cases h <;> simp_all [Op.resetsFramesPlayed]
  | resume =>
    simp only [step, resume, State.log] at h
    split_ifs at h
    cases h
    simp [Op.resetsFramesPlayed]
  | reset now =>
    simp only [step, reset, State.log, releaseInputBuffer, releaseFirstBuffer] at h
    split_ifs at h <;> cases h <;> simp [Op.resetsFramesPlayed]
  | seekTo t now =>
    simp only [step, seekTo, State.log, Except.map] at h
    split at h
    · cases h
    · rename_i x hx
      cases h
      split_ifs at hx
      all_goals cases hx
      all_goals simp [Op.resetsFramesPlayed]
  | fillBuffer fuel out size now =>
    simp only [step, Except.map] at h
    split at h
    · cases h
    · rename_i r hr
      cases h
      simp only [Op.resetsFramesPlayed, Bool.false_eq_true, false_implies, true_and,
        forall_const]
      cases heos : st.mReachedEOS with
      | false => exact (fillBuffer_clock fuel st out size now r heos hr).2.1
      | true =>
        simp only [fillBuffer, heos, if_true] at hr
        cases hr
        exact le_refl _

theorem framesPlayed_monotone_witness :
    step exStarted (.fillBuffer 8 exOutput 3 5) = .ok exPlayed ∧
    ((Op.fillBuffer 8 exOutput 3 5).resetsFramesPlayed = true →
      exPlayed.mNumFramesPlayed = 0) ∧
    ((Op.fillBuffer 8 exOutput 3 5).resetsFramesPlayed = false →
      exStarted.mNumFramesPlayed ≤ exPlayed.mNumFramesPlayed) :=
  ⟨rfl, framesPlayed_monotone exStarted (.fillBuffer 8 exOutput 3 5) exPlayed rfl⟩

/-- C8, counterexample: `pause(true)` on a player that has played one frame
returns and leaves `mNumFramesPlayed` at zero, less than before. -/
theorem pause_pending_resets_framesPlayed :
    exPlayed.mStarted = true ∧ exPlayed.mNumFramesPlayed = 1 ∧
    ∃ st', pause exPlayed true 9 = .ok st' ∧
      ¬ (exPlayed.mNumFramesPlayed ≤ st'.mNumFramesPlayed) :=
  ⟨rfl, rfl, _, rfl, by decide⟩

/-! ### Events of a pass -/

theorem copiedBytes_append (a b : List Event) :
    copiedBytes (a ++ b) = copiedBytes a + copiedBytes b := by
  simp [copiedBytes]

theorem copiedBytes_nil : copiedBytes [] = 0 := rfl

theorem Silent.copiedBytes {d : List Event} (h : Silent d) : copiedBytes d = 0 := by
  induction d with
  | nil => rfl
  | cons e es ih =>
    have h1 := (h e (List.mem_cons_self _ _)).2
    have h2 := ih (fun x hx => h x (List.mem_cons_of_mem _ hx))
    simp only [AudioPlayer.copiedBytes, List.map_cons, List.sum_cons] at h2 ⊢
    omega

theorem Silent.noFailedRead {d : List Event} (h : Silent d) : NoFailedRead d := by
  intro e he
  simp [Event.isFailedRead, (h e he).1]

theorem Silent.nil : Silent [] := by
  intro e he; cases he

theorem Silent.append {a b : List Event} (ha : Silent a) (hb : Silent b) : Silent (a ++ b) := by
  intro e he
  rcases List.mem_append.1 he with h | h
  · exact ha e h
  · exact hb e h

theorem NoFailedRead.concat {a b : List Event} (ha : NoFailedRead a) (hb : NoFailedRead b) :
    NoFailedRead (a ++ b) := by
  intro e he
  rcases List.mem_append.1 he with h | h
  · exact ha e h
  · exact hb e h

theorem NoFailedRead.empty : NoFailedRead [] := by
  intro e he; cases he

theorem heldReleases_silent (st : State) : Silent (heldReleases st) := by
  intro e he
  unfold heldReleases at he
  rcases List.mem_append.1 he with h | h
  · split at h
    · obtain ⟨b, -, rfl⟩ := List.mem_map.1 h
      exact ⟨rfl, rfl⟩
    · cases h
  · obtain ⟨b, -, rfl⟩ := List.mem_map.1 h
    exact ⟨rfl, rfl⟩

/-- What `seekCheck` does when a seek is pending. -/
theorem seekCheck_seeking {st : State} (l : Locals) (h : st.mSeeking = true) :
    (seekCheck st l).1.trace = st.trace ++ heldReleases st ∧
    (seekCheck st l).1.mSeeking = false ∧
    (seekCheck st l).1.mInputBuffer = none ∧
    (seekCheck st l).1.mIsFirstBuffer = false ∧
    (seekCheck st l).1.reads = st.reads ∧
    (seekCheck st l).2.2 = some st.mSeekTimeUs ∧
    (seekCheck st l).2.1 =
      { l with postSeekComplete := if st.mObserver then true else l.postSeekComplete } := by
  unfold seekCheck heldReleases releaseInputBuffer releaseFirstBuffer State.log
  rw [if_pos h]
  cases hf : st.mIsFirstBuffer <;> simp [hf]

/-- What `seekCheck` does when no seek is pending. -/
theorem seekCheck_idle {st : State} (l : Locals) (h : st.mSeeking = false) :
    seekCheck st l = (st, l, none) := by
  unfold seekCheck
  simp [h]

/-- Facts about `seekCheck` in both cases. -/
theorem seekCheck_trace (st : State) (l : Locals) :
    ∃ d, (seekCheck st l).1.trace = st.trace ++ d ∧ Silent d ∧
      (seekCheck st l).1.mReachedEOS = st.mReachedEOS ∧
      (seekCheck st l).1.mFinalStatus = st.mFinalStatus ∧
      (seekCheck st l).2.1.size_done = l.size_done ∧
      (seekCheck st l).2.1.size_remaining = l.size_remaining ∧
      (seekCheck st l).2.1.postEOS = l.postEOS ∧
      (seekCheck st l).2.1.postEOSDelayUs = l.postEOSDelayUs ∧
      (seekCheck st l).2.1.data = l.data := by
  cases h : st.mSeeking with
  | true =>
    obtain ⟨h1, -, -, -, -, -, h7⟩ := seekCheck_seeking l h
    refine ⟨_, h1, heldReleases_silent st, ?_, ?_, ?_⟩
    · unfold seekCheck releaseInputBuffer releaseFirstBuffer State.log
      rw [if_pos h]; split <;> rfl
    · unfold seekCheck releaseInputBuffer releaseFirstBuffer State.log
      rw [if_pos h]; split <;> rfl
    · rw [h7]; simp
  | false =>
    rw [seekCheck_idle l h]
    exact ⟨[], by simp, Silent.nil, rfl, rfl, rfl, rfl, rfl, rfl, rfl⟩

theorem consume_trace (st : State) (l : Locals) (b : MediaBuffer) :
    ∃ e, (consume st l b).1.trace = st.trace ++ [e] ∧ e.readStatus = none ∧
      (consume st l b).2.size_done = l.size_done + e.copied ∧
      (consume st l b).2.size_done + (consume st l b).2.size_remaining =
        l.size_done + l.size_remaining ∧
      (l.size_remaining ≠ 0 → b.range_length ≠ 0 →
        (consume st l b).2.size_remaining < l.size_remaining) ∧
      (consume st l b).1.mReachedEOS = st.mReachedEOS ∧
      (consume st l b).1.mFinalStatus = st.mFinalStatus ∧
      (consume st l b).2.postEOS = l.postEOS ∧
      (consume st l b).2.postEOSDelayUs = l.postEOSDelayUs ∧
      (consume st l b).2.postSeekComplete = l.postSeekComplete := by
  unfold consume
  split
  · rename_i h0
    exact ⟨.bufferRelease b, rfl, rfl, rfl, rfl, fun _ h => absurd h0 h, rfl, rfl, rfl, rfl, rfl⟩
  · rename_i h0
    refine ⟨.memcpy b _, rfl, rfl, rfl, ?_, ?_, rfl, rfl, rfl, rfl, rfl⟩
    · simp only
      split <;> omega
    · intro h1 _
      simp only
      split <;> omega

theorem obtainBuffer_trace {st st2 : State} {o : Option Int} {err : status_t}
    (h : obtainBuffer st o = .ok (st2, err)) :
    ∃ e, st2.trace = st.trace ++ [e] ∧ e.readStatus = some err ∧ e.copied = 0 ∧
      st2.mReachedEOS = st.mReachedEOS ∧ st2.mFinalStatus = st.mFinalStatus := by
  unfold obtainBuffer at h
  split at h
  · cases h; exact ⟨_, rfl, rfl, rfl, rfl, rfl⟩
  · split at h
    · cases h
    · cases h; exact ⟨_, rfl, rfl, rfl, rfl, rfl⟩

theorem readError_trace {st st3 : State} {out : Output} {l l3 : Locals} {err : status_t}
    (h : readError st out l err = .ok (st3, l3)) :
    ∃ d, st3.trace = st.trace ++ d ∧ Silent d ∧
      st3.mReachedEOS = true ∧ st3.mFinalStatus = err ∧
      l3.size_done = l.size_done ∧ l3.size_remaining = l.size_remaining ∧
      l3.data = l.data ∧ l3.postSeekComplete = l.postSeekComplete := by
  unfold readError at h
  repeat' split at h
  all_goals cases h
  all_goals first
    | exact ⟨[], (List.append_nil _).symm, Silent.nil, rfl, rfl, rfl, rfl, rfl, rfl⟩
    | refine ⟨[.setOffloadEOSReached], rfl, ?_, rfl, rfl, rfl, rfl, rfl, rfl⟩
      intro e he
      simp only [List.mem_singleton] at he
      subst he
      exact ⟨rfl, rfl⟩

theorem readSuccess_trace {st st3 : State} {out : Output} {l : Locals} {b : MediaBuffer}
    (h : readSuccess st out l b = .ok st3) :
    ∃ d, st3.trace = st.trace ++ d ∧ Silent d ∧
      st3.mReachedEOS = st.mReachedEOS ∧ st3.mFinalStatus = st.mFinalStatus := by
  simp only [readSuccess, State.log] at h
  split_ifs at h <;> cases h
  all_goals first
    | exact ⟨[], (List.append_nil _).symm, Silent.nil, rfl, rfl⟩
    | refine ⟨[_], rfl, ?_, rfl, rfl⟩
      intro e he
      simp only [List.mem_singleton] at he
      subst he
      exact ⟨rfl, rfl⟩
    | refine ⟨[_, _], (List.append_assoc _ _ _), ?_, rfl, rfl⟩
      intro e he
      simp only [List.mem_cons, List.mem_singleton, List.not_mem_nil, or_false] at he
      rcases he with rfl | rfl <;> exact ⟨rfl, rfl⟩

/-! ### Induction over the passes of the loop -/

/-- A property `R` of the player, the locals and the events since loop entry
that every continuing pass keeps, and a property `B` that a pass ending with
`break` establishes: when the loop returns, either the destination is full
and `R` holds, or `B` holds. -/
theorem fillLoop_induct {out : Output} (R B : State → Locals → List Event → Prop)
    (hstep : ∀ s1 l1 d s2 l2 c, R s1 l1 d → l1.size_remaining ≠ 0 →
      loopBody out s1 l1 = .ok (s2, l2, c) →
      ∃ d2, s2.trace = s1.trace ++ d2 ∧
        (c = true → R s2 l2 (d ++ d2)) ∧ (c = false → B s2 l2 (d ++ d2)))
    (fuel : Nat) {st st' : State} {l l' : Locals} (d0 : List Event) (h0 : R st l d0)
    (h : fillLoop out fuel st l = .ok (st', l')) :
    ∃ d, st'.trace = st.trace ++ d ∧
      ((l'.size_remaining = 0 ∧ R st' l' (d0 ++ d)) ∨ B st' l' (d0 ++ d)) := by
  induction fuel generalizing st l d0 with
  | zero =>
    unfold fillLoop at h
    split at h
    · rename_i hz
      cases h
      exact ⟨[], by simp, Or.inl ⟨hz, by simpa using h0⟩⟩
    · cases h
  | succ n ih =>
    unfold fillLoop at h
    split at h
    · rename_i hz
      cases h
      exact ⟨[], by simp, Or.inl ⟨hz, by simpa using h0⟩⟩
    · rename_i hz
      split at h
      · cases h
      · rename_i st1 l1 hb
        obtain ⟨d2, ht, hR, -⟩ := hstep _ _ _ _ _ _ h0 hz hb
        obtain ⟨d, ht', hd⟩ := ih (d0 ++ d2) (hR rfl) h
        refine ⟨d2 ++ d, by rw [ht', ht, List.append_assoc], ?_⟩
        rw [← List.append_assoc]
        exact hd
      · rename_i st1 l1 hb
        cases h
        obtain ⟨d2, ht, -, hB⟩ := hstep _ _ _ _ _ _ h0 hz hb
        exact ⟨d2, ht, Or.inr (hB rfl)⟩

/-- The events of one pass: a continuing pass makes no failed read and copies
what `size_done` grows by; a pass ending with `break` is made of events that
are neither reads nor copies around one failed read, whose status is stored
in `mFinalStatus` with `mReachedEOS` set. -/
theorem loopBody_trace {out : Output} {st st' : State} {l l' : Locals} {c : Bool}
    (h : loopBody out st l = .ok (st', l', c)) :
    ∃ d, st'.trace = st.trace ++ d ∧
      l'.size_done + l'.size_remaining = l.size_done + l.size_remaining ∧
      (c = true → NoFailedRead d ∧ l'.size_done = l.size_done + copiedBytes d ∧
        st'.mReachedEOS = st.mReachedEOS ∧ st'.mFinalStatus = st.mFinalStatus ∧
        l'.postEOS = l.postEOS ∧ l'.postEOSDelayUs = l.postEOSDelayUs) ∧
      (c = false → ∃ pre e post, d = pre ++ e :: post ∧ Silent pre ∧ Silent post ∧
        e.readStatus = some st'.mFinalStatus ∧ st'.mFinalStatus ≠ OK ∧
        st'.mReachedEOS = true ∧ l'.size_done = l.size_done ∧
        l'.size_remaining = l.size_remaining) := by
  unfold loopBody at h
  obtain ⟨ds, hds, hsil, heos, hfin, hsd, hsr, hpe, hpd, -⟩ := seekCheck_trace st l
  rcases loopTail_cases h with ⟨b, -, hc, rfl⟩ | ⟨-, st2, err, ho, h2⟩
  · obtain ⟨e, he, hrs, hsz, hsum, -, heos', hfin', hpe', hpd', -⟩ :=
      consume_trace (seekCheck st l).1 (seekCheck st l).2.1 b
    rw [hc] at he hsz hsum heos' hfin' hpe' hpd'
    simp only at he hsz hsum heos' hfin' hpe' hpd'
    refine ⟨ds ++ [e], by rw [he, hds, List.append_assoc], by omega, ?_, by simp⟩
    intro _
    refine ⟨hsil.noFailedRead.concat ?_, ?_, by rw [heos', heos], by rw [hfin', hfin],
      by rw [hpe', hpe], by rw [hpd', hpd]⟩
    · intro x hx
      simp only [List.mem_singleton] at hx
      subst hx
      simp [Event.isFailedRead, hrs]
    · rw [copiedBytes_append, hsil.copiedBytes]
      simp only [copiedBytes, List.map_cons, List.map_nil, List.sum_cons, List.sum_nil]
      omega
  · obtain ⟨e, he, hers, hecp, heos2, hfin2⟩ := obtainBuffer_trace ho
    rcases h2 with ⟨-, herr, hre, rfl⟩ | ⟨b, st3, -, herr, hrs, hc, rfl⟩
    · obtain ⟨dt, hdt, hdsil, heos3, hfin3, hsd3, hsr3, -, -⟩ := readError_trace hre
      refine ⟨ds ++ e :: dt, by rw [hdt, he, hds]; simp, by omega, by simp, ?_⟩
      intro _
      refine ⟨ds, e, dt, rfl, hsil, hdsil, by rw [hfin3]; exact hers, by rw [hfin3]; exact herr,
        heos3, by omega, by omega⟩
    · obtain ⟨dr, hdr, hdrsil, heos3, hfin3⟩ := readSuccess_trace hrs
      obtain ⟨e2, he2, hrs2, hsz, hsum, -, heos', hfin', hpe', hpd', -⟩ :=
        consume_trace st3 (seekCheck st l).2.1 b
      rw [hc] at he2 hsz hsum heos' hfin' hpe' hpd'
      simp only at he2 hsz hsum heos' hfin' hpe' hpd'
      refine ⟨ds ++ e :: (dr ++ [e2]), by rw [he2, hdr, he, hds]; simp, by omega, ?_, by simp⟩
      intro _
      have hne : NoFailedRead (e :: (dr ++ [e2])) := by
        intro x hx
        simp only [List.mem_cons, List.mem_append, List.not_mem_nil, or_false] at hx
        rcases hx with hx | hx | hx
        · rw [hx]; simp [Event.isFailedRead, hers, herr]
        · exact hdrsil.noFailedRead x hx
        · rw [hx]; simp [Event.isFailedRead, hrs2]
      refine ⟨hsil.noFailedRead.concat hne, ?_, by rw [heos', heos3, heos2, heos],
        by rw [hfin', hfin3, hfin2, hfin], by rw [hpe', hpe], by rw [hpd', hpd]⟩
      rw [copiedBytes_append, hsil.copiedBytes]
      have : copiedBytes (e :: (dr ++ [e2])) = e2.copied := by
        have h1 := hdrsil.copiedBytes
        simp only [copiedBytes, List.map_cons, List.map_append, List.map_nil, List.sum_cons,
          List.sum_append, List.sum_nil] at h1 ⊢
        omega
      rw [this]
      omega

/-! ### Events of a call -/

theorem fillFinish_trace {st : State} {l : Locals} {now : Int} {r : FillResult}
    (h : fillFinish st l now = .ok r) :
    r.state.trace = st.trace ++
      ((if l.postEOS then [Event.postAudioEOS l.postEOSDelayUs] else []) ++
       (if l.postSeekComplete then [Event.postAudioSeekComplete] else [])) ∧
    r.state.mFinalStatus = st.mFinalStatus := by
  simp only [fillFinish, State.log] at h
  split_ifs at h <;> cases h <;> simp [*]

theorem notifications_silent (a b : Bool) (x : Int) :
    Silent ((if a then [Event.postAudioEOS x] else []) ++
       (if b then [Event.postAudioSeekComplete] else [])) := by
  intro e he
  cases a <;> cases b <;> simp at he
  · subst he; exact ⟨rfl, rfl⟩
  · subst he; exact ⟨rfl, rfl⟩
  · rcases he with rfl | rfl <;> exact ⟨rfl, rfl⟩

/-- The events of the loop: either the destination was filled and no read
failed, or the loop ended at the one read that failed. -/
theorem fillLoop_trace {out : Output} (fuel : Nat) {st st' : State} {l l' : Locals}
    (h : fillLoop out fuel st l = .ok (st', l')) (heos : st.mReachedEOS = false) :
    ∃ d, st'.trace = st.trace ++ d ∧
      l'.size_done + l'.size_remaining = l.size_done + l.size_remaining ∧
      ((l'.size_remaining = 0 ∧ NoFailedRead d ∧ l'.size_done = l.size_done + copiedBytes d ∧
          st'.mReachedEOS = false ∧ st'.mFinalStatus = st.mFinalStatus ∧
          l'.postEOS = l.postEOS ∧ l'.postEOSDelayUs = l.postEOSDelayUs) ∨
       (l'.size_remaining ≠ 0 ∧ ∃ pre e post, d = pre ++ e :: post ∧ NoFailedRead pre ∧
          Silent post ∧ e.readStatus = some st'.mFinalStatus ∧ st'.mFinalStatus ≠ OK ∧
          st'.mReachedEOS = true ∧ l'.size_done = l.size_done + copiedBytes pre)) := by
  have key := fillLoop_induct
    (fun s ll d => ll.size_done + ll.size_remaining = l.size_done + l.size_remaining ∧
      NoFailedRead d ∧ ll.size_done = l.size_done + copiedBytes d ∧
      s.mReachedEOS = false ∧ s.mFinalStatus = st.mFinalStatus ∧
      ll.postEOS = l.postEOS ∧ ll.postEOSDelayUs = l.postEOSDelayUs)
    (fun s ll d => ll.size_done + ll.size_remaining = l.size_done + l.size_remaining ∧
      ll.size_remaining ≠ 0 ∧ ∃ pre e post, d = pre ++ e :: post ∧ NoFailedRead pre ∧
        Silent post ∧ e.readStatus = some s.mFinalStatus ∧ s.mFinalStatus ≠ OK ∧
        s.mReachedEOS = true ∧ ll.size_done = l.size_done + copiedBytes pre)
    ?_ fuel [] ⟨rfl, NoFailedRead.empty, by simp [copiedBytes], heos, rfl, rfl, rfl⟩ h
  · obtain ⟨d, hd, hcase⟩ := key
    simp only [List.nil_append] at hcase
    refine ⟨d, hd, ?_, ?_⟩
    · rcases hcase with ⟨-, h1, -⟩ | ⟨h1, -⟩ <;> exact h1
    · rcases hcase with ⟨hz, -, h2⟩ | ⟨-, h2⟩
      · exact Or.inl ⟨hz, h2⟩
      · exact Or.inr h2
  · intro s1 l1 d s2 l2 c hR hrem hb
    obtain ⟨hsum, hnf, hsd, he, hf, hpe, hpd⟩ := hR
    obtain ⟨d2, ht, hsum2, hT, hF⟩ := loopBody_trace hb
    refine ⟨d2, ht, ?_, ?_⟩
    · intro hc
      obtain ⟨a1, a2, a3, a4, a5, a6⟩ := hT hc
      refine ⟨by omega, hnf.concat a1, ?_, by rw [a3, he], by rw [a4, hf], by rw [a5, hpe],
        by rw [a6, hpd]⟩
      rw [copiedBytes_append]; omega
    · intro hc
      obtain ⟨pre, e, post, hd2, hpre, hpost, hers, hne, he2, hsd2, hsr2⟩ := hF hc
      refine ⟨by omega, by omega, d ++ pre, e, post, by rw [hd2, List.append_assoc],
        hnf.concat hpre.noFailedRead, hpost, hers, hne, he2, ?_⟩
      rw [copiedBytes_append, hpre.copiedBytes]; omega

/-- The events of a call of `fillBuffer` entered with `mReachedEOS` false:
either the call returns `size`, no read failed and `mReachedEOS` is still
false, or it returns less, the events are those up to one failed read followed
by events that are neither reads nor copies, the returned count is the number
of bytes copied before the failed read, `mReachedEOS` is true and
`mFinalStatus` is the status of that read. -/
theorem fillBuffer_trace {fuel : Nat} {st : State} {out : Output} {size : Nat} {now : Int}
    {r : FillResult} (h : fillBuffer fuel st out size now = .ok r)
    (heos : st.mReachedEOS = false) :
    ∃ d, r.state.trace = st.trace ++ d ∧
      ((r.size_done = size ∧ NoFailedRead d ∧ r.size_done = copiedBytes d ∧
          r.state.mReachedEOS = false ∧ r.state.mFinalStatus = st.mFinalStatus) ∨
       (r.size_done < size ∧ ∃ pre e post, d = pre ++ e :: post ∧ NoFailedRead pre ∧
          Silent post ∧ e.readStatus = some r.state.mFinalStatus ∧
          r.state.mFinalStatus ≠ OK ∧ r.state.mReachedEOS = true ∧
          r.size_done = copiedBytes pre)) := by
  simp only [fillBuffer, heos, Bool.false_eq_true, if_false] at h
  split at h
  · cases h
  · rename_i st1 l hl
    obtain ⟨d, hd, hsum, hcase⟩ := fillLoop_trace fuel hl heos
    obtain ⟨h1, -, -, -, -, h6⟩ := fillFinish_state h
    obtain ⟨ht, hf⟩ := fillFinish_trace h
    have hsil := notifications_silent l.postEOS l.postSeekComplete l.postEOSDelayUs
    simp only [Locals.init] at hsum hcase
    refine ⟨d ++ _, by rw [ht, hd, List.append_assoc], ?_⟩
    rcases hcase with ⟨hz, hnf, hsd, he, hfs, -, -⟩ | ⟨hnz, pre, e, post, hdd, hpre, hpost, hers,
        hne, he, hsd⟩
    · left
      refine ⟨by omega, hnf.concat hsil.noFailedRead, ?_, by rw [h6, he], by rw [hf, hfs]⟩
      rw [copiedBytes_append, hsil.copiedBytes]; omega
    · right
      refine ⟨by omega, pre, e, post ++ _, by rw [hdd]; simp, hpre, hpost.append hsil,
        by rw [hf]; exact hers, by rw [hf]; exact hne, by rw [h6, he], by omega⟩

/-! ### The buffers across a pass -/

theorem readSuccess_buffers {st st3 : State} {out : Output} {l : Locals} {b : MediaBuffer}
    (h : readSuccess st out l b = .ok st3) :
    st3.mInputBuffer = st.mInputBuffer ∧ st3.mIsFirstBuffer = st.mIsFirstBuffer ∧
    st3.mFirstBuffer = st.mFirstBuffer ∧ st3.reads = st.reads ∧
    (st.mSeeking = false → st3.mSeeking = false) := by
  simp only [readSuccess, State.log] at h
  split_ifs at h <;> cases h <;> simp_all

theorem readSuccess_ok (st : State) (out : Output) (l : Locals) (b : MediaBuffer)
    (hout : st.mAudioSink = true ∨ st.mAudioTrack = true)
    (hfs : st.mFrameSize ≠ 0) (hsr : st.mSampleRate ≠ 0)
    (hb : b.range_length ≠ 0 → b.kKeyTime.isSome = true) :
    ∃ st3, readSuccess st out l b = .ok st3 := by
  have hno : ¬((!st.mAudioSink) = true ∧ (!st.mAudioTrack) = true) := by
    rcases hout with h | h <;> simp [h]
  have hk : ¬(b.range_length ≠ 0 ∧ b.kKeyTime.isNone = true) := by
    rintro ⟨h1, h2⟩
    have := hb h1
    simp [Option.isNone_iff_eq_none] at h2
    simp [h2] at this
  simp only [readSuccess, State.log, if_neg hno, if_neg hk]
  split_ifs <;> exact ⟨_, rfl⟩

theorem readError_ok (st : State) (out : Output) (l : Locals) (err : status_t)
    (hout : st.mAudioSink = true ∨ st.mAudioTrack = true)
    (heo : st.mObserver = true → st.mOffload = false → st.mAudioSink = true)
    (hfs : st.mFrameSize ≠ 0) (hsr : st.mSampleRate ≠ 0) :
    ∃ st3 l3, readError st out l err = .ok (st3, l3) := by
  have hno : ¬((!st.mAudioSink) = true ∧ (!st.mAudioTrack) = true) := by
    rcases hout with h | h <;> simp [h]
  simp only [readError, getNumFramesPendingPlayout, if_neg hno, if_neg hfs, if_neg hsr]
  split_ifs <;> first | exact ⟨_, _, rfl⟩ | simp_all

theorem readError_locals {st st3 : State} {out : Output} {l l3 : Locals} {err : status_t}
    (h : readError st out l err = .ok (st3, l3)) :
    (l3.postEOS = true → l.postEOS = true ∨ st3.mObserver = true) := by
  unfold readError at h
  repeat' split at h
  all_goals cases h
  all_goals simp_all

/-! ### Every pass is defined in a session -/

theorem Session.of_config {st st' : State} {source : MediaSource} (hs : Session st source)
    (hc : SameConfig st st')
    (hf : st'.mIsFirstBuffer = true →
      st.mIsFirstBuffer = true ∧ st'.mFirstBuffer = st.mFirstBuffer) :
    Session st' source where
  started := by rw [hc.mStarted]; exact hs.started
  hasSource := by rw [hc.mSource]; exact hs.hasSource
  wellFormed := hs.wellFormed
  output := by rw [hc.mAudioSink, hc.mAudioTrack]; exact hs.output
  eosOutput := by rw [hc.mAudioSink, hc.mObserver, hc.mOffload]; exact hs.eosOutput
  frameSize := by rw [hc.mFrameSize]; exact hs.frameSize
  sampleRate := by rw [hc.mSampleRate]; exact hs.sampleRate
  firstBuffer := by
    intro h
    obtain ⟨h1, h2⟩ := hf h
    rw [hc.mFirstBufferResult, h2]
    exact hs.firstBuffer h1

theorem seekCheck_session {st : State} {source : MediaSource} (hs : Session st source)
    (l : Locals) : Session (seekCheck st l).1 source := by
  refine hs.of_config (seekCheck_config st l) ?_
  unfold seekCheck releaseInputBuffer releaseFirstBuffer State.log
  split
  · split
    · intro h; simp at h
    · intro h; exact ⟨h, rfl⟩
  · intro h; exact ⟨h, rfl⟩

theorem seekCheck_seeking_false (st : State) (l : Locals) :
    (seekCheck st l).1.mSeeking = false := by
  cases h : st.mSeeking with
  | true => exact (seekCheck_seeking l h).2.1
  | false => rw [seekCheck_idle l h]; exact h

theorem consume_buffers (st : State) (l : Locals) (b : MediaBuffer) :
    (consume st l b).1.mIsFirstBuffer = st.mIsFirstBuffer ∧
    (consume st l b).1.mFirstBuffer = st.mFirstBuffer ∧
    (consume st l b).1.reads = st.reads ∧
    (consume st l b).1.mSeeking = st.mSeeking ∧
    (b.range_length = 0 → (consume st l b).1.mInputBuffer = none ∧
      (consume st l b).2 = l) := by
  unfold consume
  split
  · exact ⟨rfl, rfl, rfl, rfl, fun _ => ⟨rfl, rfl⟩⟩
  · rename_i h
    exact ⟨rfl, rfl, rfl, rfl, fun h0 => absurd h0 h⟩

theorem loopTail_held {out : Output} {st : State} {l : Locals} {o : Option Int}
    {b : MediaBuffer} (h : st.mInputBuffer = some b) :
    loopTail out st l o = .ok ((consume st l b).1, (consume st l b).2, true) := by
  unfold loopTail
  simp only [h]

theorem loopTail_fail {out : Output} {st st2 st3 : State} {l l3 : Locals} {o : Option Int}
    {err : status_t} (h : st.mInputBuffer = none) (ho : obtainBuffer st o = .ok (st2, err))
    (hb : st2.mInputBuffer = none) (herr : err ≠ OK)
    (hre : readError st2 out l err = .ok (st3, l3)) :
    loopTail out st l o = .ok (st3, l3, false) := by
  unfold loopTail
  simp only [h, ho, hb, if_neg herr, hre]

theorem loopTail_read {out : Output} {st st2 st3 : State} {l : Locals} {o : Option Int}
    {err : status_t} {b : MediaBuffer} (h : st.mInputBuffer = none)
    (ho : obtainBuffer st o = .ok (st2, err))
    (hb : st2.mInputBuffer = some b) (herr : err = OK)
    (hrs : readSuccess st2 out l b = .ok st3) :
    loopTail out st l o = .ok ((consume st3 l b).1, (consume st3 l b).2, true) := by
  unfold loopTail
  simp only [h, ho, hb, herr, ne_eq, not_true_eq_false, if_false, hrs]

/-- What `obtainBuffer` does in a session: it returns, with an answer that
passes the `CHECK` of line 609 and, when it is a buffer, that of line 678. -/
theorem obtainBuffer_ok {st : State} {source : MediaSource} (hs : Session st source)
    (o : Option Int) :
    ∃ st2 err, obtainBuffer st o = .ok (st2, err) ∧ SameConfig st st2 ∧
      (ReadResult.mk err st2.mInputBuffer).WellFormed ∧
      st2.mIsFirstBuffer = false ∧ st2.mSeeking = st.mSeeking ∧
      ((st.mIsFirstBuffer = true ∧ st2.reads = st.reads) ∨
       (st.mIsFirstBuffer = false ∧ st2.reads = st.reads ++ [o] ∧
          st2.mInputBuffer = (source.read st2.reads).buffer)) := by
  rcases Bool.eq_false_or_eq_true st.mIsFirstBuffer with hfb | hfb
  · unfold obtainBuffer
    rw [if_pos hfb]
    exact ⟨_, _, rfl, by constructor <;> rfl, hs.firstBuffer hfb, rfl, rfl, Or.inl ⟨hfb, rfl⟩⟩
  · unfold obtainBuffer
    rw [if_neg (by rw [hfb]; decide)]
    simp only [hs.hasSource]
    exact ⟨_, _, rfl, by constructor <;> rfl, hs.wellFormed _, hfb, rfl,
      Or.inr ⟨hfb, rfl, rfl⟩⟩

/-- A pass on a player with no seek pending, in a session: it returns, and
when it does not end with `break` it keeps the session and either shortens
the remaining destination, or has released an empty buffer that was held, or
has read an empty buffer from the source. -/
theorem loopTail_progress (out : Output) {st : State} {source : MediaSource}
    (hs : Session st source) (hseek : st.mSeeking = false) (l : Locals) (o : Option Int)
    (hrem : l.size_remaining ≠ 0) :
    ∃ st' l' c, loopTail out st l o = .ok (st', l', c) ∧
      (c = true → Session st' source ∧ st'.mSeeking = false ∧
        (l'.size_remaining < l.size_remaining ∨
          (l'.size_remaining = l.size_remaining ∧ st'.mInputBuffer = none ∧
            ((heldCount st' < heldCount st ∧ st'.reads = st.reads) ∨
             (st.mInputBuffer = none ∧ st.mIsFirstBuffer = false ∧
               st'.mIsFirstBuffer = false ∧ st'.reads = st.reads ++ [o] ∧
               (source.read st'.reads).isEmpty = true))))) := by
  cases hib : st.mInputBuffer with
  | some b =>
    refine ⟨_, _, _, loopTail_held hib, fun _ => ?_⟩
    obtain ⟨e, -, -, -, -, hlt, -⟩ := consume_trace st l b
    obtain ⟨b1, b2, b3, b4, b5⟩ := consume_buffers st l b
    refine ⟨hs.of_config (consume_config st l b) (fun h => ⟨by rw [← b1]; exact h, b2⟩),
      by rw [b4]; exact hseek, ?_⟩
    by_cases hlen : b.range_length = 0
    · right
      obtain ⟨c1, c2⟩ := b5 hlen
      refine ⟨by rw [c2], c1, Or.inl ⟨?_, b3⟩⟩
      simp only [heldCount, c1, b1, hib, Option.isSome_none, Option.isSome_some]
      simp
    · left; exact hlt hrem hlen
  | none =>
    obtain ⟨st2, err, ho, hc2, hwf, hf2, hsk2, hrd⟩ := obtainBuffer_ok hs o
    have hs2 : Session st2 source := hs.of_config hc2 (fun h => by rw [hf2] at h; cases h)
    cases hbuf : st2.mInputBuffer with
    | none =>
      simp only [ReadResult.WellFormed, hbuf] at hwf
      obtain ⟨st3, l3, h3⟩ := readError_ok st2 out l err hs2.output hs2.eosOutput
        hs2.frameSize hs2.sampleRate
      exact ⟨_, _, _, loopTail_fail hib ho hbuf hwf h3, by simp⟩
    | some b =>
      simp only [ReadResult.WellFormed, hbuf] at hwf
      obtain ⟨st3, h3⟩ := readSuccess_ok st2 out l b hs2.output hs2.frameSize
        hs2.sampleRate hwf.2
      refine ⟨_, _, _, loopTail_read hib ho hbuf hwf.1 h3, fun _ => ?_⟩
      obtain ⟨e, -, -, -, -, hlt, -⟩ := consume_trace st3 l b
      obtain ⟨b1, b2, b3, b4, b5⟩ := consume_buffers st3 l b
      obtain ⟨r1, r2, r3, r4, r5⟩ := readSuccess_buffers h3
      have hcfg : SameConfig st (consume st3 l b).1 :=
        (hc2.trans (readSuccess_config h3)).trans (consume_config st3 l b)
      refine ⟨hs.of_config hcfg (fun h => ?_), by rw [b4]; exact r5 (hsk2.trans hseek), ?_⟩
      · rw [b1, r2, hf2] at h; cases h
      by_cases hlen : b.range_length = 0
      · right
        obtain ⟨c1, c2⟩ := b5 hlen
        refine ⟨by rw [c2], c1, ?_⟩
        rcases hrd with ⟨hfb, hreads⟩ | ⟨hfb, hreads, hsrc⟩
        · left
          refine ⟨?_, by rw [b3, r4, hreads]⟩
          simp only [heldCount, c1, b1, r2, hf2, hib, hfb, Option.isSome_none]
          simp
        · right
          refine ⟨rfl, hfb, by rw [b1, r2, hf2], by rw [b3, r4, hreads], ?_⟩
          rw [b3, r4]
          rw [hbuf] at hsrc
          simp [ReadResult.isEmpty, ← hsrc, hlen]
      · left; exact hlt hrem hlen

/-! ### The loop returns -/

theorem Halts.done {out : Output} {st : State} {l : Locals} (h : l.size_remaining = 0) :
    Halts out st l := by
  refine ⟨0, (st, l), fun fuel' _ => ?_⟩
  cases fuel' <;> simp [fillLoop, h]

theorem Halts.brk {out : Output} {st s1 : State} {l l1 : Locals}
    (hrem : l.size_remaining ≠ 0) (hb : loopBody out st l = .ok (s1, l1, false)) :
    Halts out st l := by
  refine ⟨1, (s1, l1), fun fuel' hf => ?_⟩
  obtain ⟨n, rfl⟩ : ∃ n, fuel' = n + 1 := ⟨fuel' - 1, by omega⟩
  simp only [fillLoop, if_neg hrem, hb]

theorem Halts.step {out : Output} {st s1 : State} {l l1 : Locals}
    (hrem : l.size_remaining ≠ 0) (hb : loopBody out st l = .ok (s1, l1, true))
    (h : Halts out s1 l1) : Halts out st l := by
  obtain ⟨fuel, res, hres⟩ := h
  refine ⟨fuel + 1, res, fun fuel' hf => ?_⟩
  obtain ⟨n, rfl⟩ : ∃ n, fuel' = n + 1 := ⟨fuel' - 1, by omega⟩
  simp only [fillLoop, if_neg hrem, hb]
  exact hres n (by omega)

theorem loopBody_idle {out : Output} {st : State} (l : Locals) (h : st.mSeeking = false) :
    loopBody out st l = loopTail out st l none := by
  unfold loopBody
  rw [seekCheck_idle l h]

/-- In a session on a source without endless run of empty buffers, the loop of
`fillBuffer` returns. -/
theorem fillLoop_halts (out : Output) {source : MediaSource}
    (hne : source.NoEndlessEmpties) (st : State) (l : Locals) (hs : Session st source) :
    Halts out st l := by
  obtain ⟨n, hn⟩ : ∃ n, l.size_remaining = n := ⟨_, rfl⟩
  induction n using Nat.strong_induction_on generalizing st l with
  | _ n ih =>
    by_cases hrem : l.size_remaining = 0
    · exact Halts.done hrem
    -- players that hold nothing and have no seek pending
    have clean : ∀ (i : Nat) (st : State) (l : Locals), l.size_remaining = n →
        Session st source → st.mSeeking = false → st.mInputBuffer = none →
        st.mIsFirstBuffer = false →
        (source.read (st.reads ++ List.replicate (i + 1) none)).isEmpty = false →
        Halts out st l := by
      intro i
      induction i with
      | zero =>
        intro st l hl hs hsk hib hfb hgap
        have hrem' : l.size_remaining ≠ 0 := by rw [hl, ← hn]; exact hrem
        obtain ⟨st', l', c, hb, hc⟩ := loopTail_progress out hs hsk l none hrem'
        rw [← loopBody_idle l hsk] at hb
        cases c with
        | false => exact Halts.brk hrem' hb
        | true =>
          obtain ⟨hs', -, hcase⟩ := hc rfl
          refine Halts.step hrem' hb ?_
          rcases hcase with hlt | ⟨-, -, ⟨hlt, -⟩ | ⟨-, -, -, hreads, hemp⟩⟩
          · exact ih _ (by omega) st' l' hs' rfl
          · simp [heldCount, hib, hfb] at hlt
          · rw [hreads] at hemp
            simp only [List.replicate, zero_add] at hgap
            rw [hgap] at hemp; cases hemp
      | succ j ihj =>
        intro st l hl hs hsk hib hfb hgap
        have hrem' : l.size_remaining ≠ 0 := by rw [hl, ← hn]; exact hrem
        obtain ⟨st', l', c, hb, hc⟩ := loopTail_progress out hs hsk l none hrem'
        rw [← loopBody_idle l hsk] at hb
        cases c with
        | false => exact Halts.brk hrem' hb
        | true =>
          obtain ⟨hs', hsk', hcase⟩ := hc rfl
          refine Halts.step hrem' hb ?_
          rcases hcase with hlt | ⟨heq, hib', ⟨hlt, -⟩ | ⟨-, -, hfb', hreads, -⟩⟩
          · exact ih _ (by omega) st' l' hs' rfl
          · simp [heldCount, hib, hfb] at hlt
          · refine ihj st' l' (by omega) hs' hsk' hib' hfb' ?_
            rw [hreads, List.append_assoc]
            exact hgap
    -- players with no seek pending
    have idle : ∀ (k : Nat) (st : State) (l : Locals), l.size_remaining = n →
        Session st source → st.mSeeking = false → heldCount st ≤ k → Halts out st l := by
      intro k
      induction k with
      | zero =>
        intro st l hl hs hsk hk
        have hib : st.mInputBuffer = none := by
          cases h : st.mInputBuffer with
          | none => rfl
          | some b => simp [heldCount, h] at hk
        have hfb : st.mIsFirstBuffer = false := by
          cases h : st.mIsFirstBuffer with
          | false => rfl
          | true => simp [heldCount, h] at hk
        obtain ⟨i, hi⟩ := hne st.reads
        exact clean i st l hl hs hsk hib hfb hi
      | succ k ihk =>
        intro st l hl hs hsk hk
        have hrem' : l.size_remaining ≠ 0 := by rw [hl, ← hn]; exact hrem
        obtain ⟨st', l', c, hb, hc⟩ := loopTail_progress out hs hsk l none hrem'
        rw [← loopBody_idle l hsk] at hb
        cases c with
        | false => exact Halts.brk hrem' hb
        | true =>
          obtain ⟨hs', hsk', hcase⟩ := hc rfl
          refine Halts.step hrem' hb ?_
          rcases hcase with hlt | ⟨heq, hib', ⟨hlt, -⟩ | ⟨-, -, hfb', -, -⟩⟩
          · exact ih _ (by omega) st' l' hs' rfl
          · exact ihk st' l' (by omega) hs' hsk' (by omega)
          · exact ihk st' l' (by omega) hs' hsk' (by simp [heldCount, hib', hfb'])
    cases hsk : st.mSeeking with
    | false => exact idle (heldCount st) st l hn hs hsk (le_refl _)
    | true =>
      obtain ⟨-, hsk1, hib1, hfb1, hreads1, ho, hl1⟩ := seekCheck_seeking l hsk
      have hs1 := seekCheck_session hs l
      have hrem1 : (seekCheck st l).2.1.size_remaining ≠ 0 := by rw [hl1]; exact hrem
      obtain ⟨st', l', c, hb, hc⟩ := loopTail_progress out hs1 hsk1
        (seekCheck st l).2.1 (seekCheck st l).2.2 hrem1
      have hb' : loopBody out st l = .ok (st', l', c) := hb
      cases c with
      | false => exact Halts.brk hrem hb'
      | true =>
        obtain ⟨hs', hsk', hcase⟩ := hc rfl
        refine Halts.step hrem hb' ?_
        rw [hl1] at hcase
        simp only at hcase
        rcases hcase with hlt | ⟨heq, hib', ⟨hlt, -⟩ | ⟨-, -, hfb', -, -⟩⟩
        · exact ih _ (by omega) st' l' hs' rfl
        · simp [heldCount, hib1, hfb1] at hlt
        · exact idle 0 st' l' (by omega) hs' hsk' (by simp [heldCount, hib', hfb'])

/-! ### Every call returns in a session -/

theorem loopBody_locals {out : Output} {st st' : State} {l l' : Locals} {c : Bool}
    (h : loopBody out st l = .ok (st', l', c))
    (h1 : l.postEOS = true → st.mObserver = true)
    (h2 : l.postSeekComplete = true → st.mObserver = true) :
    (l'.postEOS = true → st'.mObserver = true) ∧
    (l'.postSeekComplete = true → st'.mObserver = true) := by
  have hcfg := loopBody_config h
  unfold loopBody at h
  obtain ⟨ds, -, -, -, -, -, -, hpe, -, -⟩ := seekCheck_trace st l
  have hcs := seekCheck_config st l
  have hps : (seekCheck st l).2.1.postSeekComplete = true → st.mObserver = true := by
    unfold seekCheck
    split
    · simp only
      split
      · intro _; assumption
      · exact h2
    · exact h2
  rw [hcfg.mObserver]
  rcases loopTail_cases h with ⟨b, -, hc, -⟩ | ⟨-, st2, err, ho, h2'⟩
  · obtain ⟨e, -, -, -, -, -, -, -, hpe', -, hps'⟩ :=
      consume_trace (seekCheck st l).1 (seekCheck st l).2.1 b
    rw [hc] at hpe' hps'
    simp only at hpe' hps'
    exact ⟨fun h => h1 (by rw [← hpe, ← hpe']; exact h), fun h => hps (by rw [← hps']; exact h)⟩
  · rcases h2' with ⟨-, -, hre, -⟩ | ⟨b, st3, -, -, hrs, hc, -⟩
    · obtain ⟨-, -, -, -, -, -, -, -, hps3⟩ := readError_trace hre
      have hl3 := readError_locals hre
      have hc3 := (hcs.trans (obtainBuffer_config ho)).trans (readError_config hre)
      refine ⟨fun h => ?_, fun h => hps (by rw [← hps3]; exact h)⟩
      rcases hl3 h with h' | h'
      · exact h1 (by rw [← hpe]; exact h')
      · rw [← hc3.mObserver]; exact h'
    · obtain ⟨e, -, -, -, -, -, -, -, hpe', -, hps'⟩ :=
        consume_trace st3 (seekCheck st l).2.1 b
      rw [hc] at hpe' hps'
      simp only at hpe' hps'
      exact ⟨fun h => h1 (by rw [← hpe, ← hpe']; exact h),
        fun h => hps (by rw [← hps']; exact h)⟩

theorem fillLoop_locals {out : Output} (fuel : Nat) {st st' : State} {l l' : Locals}
    (h : fillLoop out fuel st l = .ok (st', l'))
    (h1 : l.postEOS = true → st.mObserver = true)
    (h2 : l.postSeekComplete = true → st.mObserver = true) :
    (l'.postEOS = true → st'.mObserver = true) ∧
    (l'.postSeekComplete = true → st'.mObserver = true) := by
  have key := fillLoop_induct
    (fun s ll _ => (ll.postEOS = true → s.mObserver = true) ∧
      (ll.postSeekComplete = true → s.mObserver = true))
    (fun s ll _ => (ll.postEOS = true → s.mObserver = true) ∧
      (ll.postSeekComplete = true → s.mObserver = true))
    ?_ fuel [] ⟨h1, h2⟩ h
  · obtain ⟨d, -, ⟨-, hR⟩ | hB⟩ := key
    · exact hR
    · exact hB
  · intro s1 l1 d s2 l2 c hR _ hb
    obtain ⟨d2, ht, -⟩ := loopBody_trace hb
    have := loopBody_locals hb hR.1 hR.2
    exact ⟨d2, ht, fun _ => this, fun _ => this⟩

theorem fillFinish_ok (st : State) (l : Locals) (now : Int) (hfs : st.mFrameSize ≠ 0)
    (h1 : l.postEOS = true → st.mObserver = true)
    (h2 : l.postSeekComplete = true → st.mObserver = true) :
    ∃ r, fillFinish st l now = .ok r := by
  have hno : ¬((l.postEOS = true ∨ l.postSeekComplete = true) ∧ (!st.mObserver) = true) := by
    rintro ⟨h | h, ho⟩
    · simp [h1 h] at ho
    · simp [h2 h] at ho
  simp only [fillFinish, if_neg hfs]
  rw [if_neg (by simpa using hno)]
  exact ⟨_, rfl⟩

/-- In a session on a source without endless run of empty buffers, every call
of `fillBuffer` returns, given enough passes. -/
theorem fillBuffer_returns {source : MediaSource} (hne : source.NoEndlessEmpties)
    (st : State) (hs : Session st source) (out : Output) (size : Nat) (now : Int) :
    ∃ fuel r, ∀ fuel', fuel ≤ fuel' → fillBuffer fuel' st out size now = .ok r := by
  cases heos : st.mReachedEOS with
  | true =>
    exact ⟨0, { state := st, size_done := 0, data := [] }, fun fuel' _ => by
      simp only [fillBuffer, heos, if_true]⟩
  | false =>
    obtain ⟨fuel, ⟨st1, l1⟩, hres⟩ := fillLoop_halts out hne st (Locals.init size) hs
    have hl := hres fuel (le_refl _)
    have hcfg := fillLoop_config fuel hl
    obtain ⟨h1, h2⟩ := fillLoop_locals fuel hl (by simp [Locals.init]) (by simp [Locals.init])
    obtain ⟨r, hr⟩ := fillFinish_ok st1 l1 now (by rw [hcfg.mFrameSize]; exact hs.frameSize) h1 h2
    refine ⟨fuel, r, fun fuel' hf => ?_⟩
    simp only [fillBuffer, heos, Bool.false_eq_true, if_false, hres fuel' hf]
    exact hr

/-- C1: in a started session (source and output there, answers of the source
passing the `CHECK`s, frame size and sample rate not zero) on a source without
endless run of empty buffers, a call of `fillBuffer(data, size)` entered with
`mReachedEOS` false returns a count `r ≤ size`.  Either no read of the call
failed, `r = size` is the number of bytes copied and `mReachedEOS` is still
false; or one read failed, `r < size` is the number of bytes copied before that
read, nothing is read or copied after it, and `mReachedEOS` is true on
return. -/
theorem fillBuffer_count (st : State) (source : MediaSource) (out : Output) (size : Nat)
    (now : Int) (hs : Session st source) (hne : source.NoEndlessEmpties)
    (heos : st.mReachedEOS = false) :
    ∃ fuel r d, (∀ fuel', fuel ≤ fuel' → fillBuffer fuel' st out size now = .ok r) ∧
      r.state.trace = st.trace ++ d ∧ r.size_done ≤ size ∧
      ((r.size_done = size ∧ NoFailedRead d ∧ r.size_done = copiedBytes d ∧
          r.state.mReachedEOS = false) ∨
       (r.size_done < size ∧ ∃ pre e post, d = pre ++ e :: post ∧ NoFailedRead pre ∧
          e.isFailedRead = true ∧ Silent post ∧ r.size_done = copiedBytes pre ∧
          r.state.mReachedEOS = true)) := by
  obtain ⟨fuel, r, hr⟩ := fillBuffer_returns hne st hs out size now
  obtain ⟨d, hd, hcase⟩ := fillBuffer_trace (hr fuel (le_refl _)) heos
  refine ⟨fuel, r, d, hr, hd, ?_, ?_⟩
  · rcases hcase with ⟨h, -⟩ | ⟨h, -⟩ <;> omega
  · rcases hcase with ⟨h1, h2, h3, h4, -⟩ | ⟨h1, pre, e, post, h2, h3, h4, h5, h6, h7, h8⟩
    · exact Or.inl ⟨h1, h2, h3, h4⟩
    · refine Or.inr ⟨h1, pre, e, post, h2, h3, ?_, h4, h8, h7⟩
      simp only [Event.isFailedRead, h5]
      simpa using h6

/-- C2: in a started session on a source without endless run of empty buffers,
a call of `fillBuffer` entered with `mReachedEOS` false returns a byte count,
not an error; and when a read of the call (from the source, or the result of
the first read stashed by `start`) yielded a status `err` other than `OK`, the
count is the number of bytes copied by the call and `reachedEOS` then returns
true with `*finalStatus = err`. -/
theorem fillBuffer_read_error (st : State) (source : MediaSource) (out : Output)
    (size : Nat) (now : Int) (hs : Session st source) (hne : source.NoEndlessEmpties)
    (heos : st.mReachedEOS = false) :
    ∃ fuel r d, (∀ fuel', fuel ≤ fuel' → fillBuffer fuel' st out size now = .ok r) ∧
      r.state.trace = st.trace ++ d ∧
      ∀ e ∈ d, ∀ err, e.readStatus = some err → err ≠ OK →
        reachedEOS r.state = (true, err) ∧ r.size_done = copiedBytes d := by
  obtain ⟨fuel, r, hr⟩ := fillBuffer_returns hne st hs out size now
  obtain ⟨d, hd, hcase⟩ := fillBuffer_trace (hr fuel (le_refl _)) heos
  refine ⟨fuel, r, d, hr, hd, ?_⟩
  intro e he err hers herr
  have hfail : e.isFailedRead = true := by
    simp only [Event.isFailedRead, hers]
    simpa using herr
  rcases hcase with ⟨-, h2, -⟩ | ⟨-, pre, e0, post, h2, h3, h4, h5, h6, h7, h8⟩
  · rw [h2 e he] at hfail; cases hfail
  · rw [h2] at he
    simp only [List.mem_append, List.mem_cons] at he
    rcases he with he | he | he
    · rw [h3 e he] at hfail; cases hfail
    · subst he
      rw [hers] at h5
      cases h5
      refine ⟨by simp [reachedEOS, h7], ?_⟩
      rw [h2, copiedBytes_append, h8]
      have : copiedBytes (e :: post) = 0 := by
        have hp := h4.copiedBytes
        have he0 : e.copied = 0 := by
          cases e <;> simp [Event.readStatus] at hers <;> rfl
        simp only [copiedBytes, List.map_cons, List.sum_cons] at hp ⊢
        omega
      omega
    · rw [(h4 e he).1] at hers; cases hers

/-! ### The concrete inputs satisfy the hypotheses -/

theorem exSource_wellFormed : ∀ h, (exSource.read h).WellFormed := by
  intro h
  simp only [exSource]
  split <;> simp [ReadResult.WellFormed, OK, ERROR_END_OF_STREAM]

theorem exSource_noEndlessEmpties : exSource.NoEndlessEmpties := by
  intro h
  refine ⟨0, ?_⟩
  simp only [exSource]
  split <;> simp [ReadResult.isEmpty]

theorem exStarted_session : Session exStarted exSource where
  started := rfl
  hasSource := rfl
  wellFormed := exSource_wellFormed
  output := Or.inl rfl
  eosOutput := fun _ _ => rfl
  frameSize := by decide
  sampleRate := by decide
  firstBuffer := fun _ => by
    simp [ReadResult.WellFormed, exStarted, exRun, run, step, setSource, construct, start,
      startRead, startOutput, State.log, exSource, exOutput, Except.map, OK, INFO_FORMAT_CHANGED]

theorem fillBuffer_count_witness :
    Session exStarted exSource ∧ exSource.NoEndlessEmpties ∧ exStarted.mReachedEOS = false ∧
    ∃ fuel r d, (∀ fuel', fuel ≤ fuel' → fillBuffer fuel' exStarted exOutput 3 5 = .ok r) ∧
      r.state.trace = exStarted.trace ++ d ∧ r.size_done ≤ 3 ∧
      ((r.size_done = 3 ∧ NoFailedRead d ∧ r.size_done = copiedBytes d ∧
          r.state.mReachedEOS = false) ∨
       (r.size_done < 3 ∧ ∃ pre e post, d = pre ++ e :: post ∧ NoFailedRead pre ∧
          e.isFailedRead = true ∧ Silent post ∧ r.size_done = copiedBytes pre ∧
          r.state.mReachedEOS = true)) :=
  ⟨exStarted_session, exSource_noEndlessEmpties, rfl,
    fillBuffer_count exStarted exSource exOutput 3 5 exStarted_session
      exSource_noEndlessEmpties rfl⟩

theorem fillBuffer_read_error_witness :
    Session exStarted exSource ∧ exSource.NoEndlessEmpties ∧ exStarted.mReachedEOS = false ∧
    ∃ fuel r d, (∀ fuel', fuel ≤ fuel' → fillBuffer fuel' exStarted exOutput 10 5 = .ok r) ∧
      r.state.trace = exStarted.trace ++ d ∧
      ∀ e ∈ d, ∀ err, e.readStatus = some err → err ≠ OK →
        reachedEOS r.state = (true, err) ∧ r.size_done = copiedBytes d :=
  ⟨exStarted_session, exSource_noEndlessEmpties, rfl,
    fillBuffer_read_error exStarted exSource exOutput 10 5 exStarted_session
      exSource_noEndlessEmpties rfl⟩

/-! ### A pending seek -/

theorem seekFree_nil : SeekFree [] := by
  intro e he; cases he

theorem seekFree_append {a b : List Event} (ha : SeekFree a) (hb : SeekFree b) :
    SeekFree (a ++ b) := by
  intro e he
  rcases List.mem_append.1 he with h | h
  · exact ha e h
  · exact hb e h

theorem seekFree_singleton {e : Event} (h1 : e.isSeekRead = false)
    (h2 : e.isSeekComplete = false) : SeekFree [e] := by
  intro x hx
  simp only [List.mem_singleton] at hx
  subst hx
  exact ⟨h1, h2⟩

theorem seekFree_countP {d : List Event} (h : SeekFree d) :
    d.countP Event.isSeekComplete = 0 := by
  rw [List.countP_eq_zero]
  intro e he
  simp [(h e he).2]

theorem consume_seekFree (st : State) (l : Locals) (b : MediaBuffer) :
    ∃ e, (consume st l b).1.trace = st.trace ++ [e] ∧ SeekFree [e] := by
  unfold consume
  split
  · exact ⟨_, rfl, seekFree_singleton rfl rfl⟩
  · exact ⟨_, rfl, seekFree_singleton rfl rfl⟩

theorem readError_seekFree {st st3 : State} {out : Output} {l l3 : Locals} {err : status_t}
    (h : readError st out l err = .ok (st3, l3)) :
    ∃ d, st3.trace = st.trace ++ d ∧ SeekFree d ∧ st3.mSeeking = st.mSeeking := by
  unfold readError at h
  repeat' split at h
  all_goals cases h
  all_goals first
    | exact ⟨[], (List.append_nil _).symm, seekFree_nil, rfl⟩
    | exact ⟨[.setOffloadEOSReached], rfl, seekFree_singleton rfl rfl, rfl⟩

theorem readSuccess_seekFree {st st3 : State} {out : Output} {l : Locals} {b : MediaBuffer}
    (h : readSuccess st out l b = .ok st3) (hsk : st.mSeeking = false) :
    ∃ d, st3.trace = st.trace ++ d ∧ SeekFree d := by
  simp only [readSuccess, State.log] at h
  split_ifs at h <;> cases h
  all_goals first
    | exact ⟨[], (List.append_nil _).symm, seekFree_nil⟩
    | exact ⟨[.findKeyTime b], rfl, seekFree_singleton rfl rfl⟩
    | (exfalso; simp_all)

/-- A pass entered with no input buffer held and no seek pending starts with
the use of the stashed first buffer, or with a read that carries the seek
target `o`; what follows holds no read with a seek target and no notification
of a completed seek. -/
theorem loopTail_seekFree {out : Output} {st st' : State} {l l' : Locals} {o : Option Int}
    {c : Bool} (h : loopTail out st l o = .ok (st', l', c)) (hsk : st.mSeeking = false) :
    st'.mSeeking = false ∧ l'.postSeekComplete = l.postSeekComplete ∧
    ((∃ d, st'.trace = st.trace ++ d ∧ SeekFree d ∧
        (st.mInputBuffer = none → st.mIsFirstBuffer = true)) ∨
     (st.mInputBuffer = none ∧ st.mIsFirstBuffer = false ∧
        ∃ err buf d, st'.trace = st.trace ++ Event.sourceRead o err buf :: d ∧
          SeekFree d)) := by
  rcases loopTail_cases h with ⟨b, hb, hc, -⟩ | ⟨hib, st2, err, ho, h2⟩
  · obtain ⟨e, he, hsf⟩ := consume_seekFree st l b
    obtain ⟨-, -, -, b4, -⟩ := consume_buffers st l b
    obtain ⟨-, -, -, -, -, -, -, -, -, -, hps⟩ := consume_trace st l b
    rw [hc] at he b4 hps
    exact ⟨by rw [b4]; exact hsk, hps, Or.inl ⟨_, he, hsf, fun h => by rw [hb] at h; cases h⟩⟩
  · -- the event of `obtainBuffer`
    have hob : st2.mSeeking = st.mSeeking ∧
        ((st.mIsFirstBuffer = true ∧ ∃ e, st2.trace = st.trace ++ [e] ∧ SeekFree [e]) ∨
         (st.mIsFirstBuffer = false ∧
            ∃ err buf, st2.trace = st.trace ++ [Event.sourceRead o err buf])) := by
      unfold obtainBuffer at ho
      split at ho
      · rename_i hfb
        cases ho
        refine ⟨rfl, Or.inl ⟨hfb, _, rfl, ?_⟩⟩
        exact seekFree_singleton rfl rfl
      · rename_i hfb
        split at ho
        · cases ho
        · cases ho
          exact ⟨rfl, Or.inr ⟨by simpa using hfb, _, _, rfl⟩⟩
    obtain ⟨hsk2, hev⟩ := hob
    -- what follows the event
    have hrest : st'.mSeeking = false ∧ l'.postSeekComplete = l.postSeekComplete ∧
        ∃ d, st'.trace = st2.trace ++ d ∧ SeekFree d := by
      rcases h2 with ⟨-, -, hre, -⟩ | ⟨b, st3, -, -, hrs, hc, -⟩
      · obtain ⟨d, hd, hsf, hsk3⟩ := readError_seekFree hre
        obtain ⟨-, -, -, -, -, -, -, -, hps⟩ := readError_trace hre
        exact ⟨by rw [hsk3, hsk2]; exact hsk, hps, d, hd, hsf⟩
      · obtain ⟨d, hd, hsf⟩ := readSuccess_seekFree hrs (hsk2.trans hsk)
        obtain ⟨-, -, -, -, r5⟩ := readSuccess_buffers hrs
        obtain ⟨e, he, hsf2⟩ := consume_seekFree st3 l b
        obtain ⟨-, -, -, b4, -⟩ := consume_buffers st3 l b
        obtain ⟨-, -, -, -, -, -, -, -, -, -, hps⟩ := consume_trace st3 l b
        rw [hc] at he b4 hps
        exact ⟨by rw [b4]; exact r5 (hsk2.trans hsk), hps, d ++ [e],
          by rw [he, hd, List.append_assoc], seekFree_append hsf hsf2⟩
    obtain ⟨h1, h2', d, hd, hsf⟩ := hrest
    refine ⟨h1, h2', ?_⟩
    rcases hev with ⟨hfb, e, he, hsfe⟩ | ⟨hfb, err', buf, he⟩
    · exact Or.inl ⟨[e] ++ d, by rw [hd, he, List.append_assoc], seekFree_append hsfe hsf,
        fun _ => hfb⟩
    · exact Or.inr ⟨hib, hfb, err', buf, d, by rw [hd, he]; simp, hsf⟩

/-- A pass entered with no seek pending makes no read with a seek target and
no notification of a completed seek. -/
theorem loopBody_seekFree {out : Output} {st st' : State} {l l' : Locals} {c : Bool}
    (h : loopBody out st l = .ok (st', l', c)) (hsk : st.mSeeking = false) :
    ∃ d, st'.trace = st.trace ++ d ∧ SeekFree d ∧ st'.mSeeking = false ∧
      l'.postSeekComplete = l.postSeekComplete := by
  rw [loopBody_idle l hsk] at h
  obtain ⟨h1, h2, h3⟩ := loopTail_seekFree h hsk
  rcases h3 with ⟨d, hd, hsf, -⟩ | ⟨-, -, err, buf, d, hd, hsf⟩
  · exact ⟨d, hd, hsf, h1, h2⟩
  · refine ⟨_, hd, ?_, h1, h2⟩
    intro e he
    simp only [List.mem_cons] at he
    rcases he with he | he
    · rw [he]; exact ⟨rfl, rfl⟩
    · exact hsf e he

theorem fillLoop_seekFree {out : Output} (fuel : Nat) {st st' : State} {l l' : Locals}
    (h : fillLoop out fuel st l = .ok (st', l')) (hsk : st.mSeeking = false) :
    ∃ d, st'.trace = st.trace ++ d ∧ SeekFree d ∧ st'.mSeeking = false ∧
      l'.postSeekComplete = l.postSeekComplete := by
  have key := fillLoop_induct
    (fun s ll d => SeekFree d ∧ s.mSeeking = false ∧
      ll.postSeekComplete = l.postSeekComplete)
    (fun s ll d => SeekFree d ∧ s.mSeeking = false ∧
      ll.postSeekComplete = l.postSeekComplete)
    ?_ fuel [] ⟨seekFree_nil, hsk, rfl⟩ h
  · obtain ⟨d, hd, ⟨-, hR⟩ | hB⟩ := key
    · exact ⟨d, hd, by simpa using hR⟩
    · exact ⟨d, hd, by simpa using hB⟩
  · intro s1 l1 d s2 l2 c hR _ hb
    obtain ⟨d2, ht, hsf, hs2, hp2⟩ := loopBody_seekFree hb hR.2.1
    have : SeekFree (d ++ d2) ∧ s2.mSeeking = false ∧
        l2.postSeekComplete = l.postSeekComplete :=
      ⟨seekFree_append hR.1 hsf, hs2, by rw [hp2, hR.2.2]⟩
    exact ⟨d2, ht, fun _ => this, fun _ => this⟩

theorem fillLoop_first_pass {out : Output} {fuel : Nat} {st st' : State} {l l' : Locals}
    (h : fillLoop out fuel st l = .ok (st', l')) (hrem : l.size_remaining ≠ 0) :
    ∃ n s1 l1 c, fuel = n + 1 ∧ loopBody out st l = .ok (s1, l1, c) ∧
      ((c = false ∧ st' = s1 ∧ l' = l1) ∨
       (c = true ∧ fillLoop out n s1 l1 = .ok (st', l'))) := by
  cases fuel with
  | zero =>
    simp only [fillLoop, if_neg hrem] at h
    cases h
  | succ n =>
    simp only [fillLoop, if_neg hrem] at h
    split at h
    · cases h
    · rename_i s1 l1 hb
      exact ⟨n, s1, l1, true, rfl, hb, Or.inr ⟨rfl, h⟩⟩
    · rename_i s1 l1 hb
      cases h
      exact ⟨n, st', l', false, rfl, hb, Or.inl ⟨rfl, rfl, rfl⟩⟩

theorem fillFinish_seeking {st : State} {l : Locals} {now : Int} {r : FillResult}
    (h : fillFinish st l now = .ok r) : r.state.mSeeking = st.mSeeking := by
  simp only [fillFinish, State.log] at h
  split_ifs at h <;> cases h <;> rfl

/-- The count returned by a call entered with `mReachedEOS` false is the
number of bytes copied during the call. -/
theorem fillBuffer_size_done {fuel : Nat} {st : State} {out : Output} {size : Nat} {now : Int}
    {r : FillResult} (h : fillBuffer fuel st out size now = .ok r)
    (heos : st.mReachedEOS = false) {d : List Event} (hd : r.state.trace = st.trace ++ d) :
    r.size_done = copiedBytes d := by
  obtain ⟨d', hd', hcase⟩ := fillBuffer_trace h heos
  have : d = d' := List.append_cancel_left (hd.symm.trans hd')
  subst this
  rcases hcase with ⟨-, -, h3, -⟩ | ⟨-, pre, e, post, h2, -, h4, h5, -, -, h8⟩
  · exact h3
  · rw [h2, copiedBytes_append, h8]
    have he0 : e.copied = 0 := by
      cases e <;> simp [Event.readStatus] at h5 <;> rfl
    have hp := h4.copiedBytes
    simp only [copiedBytes, List.map_cons, List.sum_cons] at hp ⊢
    omega

/-- C5: in a started session on a source without endless run of empty
buffers, a call of `fillBuffer` with `size > 0` entered with a seek to
`mSeekTimeUs` pending (and `mReachedEOS` false) returns, and its calls are, in
this order: the release of the stashed first buffer (if it was still to be
used) and of the input buffer, whatever was consumed of them; a read from
the source with the seek target; then calls among which no read carries a seek
target.  Nothing is read or copied before that first read, so every byte of
the returned count is copied after it.  `isSeeking()` is false on return, and
`postAudioSeekComplete` is called once when there is an observer and not at
all otherwise. -/
theorem fillBuffer_pending_seek (st : State) (source : MediaSource) (out : Output)
    (size : Nat) (now : Int) (hs : Session st source) (hne : source.NoEndlessEmpties)
    (hsk : st.mSeeking = true) (heos : st.mReachedEOS = false) (hsize : 0 < size) :
    ∃ fuel r err buf rest,
      (∀ fuel', fuel ≤ fuel' → fillBuffer fuel' st out size now = .ok r) ∧
      r.state.trace =
        st.trace ++ heldReleases st ++
          Event.sourceRead (some st.mSeekTimeUs) err buf :: rest ∧
      (∀ b, st.mInputBuffer = some b → Event.bufferRelease b ∈ heldReleases st) ∧
      (∀ b, st.mIsFirstBuffer = true → st.mFirstBuffer = some b →
        Event.bufferRelease b ∈ heldReleases st) ∧
      Silent (heldReleases st) ∧
      (∀ e ∈ rest, e.isSeekRead = false) ∧
      r.size_done = copiedBytes rest ∧
      isSeeking r.state = false ∧
      rest.countP Event.isSeekComplete = (if st.mObserver then 1 else 0) := by
  obtain ⟨fuel, r, hr⟩ := fillBuffer_returns hne st hs out size now
  have h := hr fuel (le_refl _)
  have h0 := h
  simp only [fillBuffer, heos, Bool.false_eq_true, if_false] at h
  split at h
  · cases h
  rename_i st1 l1 hl
  have hrem : (Locals.init size).size_remaining ≠ 0 := by
    simp only [Locals.init]; omega
  -- the first pass
  obtain ⟨n, s1, l1', c, -, hb, hrest⟩ := fillLoop_first_pass hl hrem
  obtain ⟨hsc1, hsc2, hsc3, hsc4, -, hsc6, hsc7⟩ := seekCheck_seeking (Locals.init size) hsk
  unfold loopBody at hb
  obtain ⟨p1, p2, p3⟩ := loopTail_seekFree hb hsc2
  have hfirst : ∃ err buf d, s1.trace = st.trace ++ heldReleases st ++
      Event.sourceRead (some st.mSeekTimeUs) err buf :: d ∧ SeekFree d := by
    rcases p3 with ⟨d, -, -, hcontra⟩ | ⟨-, -, err, buf, d, hd, hsf⟩
    · have := hcontra hsc3
      rw [hsc4] at this; cases this
    · rw [hsc1, hsc6] at hd
      exact ⟨err, buf, d, hd, hsf⟩
  obtain ⟨err, buf, d, hd, hsf⟩ := hfirst
  have hps1 : l1'.postSeekComplete = (if st.mObserver then true else false) := by
    rw [p2, hsc7]; simp [Locals.init]
  -- the passes after the first
  have hloop : ∃ dl, st1.trace = st.trace ++ heldReleases st ++
      Event.sourceRead (some st.mSeekTimeUs) err buf :: dl ∧ SeekFree dl ∧
      st1.mSeeking = false ∧ l1.postSeekComplete = (if st.mObserver then true else false) := by
    rcases hrest with ⟨-, rfl, rfl⟩ | ⟨-, hl2⟩
    · exact ⟨d, hd, hsf, p1, hps1⟩
    · obtain ⟨d2, hd2, hsf2, q1, q2⟩ := fillLoop_seekFree n hl2 p1
      refine ⟨d ++ d2, ?_, seekFree_append hsf hsf2, q1, by rw [q2, hps1]⟩
      rw [hd2, hd]; simp
  obtain ⟨dl, hdl, hsfl, hsk1, hpsl⟩ := hloop
  -- the end of the call
  obtain ⟨ht, -⟩ := fillFinish_trace h
  have hskr := fillFinish_seeking h
  have htrace : r.state.trace = st.trace ++ heldReleases st ++
      Event.sourceRead (some st.mSeekTimeUs) err buf ::
        (dl ++ ((if l1.postEOS then [Event.postAudioEOS l1.postEOSDelayUs] else []) ++
          (if l1.postSeekComplete then [Event.postAudioSeekComplete] else []))) := by
    rw [ht, hdl]; simp
  refine ⟨fuel, r, err, buf, _, hr, htrace, ?_, ?_, heldReleases_silent st, ?_, ?_, ?_, ?_⟩
  · intro b hb'
    simp [heldReleases, hb']
  · intro b hf hb'
    simp [heldReleases, hf, hb']
  · intro e he
    rcases List.mem_append.1 he with he | he
    · exact (hsfl e he).1
    · cases hpe : l1.postEOS <;> cases hpc : l1.postSeekComplete <;>
        simp [hpe, hpc] at he
      · subst he; rfl
      · subst he; rfl
      · rcases he with rfl | rfl <;> rfl
  · have hsd := fillBuffer_size_done h0 heos (by rw [htrace, List.append_assoc])
    rw [hsd, copiedBytes_append, (heldReleases_silent st).copiedBytes]
    simp [copiedBytes, Event.copied]
  · simp only [isSeeking]; rw [hskr, hsk1]
  · rw [List.countP_append, seekFree_countP hsfl, hpsl]
    cases hpe : l1.postEOS <;> cases ho : st.mObserver <;>
      simp [List.countP_cons, Event.isSeekComplete]

theorem exSeeking_session : Session exSeeking exSource where
  started := rfl
  hasSource := rfl
  wellFormed := exSource_wellFormed
  output := Or.inl rfl
  eosOutput := fun _ _ => rfl
  frameSize := by decide
  sampleRate := by decide
  firstBuffer := fun h => by
    have : exSeeking.mIsFirstBuffer = false := rfl
    rw [this] at h; cases h

theorem fillBuffer_pending_seek_witness :
    Session exSeeking exSource ∧ exSource.NoEndlessEmpties ∧ exSeeking.mSeeking = true ∧
    exSeeking.mReachedEOS = false ∧ 0 < 3 ∧
    ∃ fuel r err buf rest,
      (∀ fuel', fuel ≤ fuel' → fillBuffer fuel' exSeeking exOutput 3 7 = .ok r) ∧
      r.state.trace =
        exSeeking.trace ++ heldReleases exSeeking ++
          Event.sourceRead (some exSeeking.mSeekTimeUs) err buf :: rest ∧
      (∀ b, exSeeking.mInputBuffer = some b →
        Event.bufferRelease b ∈ heldReleases exSeeking) ∧
      (∀ b, exSeeking.mIsFirstBuffer = true → exSeeking.mFirstBuffer = some b →
        Event.bufferRelease b ∈ heldReleases exSeeking) ∧
      Silent (heldReleases exSeeking) ∧
      (∀ e ∈ rest, e.isSeekRead = false) ∧
      r.size_done = copiedBytes rest ∧
      isSeeking r.state = false ∧
      rest.countP Event.isSeekComplete = (if exSeeking.mObserver then 1 else 0) :=
  ⟨exSeeking_session, exSource_noEndlessEmpties, rfl, rfl, by decide,
    fillBuffer_pending_seek exSeeking exSource exOutput 3 7 exSeeking_session
      exSource_noEndlessEmpties rfl rfl (by decide)⟩

/-! ### End of stream without a sink -/

/-- C3, failing input: a player made without sink and with an observer is
started (without offload) on a source that is at the end of its stream, and
its first `fillBuffer` does not return: the call of `needsTrailingPadding` on
line 655 goes through the null `mAudioSink`.  The same player made with a sink
returns 0 and has called `postAudioEOS` once, with a delay that is not
negative. -/
theorem fillBuffer_eos_without_sink :
    exTrackEnded.mStarted = true ∧ exTrackEnded.mAudioSink = false ∧
    exTrackEnded.mAudioTrack = true ∧ exTrackEnded.mObserver = true ∧
    exTrackEnded.mOffload = false ∧ exTrackEnded.mReachedEOS = false ∧
    (∀ fuel, fillBuffer (fuel + 1) exTrackEnded exOutput 1 0 = .error .nullDeref) ∧
    (∀ fuel, ∃ r, fillBuffer (fuel + 1) exSinkEnded exOutput 1 0 = .ok r ∧
      r.size_done = 0 ∧
      r.state.trace = exSinkEnded.trace ++
        [Event.firstBufferTaken ERROR_END_OF_STREAM none, Event.postAudioEOS 10000]) :=
  ⟨rfl, rfl, rfl, rfl, rfl, rfl, fun _ => rfl, fun _ => ⟨_, rfl, rfl, rfl⟩⟩

/-! ### The position times -/

theorem noKeyTime_nil : NoKeyTime [] := by
  intro e he; cases he

theorem noKeyTime_append {a b : List Event} (ha : NoKeyTime a) (hb : NoKeyTime b) :
    NoKeyTime (a ++ b) := by
  intro e he
  rcases List.mem_append.1 he with h | h
  · exact ha e h
  · exact hb e h

theorem noKeyTime_singleton {e : Event} (h : e.isFindKeyTime = false) : NoKeyTime [e] := by
  intro x hx
  simp only [List.mem_singleton] at hx
  subst hx
  exact h

theorem hasKeyTime_append_left {a : List Event} (b : List Event) (ha : HasKeyTime a) :
    HasKeyTime (a ++ b) := by
  obtain ⟨e, he, h⟩ := ha
  exact ⟨e, List.mem_append_left _ he, h⟩

theorem hasKeyTime_append_right (a : List Event) {b : List Event} (hb : HasKeyTime b) :
    HasKeyTime (a ++ b) := by
  obtain ⟨e, he, h⟩ := hb
  exact ⟨e, List.mem_append_right _ he, h⟩

theorem noKeyTime_not_has {d : List Event} (h1 : NoKeyTime d) (h2 : HasKeyTime d) : False := by
  obtain ⟨e, he, h⟩ := h2
  rw [h1 e he] at h
  cases h

theorem heldReleases_noKeyTime (st : State) : NoKeyTime (heldReleases st) := by
  intro e he
  unfold heldReleases at he
  rcases List.mem_append.1 he with h | h
  · split at h
    · obtain ⟨b, -, rfl⟩ := List.mem_map.1 h
      rfl
    · cases h
  · obtain ⟨b, -, rfl⟩ := List.mem_map.1 h
    rfl

theorem mappingStep_refl (a : State) : MappingStep a a [] :=
  Or.inl ⟨noKeyTime_nil, rfl, Or.inl rfl⟩

/-- Steps compose. -/
theorem mappingStep_trans {a b c : State} {d1 d2 : List Event}
    (h1 : MappingStep a b d1) (h2 : MappingStep b c d2) : MappingStep a c (d1 ++ d2) := by
  rcases h2 with ⟨n2, m2, r2⟩ | ⟨k2, m2, r2⟩
  · rcases h1 with ⟨n1, m1, r1⟩ | ⟨k1, m1, r1⟩
    · refine Or.inl ⟨noKeyTime_append n1 n2, m2.trans m1, ?_⟩
      rcases r2 with r2 | r2
      · rcases r1 with r1 | r1
        · exact Or.inl (r2.trans r1)
        · exact Or.inr (by rw [r2]; exact r1)
      · exact Or.inr r2
    · refine Or.inr ⟨hasKeyTime_append_left _ k1, by rw [m2]; exact m1, ?_⟩
      rcases r2 with r2 | r2
      · rw [r2]; exact r1
      · exact r2
  · exact Or.inr ⟨hasKeyTime_append_right _ k2, m2, r2⟩

/-- A step between players with the same position times and events that are
no lookup of a time stamp. -/
theorem mappingStep_of_same {a b : State} {d : List Event} (hd : NoKeyTime d)
    (hm : b.mPositionTimeMediaUs = a.mPositionTimeMediaUs)
    (hr : b.mPositionTimeRealUs = a.mPositionTimeRealUs) : MappingStep a b d :=
  Or.inl ⟨hd, hm, Or.inl hr⟩

theorem seekCheck_mapping (st : State) (l : Locals) :
    ∃ d, (seekCheck st l).1.trace = st.trace ++ d ∧ MappingStep st (seekCheck st l).1 d ∧
      ((seekCheck st l).1.mFirstBuffer = none ∨
        (seekCheck st l).1.mFirstBuffer = st.mFirstBuffer) := by
  cases h : st.mSeeking with
  | true =>
    obtain ⟨h1, -⟩ := seekCheck_seeking l h
    refine ⟨_, h1, mappingStep_of_same (heldReleases_noKeyTime st) ?_ ?_, ?_⟩
    · unfold seekCheck releaseInputBuffer releaseFirstBuffer State.log
      rw [if_pos h]; split <;> rfl
    · unfold seekCheck releaseInputBuffer releaseFirstBuffer State.log
      rw [if_pos h]; split <;> rfl
    · unfold seekCheck releaseInputBuffer releaseFirstBuffer State.log
      rw [if_pos h]
      split
      · exact Or.inl rfl
      · exact Or.inr rfl
  | false =>
    rw [seekCheck_idle l h]
    exact ⟨[], by simp, mappingStep_refl st, Or.inr rfl⟩

theorem consume_mapping (st : State) (l : Locals) (b : MediaBuffer) :
    ∃ d, (consume st l b).1.trace = st.trace ++ d ∧ MappingStep st (consume st l b).1 d := by
  unfold consume
  split
  · exact ⟨[_], rfl, mappingStep_of_same (noKeyTime_singleton rfl) rfl rfl⟩
  · exact ⟨[_], rfl, mappingStep_of_same (noKeyTime_singleton rfl) rfl rfl⟩

theorem obtainBuffer_mapping {st st2 : State} {o : Option Int} {err : status_t}
    (h : obtainBuffer st o = .ok (st2, err)) :
    ∃ d, st2.trace = st.trace ++ d ∧ MappingStep st st2 d ∧
      (st2.mFirstBuffer = none ∨ st2.mFirstBuffer = st.mFirstBuffer) ∧
      (st2.mInputBuffer = st.mFirstBuffer ∨
        ∃ source h, st.mSource = some source ∧ st2.mInputBuffer = (source.read h).buffer) := by
  unfold obtainBuffer at h
  split at h
  · cases h
    exact ⟨[_], rfl, mappingStep_of_same (noKeyTime_singleton rfl) rfl rfl, Or.inl rfl,
      Or.inl rfl⟩
  · split at h
    · cases h
    · rename_i source hsrc
      cases h
      exact ⟨[_], rfl, mappingStep_of_same (noKeyTime_singleton rfl) rfl rfl, Or.inr rfl,
        Or.inr ⟨source, _, hsrc, rfl⟩⟩

theorem readError_mapping {st st3 : State} {out : Output} {l l3 : Locals} {err : status_t}
    (h : readError st out l err = .ok (st3, l3)) :
    ∃ d, st3.trace = st.trace ++ d ∧ MappingStep st st3 d ∧
      st3.mFirstBuffer = st.mFirstBuffer := by
  unfold readError at h
  repeat' split at h
  all_goals cases h
  all_goals first
    | exact ⟨[], (List.append_nil _).symm, mappingStep_refl _, rfl⟩
    | exact ⟨[.setOffloadEOSReached], rfl,
        mappingStep_of_same (noKeyTime_singleton rfl) rfl rfl, rfl⟩

/-- The position times after a buffer became the input buffer, when frame
count and sample rate are not negative and the time stamp of the buffer is not
negative. -/
theorem readSuccess_mapping {st st3 : State} {out : Output} {l : Locals} {b : MediaBuffer}
    (h : readSuccess st out l b = .ok st3)
    (hf : 0 ≤ st.mNumFramesPlayed) (hr : 0 ≤ st.mSampleRate)
    (hb : BufferTimeNonneg (some b)) :
    ∃ d, st3.trace = st.trace ++ d ∧ MappingStep st st3 d := by
  have hreal : 0 ≤ Int.tdiv
      ((st.mNumFramesPlayed + ((l.size_done / st.mFrameSize : Nat) : Int)) * 1000000)
      st.mSampleRate :=
    Int.tdiv_nonneg (mul_nonneg (add_nonneg hf (Int.ofNat_nonneg _)) (by decide)) hr
  have hts : b.range_length ≠ 0 → b.kKeyTime.isNone = false →
      0 ≤ b.kKeyTime.getD st.mPositionTimeMediaUs := by
    intro hlen hk
    cases hkt : b.kKeyTime with
    | none => rw [hkt] at hk; cases hk
    | some t => exact hb b t rfl hlen hkt
  simp only [readSuccess, State.log] at h
  split_ifs at h with c1 c2 c3 c4 c5 c6 c7 c8 c9
  all_goals cases h
  all_goals first
    | exact ⟨[], (List.append_nil _).symm, Or.inl ⟨noKeyTime_nil, rfl, Or.inr hreal⟩⟩
    | exact ⟨[.postAudioSeekComplete], rfl,
        Or.inl ⟨noKeyTime_singleton rfl, rfl, Or.inr hreal⟩⟩
    | exact ⟨[.findKeyTime b], rfl,
        Or.inr ⟨⟨_, List.mem_singleton_self _, rfl⟩,
          hts c3 (by cases hk : b.kKeyTime.isNone with
            | false => rfl
            | true => exact absurd ⟨c3, hk⟩ c2), hreal⟩⟩
    | exact ⟨[.findKeyTime b, .postAudioSeekComplete], List.append_assoc _ _ _,
        Or.inr ⟨⟨_, List.mem_cons_self _ _, rfl⟩,
          hts c3 (by cases hk : b.kKeyTime.isNone with
            | false => rfl
            | true => exact absurd ⟨c3, hk⟩ c2), hreal⟩⟩

theorem bufferTimeNonneg_none : BufferTimeNonneg none := by
  intro b t h; cases h

theorem bufferTimeNonneg_of_or {x y : Option MediaBuffer} (h : x = none ∨ x = y)
    (hy : BufferTimeNonneg y) : BufferTimeNonneg x := by
  rcases h with h | h
  · rw [h]; exact bufferTimeNonneg_none
  · rw [h]; exact hy

/-- The position times across one pass, when frame count and sample rate are
not negative and the time stamps of the stashed first buffer and of the source
are not negative. -/
theorem loopBody_mapping {out : Output} {st st' : State} {l l' : Locals} {c : Bool}
    (h : loopBody out st l = .ok (st', l', c))
    (hf : 0 ≤ st.mNumFramesPlayed) (hr : 0 ≤ st.mSampleRate)
    (hfb : BufferTimeNonneg st.mFirstBuffer)
    (hsrc : ∀ source, st.mSource = some source → source.TimesNonneg) :
    ∃ d, st'.trace = st.trace ++ d ∧ MappingStep st st' d ∧
      BufferTimeNonneg st'.mFirstBuffer := by
  unfold loopBody at h
  obtain ⟨ds, hds, hms, hfs⟩ := seekCheck_mapping st l
  have hcs := seekCheck_config st l
  have hfb1 := bufferTimeNonneg_of_or hfs hfb
  rcases loopTail_cases h with ⟨b, -, hc, -⟩ | ⟨-, st2, err, ho, h2⟩
  · obtain ⟨d, hd, hm⟩ := consume_mapping (seekCheck st l).1 (seekCheck st l).2.1 b
    obtain ⟨-, b2, -⟩ := consume_buffers (seekCheck st l).1 (seekCheck st l).2.1 b
    rw [hc] at hd hm b2
    exact ⟨ds ++ d, by rw [hd, hds, List.append_assoc], mappingStep_trans hms hm,
      by rw [b2]; exact hfb1⟩
  · obtain ⟨d2, hd2, hm2, hf2, hin2⟩ := obtainBuffer_mapping ho
    have hc2 := hcs.trans (obtainBuffer_config ho)
    have hfb2 := bufferTimeNonneg_of_or hf2 hfb1
    rcases h2 with ⟨-, -, hre, -⟩ | ⟨b, st3, hb, -, hrs, hc, -⟩
    · obtain ⟨d3, hd3, hm3, hf3⟩ := readError_mapping hre
      exact ⟨ds ++ (d2 ++ d3), by rw [hd3, hd2, hds]; simp,
        mappingStep_trans hms (mappingStep_trans hm2 hm3), by rw [hf3]; exact hfb2⟩
    · have hbgood : BufferTimeNonneg (some b) := by
        rw [← hb]
        rcases hin2 with hin | ⟨source, hh, hs, hin⟩
        · rw [hin]; exact hfb1
        · rw [hin]
          rw [hcs.mSource] at hs
          intro b' t hb' hlen hk
          exact hsrc source hs hh b' t hb' hlen hk
      obtain ⟨d3, hd3, hm3⟩ := readSuccess_mapping hrs
        (by rw [hc2.mNumFramesPlayed]; exact hf) (by rw [hc2.mSampleRate]; exact hr) hbgood
      obtain ⟨-, -, r3, -⟩ := readSuccess_buffers hrs
      obtain ⟨d4, hd4, hm4⟩ := consume_mapping st3 (seekCheck st l).2.1 b
      obtain ⟨-, b2, -⟩ := consume_buffers st3 (seekCheck st l).2.1 b
      rw [hc] at hd4 hm4 b2
      exact ⟨ds ++ (d2 ++ (d3 ++ d4)), by rw [hd4, hd3, hd2, hds]; simp,
        mappingStep_trans hms (mappingStep_trans hm2 (mappingStep_trans hm3 hm4)),
        by rw [b2, r3]; exact hfb2⟩

theorem fillLoop_mapping {out : Output} (fuel : Nat) {st st' : State} {l l' : Locals}
    (h : fillLoop out fuel st l = .ok (st', l'))
    (hf : 0 ≤ st.mNumFramesPlayed) (hr : 0 ≤ st.mSampleRate)
    (hfb : BufferTimeNonneg st.mFirstBuffer)
    (hsrc : ∀ source, st.mSource = some source → source.TimesNonneg) :
    ∃ d, st'.trace = st.trace ++ d ∧ MappingStep st st' d ∧
      BufferTimeNonneg st'.mFirstBuffer := by
  have key := fillLoop_induct
    (fun s _ d => SameConfig st s ∧ MappingStep st s d ∧ BufferTimeNonneg s.mFirstBuffer)
    (fun s _ d => SameConfig st s ∧ MappingStep st s d ∧ BufferTimeNonneg s.mFirstBuffer)
    ?_ fuel [] ⟨SameConfig.refl st, mappingStep_refl st, hfb⟩ h
  · obtain ⟨d, hd, ⟨-, hR⟩ | hB⟩ := key
    · exact ⟨d, hd, by simpa using hR.2⟩
    · exact ⟨d, hd, by simpa using hB.2⟩
  · intro s1 l1 d s2 l2 c hR _ hb
    obtain ⟨hc1, hm1, hfb1⟩ := hR
    obtain ⟨d2, ht, hm2, hfb2⟩ := loopBody_mapping hb
      (by rw [hc1.mNumFramesPlayed]; exact hf) (by rw [hc1.mSampleRate]; exact hr) hfb1
      (by rw [hc1.mSource]; exact hsrc)
    have : SameConfig st s2 ∧ MappingStep st s2 (d ++ d2) ∧
        BufferTimeNonneg s2.mFirstBuffer :=
      ⟨hc1.trans (loopBody_config hb), mappingStep_trans hm1 hm2, hfb2⟩
    exact ⟨d2, ht, fun _ => this, fun _ => this⟩

theorem fillFinish_mapping {st : State} {l : Locals} {now : Int} {r : FillResult}
    (h : fillFinish st l now = .ok r) :
    ∃ d, r.state.trace = st.trace ++ d ∧ NoKeyTime d ∧
      r.state.mPositionTimeMediaUs = st.mPositionTimeMediaUs ∧
      r.state.mPositionTimeRealUs = st.mPositionTimeRealUs ∧
      r.state.mFirstBuffer = st.mFirstBuffer ∧ r.state.mSource = st.mSource ∧
      r.state.mSampleRate = st.mSampleRate := by
  obtain ⟨ht, -⟩ := fillFinish_trace h
  refine ⟨_, ht, ?_, ?_⟩
  · intro e he
    cases hpe : l.postEOS <;> cases hpc : l.postSeekComplete <;> simp [hpe, hpc] at he
    · subst he; rfl
    · subst he; rfl
    · rcases he with rfl | rfl <;> rfl
  · simp only [fillFinish, State.log] at h
    split_ifs at h <;> cases h <;> exact ⟨rfl, rfl, rfl, rfl, rfl⟩

/-- The position times across a call of `fillBuffer` on a sane player. -/
theorem fillBuffer_mapping {fuel : Nat} {st : State} {out : Output} {size : Nat} {now : Int}
    {r : FillResult} (h : fillBuffer fuel st out size now = .ok r) (hs : Sane st) :
    Sane r.state ∧ ∃ d, r.state.trace = st.trace ++ d ∧ MappingStep st r.state d := by
  cases heos : st.mReachedEOS with
  | true =>
    simp only [fillBuffer, heos, if_true] at h
    cases h
    exact ⟨hs, [], by simp, mappingStep_refl st⟩
  | false =>
    have hfr := (fillBuffer_clock fuel st out size now r heos h).2.1
    simp only [fillBuffer, heos, Bool.false_eq_true, if_false] at h
    split at h
    · cases h
    · rename_i st1 l1 hl
      have hc := fillLoop_config fuel hl
      obtain ⟨d, hd, hm, hfb⟩ := fillLoop_mapping fuel hl hs.frames hs.rate hs.firstBuffer
        (fun source h => (hs.source source h).1)
      obtain ⟨d2, hd2, hn2, hm2, hr2, hf2, hs2, hsr2⟩ := fillFinish_mapping h
      refine ⟨⟨le_trans hs.frames hfr, ?_, ?_, ?_⟩, d ++ d2,
        by rw [hd2, hd, List.append_assoc],
        mappingStep_trans hm (mappingStep_of_same hn2 hm2 hr2)⟩
      · rw [hsr2, hc.mSampleRate]; exact hs.rate
      · rw [hf2]; exact hfb
      · rw [hs2, hc.mSource]; exact hs.source

/-- What `startOutput` leaves of the members the position times depend on. -/
theorem startOutput_mapping {st st' : State} {out : Output} {format : MetaData} {b : Bool}
    {s : status_t} (h : startOutput st out format b = .ok (st', s)) :
    (∃ d, st'.trace = st.trace ++ d ∧ NoKeyTime d) ∧
    st'.mPositionTimeMediaUs = st.mPositionTimeMediaUs ∧
    st'.mPositionTimeRealUs = st.mPositionTimeRealUs ∧
    st'.mNumFramesPlayed = st.mNumFramesPlayed ∧
    st'.mSource = st.mSource ∧
    (st'.mFirstBuffer = none ∨ st'.mFirstBuffer = st.mFirstBuffer) ∧
    (st'.mSampleRate = st.mSampleRate ∨ format.kKeySampleRate = some st'.mSampleRate) := by
  simp only [startOutput, startCleanup, releaseFirstBuffer, State.log] at h
  repeat' split at h
  all_goals cases h
  all_goals refine ⟨?_, rfl, rfl, rfl, rfl, ?_, ?_⟩
  all_goals first
    | exact Or.inl rfl
    | exact Or.inr rfl
    | exact Or.inr (by assumption)
    | (apply Exists.intro
       constructor
       · first
         | exact (List.append_nil _).symm
         | rfl
         | (simp only [List.append_assoc]; rfl)
       · first
         | (intro e he; cases he; done)
         | (simp [NoKeyTime, Event.isFindKeyTime]; done)
         | (simp [NoKeyTime, Event.isFindKeyTime]
            rintro a (⟨x, -, rfl⟩ | rfl) <;> rfl))

/-- What `startRead` leaves of the members the position times depend on. -/
theorem startRead_mapping {st st' : State} {source : MediaSource} {out : Output} {b : Bool}
    {s : status_t} (h : startRead st source out b = .ok (st', s))
    (htimes : source.TimesNonneg) :
    (∃ d, st'.trace = st.trace ++ d ∧ NoKeyTime d) ∧
    st'.mPositionTimeMediaUs = st.mPositionTimeMediaUs ∧
    st'.mPositionTimeRealUs = st.mPositionTimeRealUs ∧
    st'.mNumFramesPlayed = st.mNumFramesPlayed ∧
    st'.mSource = st.mSource ∧
    BufferTimeNonneg st'.mFirstBuffer ∧
    (st'.mSampleRate = st.mSampleRate ∨
      source.getFormat.kKeySampleRate = some st'.mSampleRate) := by
  simp only [startRead, State.log] at h
  split_ifs at h
  all_goals
    obtain ⟨⟨d, hd, hn⟩, m1, m2, m3, m4, m5, m6⟩ := startOutput_mapping h
    simp only at hd m1 m2 m3 m4 m5 m6
    refine ⟨⟨_, hd.trans (List.append_assoc _ _ _), ?_⟩, m1, m2, m3, m4, ?_, m6⟩
    · exact noKeyTime_append (noKeyTime_singleton rfl) hn
    · refine bufferTimeNonneg_of_or m5 ?_
      intro b' t hb' hlen hk
      exact htimes _ b' t hb' hlen hk

/-- What `start` leaves of the members the position times depend on. -/
theorem start_mapping {st st' : State} {out : Output} {b : Bool} {s : status_t}
    (h : start st out b = .ok (st', s)) (hs : Sane st) :
    Sane st' ∧ ∃ d, st'.trace = st.trace ++ d ∧ MappingStep st st' d := by
  simp only [start, State.log] at h
  split at h
  · cases h
  split at h
  · cases h
  rename_i source hsrc
  obtain ⟨htimes, hrate⟩ := hs.source source hsrc
  have hfin : ∀ {s2 : State}, startRead s2 source out b = .ok (st', s) →
      s2.mNumFramesPlayed = st.mNumFramesPlayed → s2.mSampleRate = st.mSampleRate →
      s2.mSource = st.mSource → s2.mPositionTimeMediaUs = st.mPositionTimeMediaUs →
      s2.mPositionTimeRealUs = st.mPositionTimeRealUs →
      (∃ d, s2.trace = st.trace ++ d ∧ NoKeyTime d) →
      Sane st' ∧ ∃ d, st'.trace = st.trace ++ d ∧ MappingStep st st' d := by
    intro s2 h2 e1 e2 e3 e4 e5 ⟨d2, hd2, hn2⟩
    obtain ⟨⟨d, hd, hn⟩, m1, m2, m3, m4, m5, m6⟩ := startRead_mapping h2 htimes
    refine ⟨⟨by rw [m3, e1]; exact hs.frames, ?_, m5,
      by rw [m4, e3]; exact hs.source⟩, d2 ++ d, by rw [hd, hd2, List.append_assoc],
      mappingStep_of_same (noKeyTime_append hn2 hn) (by rw [m1, e4]) (by rw [m2, e5])⟩
    rcases m6 with m6 | m6
    · rw [m6, e2]; exact hs.rate
    · exact le_of_lt (hrate _ m6)
  split_ifs at h
  · exact hfin h rfl rfl rfl rfl rfl ⟨[], by simp, noKeyTime_nil⟩
  · cases h
    exact ⟨⟨hs.frames, hs.rate, hs.firstBuffer, hs.source⟩, [.sourceStart], rfl,
      mappingStep_of_same (noKeyTime_singleton rfl) rfl rfl⟩
  · exact hfin h rfl rfl rfl rfl rfl ⟨[.sourceStart], rfl, noKeyTime_singleton rfl⟩

/-! ### Sequences of calls and the position times -/

theorem run_append (st : State) (a b : List Op) :
    run st (a ++ b) =
      match run st a with
      | .error f => .error f
      | .ok st1 => run st1 b := by
  induction a generalizing st with
  | nil => rfl
  | cons op ops ih =>
    simp only [List.cons_append, run]
    cases step st op with
    | error f => rfl
    | ok st1 => exact ih st1

theorem isNew_sane {st : State} (h : IsNew st) : Sane st := by
  rcases h with ⟨a, b, c, n, s, rfl⟩ | ⟨a, b, c, n, s, rfl⟩ <;>
    exact ⟨le_refl _, le_refl _, fun _ _ h => (by cases h), fun _ h => by cases h⟩

theorem isNew_times {st : State} (h : IsNew st) :
    st.mPositionTimeRealUs = -1 ∧ st.mPositionTimeMediaUs = -1 := by
  rcases h with ⟨a, b, c, n, s, rfl⟩ | ⟨a, b, c, n, s, rfl⟩ <;> exact ⟨rfl, rfl⟩

/-- One call on a sane player: the player stays sane; `seekTo` and `reset`
set both position times to -1, every other call makes a `MappingStep`. -/
theorem step_mapping {st st' : State} {op : Op} (h : step st op = .ok st')
    (hs : Sane st) (hg : op.Good) :
    Sane st' ∧ ∃ d, st'.trace = st.trace ++ d ∧
      (op.isSeekOrReset = true →
        st'.mPositionTimeRealUs = -1 ∧ st'.mPositionTimeMediaUs = -1) ∧
      (op.isSeekOrReset = false → MappingStep st st' d) := by
  cases op with
  | setSource source =>
    simp only [step, setSource] at h
    split_ifs at h
    cases h
    exact ⟨⟨hs.frames, hs.rate, hs.firstBuffer, fun s hs2 => (by cases hs2; exact hg)⟩,
      [], (List.append_nil _).symm, fun h => (by cases h),
      fun _ => mappingStep_refl st⟩
  | start out b =>
    simp only [step] at h
    cases hst : start st out b with
    | error f => rw [hst] at h; cases h
    | ok p =>
      obtain ⟨s1, r⟩ := p
      rw [hst] at h
      cases h
      obtain ⟨h1, d, hd, hm⟩ := start_mapping hst hs
      exact ⟨h1, d, hd, fun h => (by cases h), fun _ => hm⟩
  | pause b now =>
    simp only [step, pause, State.log] at h
    split_ifs at h <;> cases h
    · exact ⟨⟨le_refl _, hs.rate, hs.firstBuffer, hs.source⟩, [.outputStop], rfl,
        fun h => (by cases h),
        fun _ => mappingStep_of_same (noKeyTime_singleton rfl) rfl rfl⟩
    · exact ⟨⟨hs.frames, hs.rate, hs.firstBuffer, hs.source⟩, [.outputPause], rfl,
        fun h => (by cases h),
        fun _ => mappingStep_of_same (noKeyTime_singleton rfl) rfl rfl⟩
  | resume =>
    simp only [step, resume, State.log] at h
    split_ifs at h
    cases h
    exact ⟨⟨hs.frames, hs.rate, hs.firstBuffer, hs.source⟩, [.outputStart], rfl,
      fun h => (by cases h),
      fun _ => mappingStep_of_same (noKeyTime_singleton rfl) rfl rfl⟩
  | reset now =>
    simp only [step, reset, releaseInputBuffer, releaseFirstBuffer, State.log] at h
    split_ifs at h
    all_goals
      cases h
      exact ⟨⟨le_refl _, hs.rate, fun _ _ h => (by cases h), fun _ h => by cases h⟩,
        _, by simp only [List.append_assoc]; rfl, fun _ => ⟨rfl, rfl⟩, fun h => by cases h⟩
  | seekTo t now =>
    simp only [step, seekTo, State.log] at h
    split_ifs at h
    · cases h
    all_goals
      simp only [Except.map, Except.ok.injEq] at h
      subst h
      exact ⟨⟨le_refl _, hs.rate, hs.firstBuffer, hs.source⟩, [.outputFlush], rfl,
        fun _ => ⟨rfl, rfl⟩, fun h => by cases h⟩
  | fillBuffer fuel out size now =>
    simp only [step] at h
    cases hfb : fillBuffer fuel st out size now with
    | error f => rw [hfb] at h; cases h
    | ok r =>
      rw [hfb] at h
      cases h
      obtain ⟨h1, d, hd, hm⟩ := fillBuffer_mapping hfb hs
      exact ⟨h1, d, hd, fun h => (by cases h), fun _ => hm⟩

theorem run_sane {st st' : State} {ops : List Op} (h : run st ops = .ok st')
    (hs : Sane st) (hg : ∀ op ∈ ops, op.Good) : Sane st' := by
  induction ops generalizing st with
  | nil => cases h; exact hs
  | cons op ops ih =>
    simp only [run] at h
    cases hstep : step st op with
    | error f => rw [hstep] at h; cases h
    | ok st1 =>
      rw [hstep] at h
      exact ih h (step_mapping hstep hs (hg op (List.mem_cons_self _ _))).1
        (fun o ho => hg o (List.mem_cons_of_mem _ ho))

theorem mappingOK_step {a b : State} {d : List Event} (ha : MappingOK a)
    (h : MappingStep a b d) : MappingOK b := by
  rcases h with ⟨-, hm, hr⟩ | ⟨-, hm, hr⟩
  · rcases ha with ⟨ar, am⟩ | ⟨ar, am⟩
    · rcases hr with hr | hr
      · exact Or.inl ⟨hr.trans ar, hm.trans am⟩
      · exact Or.inr ⟨hr, Or.inl (hm.trans am)⟩
    · refine Or.inr ⟨?_, by rw [hm]; exact am⟩
      rcases hr with hr | hr
      · rw [hr]; exact ar
      · exact hr
  · exact Or.inr ⟨hr, Or.inr hm⟩

theorem run_mappingOK {st st' : State} {ops : List Op} (h : run st ops = .ok st')
    (hs : Sane st) (hm : MappingOK st) (hg : ∀ op ∈ ops, op.Good) : MappingOK st' := by
  induction ops generalizing st with
  | nil => cases h; exact hm
  | cons op ops ih =>
    simp only [run] at h
    cases hstep : step st op with
    | error f => rw [hstep] at h; cases h
    | ok st1 =>
      rw [hstep] at h
      obtain ⟨h1, d, -, hsr, hms⟩ := step_mapping hstep hs (hg op (List.mem_cons_self _ _))
      refine ih h h1 ?_ (fun o ho => hg o (List.mem_cons_of_mem _ ho))
      cases hop : op.isSeekOrReset with
      | true => exact Or.inl (hsr hop)
      | false => exact mappingOK_step hm (hms hop)

/-- Calls other than `seekTo` and `reset` on a sane player make a
`MappingStep` from the first state to the last. -/
theorem run_mappingStep {st st' : State} {ops : List Op} (h : run st ops = .ok st')
    (hs : Sane st) (hg : ∀ op ∈ ops, op.Good)
    (hfree : ∀ op ∈ ops, op.isSeekOrReset = false) :
    ∃ d, st'.trace = st.trace ++ d ∧ MappingStep st st' d := by
  induction ops generalizing st with
  | nil => cases h; exact ⟨[], (List.append_nil _).symm, mappingStep_refl _⟩
  | cons op ops ih =>
    simp only [run] at h
    cases hstep : step st op with
    | error f => rw [hstep] at h; cases h
    | ok st1 =>
      rw [hstep] at h
      obtain ⟨h1, d, hd, -, hms⟩ := step_mapping hstep hs (hg op (List.mem_cons_self _ _))
      obtain ⟨d2, hd2, hm2⟩ := ih h h1 (fun o ho => hg o (List.mem_cons_of_mem _ ho))
        (fun o ho => hfree o (List.mem_cons_of_mem _ ho))
      exact ⟨d ++ d2, by rw [hd2, hd, List.append_assoc],
        mappingStep_trans (hms (hfree op (List.mem_cons_self _ _))) hm2⟩

theorem exSource_good : (Op.setSource exSource).Good := by
  constructor
  · intro h b t hb hlen hk
    simp only [exSource] at hb
    split at hb
    · cases hb; cases hk; decide
    · cases hb; cases hk; decide
    · cases hb
  · intro rate hr
    cases hr
    decide

theorem exEmptySource_timesNonneg : exEmptySource.TimesNonneg := by
  intro h b t hb hlen hk
  simp only [exEmptySource] at hb
  split at hb
  · cases hb; cases hk; decide
  · cases hb

theorem exEmptySource_good : (Op.setSource exEmptySource).Good :=
  ⟨exEmptySource_timesNonneg, fun rate hr => by cases hr; decide⟩

theorem exMixedOps_good : ∀ op ∈ exMixedOps, op.Good := by
  intro op hop
  simp only [exMixedOps, List.mem_cons, List.mem_singleton, List.not_mem_nil, or_false] at hop
  rcases hop with hop | hop | hop
  · rw [hop]; exact exEmptySource_good
  · rw [hop]; trivial
  · rw [hop]; trivial

theorem exSeekingOps_good :
    ∀ op ∈ exSeekingOps ++ [Op.fillBuffer 8 exOutput 3 7], op.Good := by
  intro op hop
  simp only [exSeekingOps, List.cons_append, List.nil_append, List.mem_cons,
    List.mem_singleton, List.not_mem_nil, or_false] at hop
  rcases hop with hop | hop | hop | hop | hop
  · rw [hop]; exact exSource_good
  all_goals rw [hop]; trivial

/-- C9 (as stated, refuted): a new player with a sink is given a source whose
first buffer has length zero (time stamp 0) and is then at the end of its
stream; after `start` and one `fillBuffer` the real position time is 0 while
the media position time is still -1. -/
theorem empty_buffer_sets_real_time_only :
    IsNew (construct true false true 0 0) ∧
    exEmptySource.TimesNonneg ∧
    run (construct true false true 0 0)
      [.setSource exEmptySource, .start exOutput false, .fillBuffer 4 exOutput 1 5]
      = .ok exMixed ∧
    exMixed.mPositionTimeRealUs = 0 ∧ exMixed.mPositionTimeMediaUs = -1 :=
  ⟨Or.inl ⟨true, false, true, 0, 0, rfl⟩, exEmptySource_timesNonneg, rfl, by decide, by decide⟩

/-- C9 (amended): in every state reached from a constructor by calls of
`setSource`, `start`, `fillBuffer`, `seekTo`, `pause`, `resume` and `reset`,
over sources whose non-empty buffers have time stamps that are not negative and
whose sample rate is positive, the position times are both -1, or the real
time is not negative and the media time is -1 or not negative: the media time
is never valid while the real time is -1. -/
theorem positionTimes_invariant (st0 st : State) (ops : List Op) (hnew : IsNew st0)
    (hgood : ∀ op ∈ ops, op.Good) (h : run st0 ops = .ok st) :
    MappingOK st :=
  run_mappingOK h (isNew_sane hnew) (Or.inl (isNew_times hnew)) hgood

theorem positionTimes_invariant_witness :
    IsNew (construct true false true 0 0) ∧ (∀ op ∈ exMixedOps, op.Good) ∧
    run (construct true false true 0 0) exMixedOps = .ok exMixed ∧ MappingOK exMixed :=
  ⟨Or.inl ⟨true, false, true, 0, 0, rfl⟩, exMixedOps_good, rfl,
    positionTimes_invariant (construct true false true 0 0) exMixed exMixedOps
      (Or.inl ⟨true, false, true, 0, 0, rfl⟩) exMixedOps_good rfl⟩

/-! ### Buffers obtained and time stamps looked up -/

theorem any_false_of_forall {p : Event → Bool} {d : List Event}
    (h : ∀ e ∈ d, p e = false) : d.any p = false := by
  rw [List.any_eq_false]
  intro x hx
  rw [h x hx]
  simp

theorem heldReleases_releases (st : State) :
    ∀ e ∈ heldReleases st, ∃ b, e = .bufferRelease b := by
  intro e he
  unfold heldReleases at he
  rcases List.mem_append.1 he with h | h
  · split at h
    · obtain ⟨b, -, rfl⟩ := List.mem_map.1 h
      exact ⟨b, rfl⟩
    · cases h
  · obtain ⟨b, -, rfl⟩ := List.mem_map.1 h
    exact ⟨b, rfl⟩

theorem seekCheck_keyTimes (st : State) (l : Locals) :
    ∃ d, (seekCheck st l).1.trace = st.trace ++ d ∧
      d.any Event.isFindKeyTime = false ∧ d.any Event.adoptsNonEmpty = false := by
  cases h : st.mSeeking with
  | true =>
    obtain ⟨h1, -⟩ := seekCheck_seeking l h
    refine ⟨_, h1, any_false_of_forall ?_, any_false_of_forall ?_⟩
    · intro e he
      obtain ⟨b, rfl⟩ := heldReleases_releases st e he
      rfl
    · intro e he
      obtain ⟨b, rfl⟩ := heldReleases_releases st e he
      rfl
  | false =>
    rw [seekCheck_idle l h]
    exact ⟨[], by simp, rfl, rfl⟩

theorem consume_keyTimes (st : State) (l : Locals) (b : MediaBuffer) :
    ∃ d, (consume st l b).1.trace = st.trace ++ d ∧
      d.any Event.isFindKeyTime = false ∧ d.any Event.adoptsNonEmpty = false := by
  unfold consume
  split
  · exact ⟨[_], rfl, rfl, rfl⟩
  · exact ⟨[_], rfl, rfl, rfl⟩

/-- The one event of `obtainBuffer` is no lookup of a time stamp, and it
obtains a buffer of non-zero length exactly when the input buffer it leaves is
one. -/
theorem obtainBuffer_keyTimes {st st2 : State} {o : Option Int} {err : status_t}
    (h : obtainBuffer st o = .ok (st2, err)) :
    ∃ d, st2.trace = st.trace ++ d ∧ d.any Event.isFindKeyTime = false ∧
      d.any Event.adoptsNonEmpty = st2.mInputBuffer.any (fun b => b.range_length != 0) := by
  unfold obtainBuffer at h
  split at h
  · cases h
    refine ⟨[_], rfl, rfl, ?_⟩
    cases st.mFirstBuffer <;> simp [Event.adoptsNonEmpty, State.log]
  · split at h
    · cases h
    · rename_i source hsrc
      cases h
      refine ⟨[_], rfl, rfl, ?_⟩
      cases (source.read (st.reads ++ [o])).buffer <;> simp [Event.adoptsNonEmpty, State.log]

theorem readError_keyTimes {st st3 : State} {out : Output} {l l3 : Locals} {err : status_t}
    (h : readError st out l err = .ok (st3, l3)) :
    ∃ d, st3.trace = st.trace ++ d ∧
      d.any Event.isFindKeyTime = false ∧ d.any Event.adoptsNonEmpty = false := by
  unfold readError at h
  repeat' split at h
  all_goals cases h
  all_goals first
    | exact ⟨[], (List.append_nil _).symm, rfl, rfl⟩
    | exact ⟨[.setOffloadEOSReached], rfl, rfl, rfl⟩

/-- The bookkeeping after a successful read looks up the time stamp exactly
when the buffer has a length other than zero (line 678). -/
theorem readSuccess_keyTimes {st st3 : State} {out : Output} {l : Locals} {b : MediaBuffer}
    (h : readSuccess st out l b = .ok st3) :
    ∃ d, st3.trace = st.trace ++ d ∧
      d.any Event.isFindKeyTime = (b.range_length != 0) ∧
      d.any Event.adoptsNonEmpty = false := by
  simp only [readSuccess, State.log] at h
  split_ifs at h with c1 c2 c3 c4 c5 c6 c7 c8 c9
  all_goals cases h
  all_goals first
    | (refine ⟨[], (List.append_nil _).symm, ?_, rfl⟩
       simp_all [Event.isFindKeyTime])
    | (refine ⟨[.postAudioSeekComplete], rfl, ?_, rfl⟩
       simp_all [Event.isFindKeyTime])
    | (refine ⟨[.findKeyTime b], rfl, ?_, rfl⟩
       simp_all [Event.isFindKeyTime])
    | (refine ⟨[.findKeyTime b, .postAudioSeekComplete], List.append_assoc _ _ _, ?_, rfl⟩
       simp_all [Event.isFindKeyTime])

/-- In one pass of the loop, a time stamp is looked up exactly when a buffer
of non-zero length is obtained. -/
theorem loopBody_keyTimes {out : Output} {st st' : State} {l l' : Locals} {c : Bool}
    (h : loopBody out st l = .ok (st', l', c)) :
    ∃ d, st'.trace = st.trace ++ d ∧
      d.any Event.isFindKeyTime = d.any Event.adoptsNonEmpty := by
  unfold loopBody at h
  obtain ⟨ds, hds, ks, as⟩ := seekCheck_keyTimes st l
  rcases loopTail_cases h with ⟨b, -, hc, -⟩ | ⟨-, st2, err, ho, h2⟩
  · obtain ⟨d, hd, k1, a1⟩ := consume_keyTimes (seekCheck st l).1 (seekCheck st l).2.1 b
    rw [hc] at hd
    exact ⟨ds ++ d, by rw [hd, hds, List.append_assoc],
      by simp only [List.any_append, ks, as, k1, a1]⟩
  · obtain ⟨d2, hd2, k2, a2⟩ := obtainBuffer_keyTimes ho
    rcases h2 with ⟨hb, -, hre, -⟩ | ⟨b, st3, hb, -, hrs, hc, -⟩
    · obtain ⟨d3, hd3, k3, a3⟩ := readError_keyTimes hre
      rw [hb] at a2
      exact ⟨ds ++ (d2 ++ d3), by rw [hd3, hd2, hds]; simp,
        by simp only [List.any_append, ks, as, k2, a2, k3, a3, Option.any_none]⟩
    · obtain ⟨d3, hd3, k3, a3⟩ := readSuccess_keyTimes hrs
      obtain ⟨d4, hd4, k4, a4⟩ := consume_keyTimes st3 (seekCheck st l).2.1 b
      rw [hc] at hd4
      rw [hb] at a2
      exact ⟨ds ++ (d2 ++ (d3 ++ d4)), by rw [hd4, hd3, hd2, hds]; simp,
        by simp only [List.any_append, ks, as, k2, a2, k3, a3, k4, a4, Option.any_some,
          Bool.false_or, Bool.or_false]⟩

theorem fillLoop_keyTimes {out : Output} (fuel : Nat) {st st' : State} {l l' : Locals}
    (h : fillLoop out fuel st l = .ok (st', l')) :
    ∃ d, st'.trace = st.trace ++ d ∧
      d.any Event.isFindKeyTime = d.any Event.adoptsNonEmpty := by
  have key := fillLoop_induct
    (fun _ _ d => d.any Event.isFindKeyTime = d.any Event.adoptsNonEmpty)
    (fun _ _ d => d.any Event.isFindKeyTime = d.any Event.adoptsNonEmpty)
    ?_ fuel [] rfl h
  · obtain ⟨d, hd, ⟨-, hR⟩ | hB⟩ := key
    · exact ⟨d, hd, by simpa using hR⟩
    · exact ⟨d, hd, by simpa using hB⟩
  · intro s1 l1 d s2 l2 c hR _ hb
    obtain ⟨d2, ht, hk⟩ := loopBody_keyTimes hb
    have : (d ++ d2).any Event.isFindKeyTime = (d ++ d2).any Event.adoptsNonEmpty := by
      simp only [List.any_append, hR, hk]
    exact ⟨d2, ht, fun _ => this, fun _ => this⟩

/-- In a call of `fillBuffer`, a time stamp is looked up exactly when a buffer
of non-zero length is obtained. -/
theorem fillBuffer_keyTimes {fuel : Nat} {st : State} {out : Output} {size : Nat} {now : Int}
    {r : FillResult} (h : fillBuffer fuel st out size now = .ok r) :
    ∃ d, r.state.trace = st.trace ++ d ∧
      d.any Event.isFindKeyTime = d.any Event.adoptsNonEmpty := by
  cases heos : st.mReachedEOS with
  | true =>
    simp only [fillBuffer, heos, if_true] at h
    cases h
    exact ⟨[], by simp, rfl⟩
  | false =>
    simp only [fillBuffer, heos, Bool.false_eq_true, if_false] at h
    split at h
    · cases h
    · rename_i st1 l1 hl
      obtain ⟨d, hd, hk⟩ := fillLoop_keyTimes fuel hl
      obtain ⟨ht, -⟩ := fillFinish_trace h
      refine ⟨d ++ _, by rw [ht, hd, List.append_assoc], ?_⟩
      cases l1.postEOS <;> cases l1.postSeekComplete <;>
        simp [List.any_append, hk, Event.isFindKeyTime, Event.adoptsNonEmpty]

theorem noKeyTime_any {d : List Event} (h : NoKeyTime d) :
    d.any Event.isFindKeyTime = false :=
  any_false_of_forall h

theorem hasKeyTime_any {d : List Event} : HasKeyTime d ↔ d.any Event.isFindKeyTime = true := by
  simp [HasKeyTime, List.any_eq_true]

/-- One call other than `seekTo` and `reset` on a sane player: a time stamp is
looked up among its events exactly when the call is a `fillBuffer` that
obtains a buffer of non-zero length. -/
theorem step_keyTimes {st st' : State} {op : Op} (h : step st op = .ok st')
    (hs : Sane st) (hfree : op.isSeekOrReset = false) :
    ∃ d, st'.trace = st.trace ++ d ∧
      d.any Event.isFindKeyTime = (op.isFill && d.any Event.adoptsNonEmpty) := by
  cases op with
  | setSource source =>
    simp only [step, setSource] at h
    split_ifs at h
    cases h
    exact ⟨[], (List.append_nil _).symm, rfl⟩
  | start out b =>
    simp only [step] at h
    cases hst : start st out b with
    | error f => rw [hst] at h; cases h
    | ok p =>
      obtain ⟨s1, r⟩ := p
      rw [hst] at h
      cases h
      simp only [start, State.log] at hst
      split at hst
      · cases hst
      split at hst
      · cases hst
      rename_i source hsrc
      obtain ⟨htimes, -⟩ := hs.source source hsrc
      split_ifs at hst
      · obtain ⟨⟨d, hd, hn⟩, -⟩ := startRead_mapping hst htimes
        exact ⟨d, hd, by rw [noKeyTime_any hn]; rfl⟩
      · cases hst
        exact ⟨[.sourceStart], rfl, rfl⟩
      · obtain ⟨⟨d, hd, hn⟩, -⟩ := startRead_mapping hst htimes
        simp only at hd
        refine ⟨[.sourceStart] ++ d, by rw [hd, List.append_assoc], ?_⟩
        rw [List.any_append, noKeyTime_any hn]
        rfl
  | pause b now =>
    simp only [step, pause, State.log] at h
    split_ifs at h <;> cases h
    · exact ⟨[.outputStop], rfl, rfl⟩
    · exact ⟨[.outputPause], rfl, rfl⟩
  | resume =>
    simp only [step, resume, State.log] at h
    split_ifs at h
    cases h
    exact ⟨[.outputStart], rfl, rfl⟩
  | reset now => cases hfree
  | seekTo t now => cases hfree
  | fillBuffer fuel out size now =>
    simp only [step] at h
    cases hfb : fillBuffer fuel st out size now with
    | error f => rw [hfb] at h; cases h
    | ok r =>
      rw [hfb] at h
      cases h
      obtain ⟨d, hd, hk⟩ := fillBuffer_keyTimes hfb
      exact ⟨d, hd, by rw [hk]; rfl⟩

/-- Calls other than `seekTo` and `reset` on a sane player: a time stamp is
looked up among their events exactly when one of the `fillBuffer` calls
obtains a buffer of non-zero length. -/
theorem run_keyTimes {st st' : State} {ops : List Op} (h : run st ops = .ok st')
    (hs : Sane st) (hg : ∀ op ∈ ops, op.Good)
    (hfree : ∀ op ∈ ops, op.isSeekOrReset = false) :
    ∃ d, st'.trace = st.trace ++ d ∧
      d.any Event.isFindKeyTime = adoptedNonEmpty st ops := by
  induction ops generalizing st with
  | nil => cases h; exact ⟨[], (List.append_nil _).symm, rfl⟩
  | cons op ops ih =>
    simp only [run] at h
    cases hstep : step st op with
    | error f => rw [hstep] at h; cases h
    | ok st1 =>
      rw [hstep] at h
      have hs1 := (step_mapping hstep hs (hg op (List.mem_cons_self _ _))).1
      obtain ⟨d, hd, hk⟩ := step_keyTimes hstep hs (hfree op (List.mem_cons_self _ _))
      obtain ⟨d2, hd2, hk2⟩ := ih h hs1 (fun o ho => hg o (List.mem_cons_of_mem _ ho))
        (fun o ho => hfree o (List.mem_cons_of_mem _ ho))
      refine ⟨d ++ d2, by rw [hd2, hd, List.append_assoc], ?_⟩
      have hdrop : st1.trace.drop st.trace.length = d := by
        rw [hd, List.drop_left]
      simp only [adoptedNonEmpty, hstep, hdrop, List.any_append, hk, hk2]

/-- C10: take a new player, calls `ops1` that are none or end with `seekTo`
or `reset`, then calls `ops2` without `seekTo` and `reset` that return
(sources with time stamps that are not negative and a positive sample rate).
`getMediaTimeMapping` then returns true exactly when one of the `fillBuffer`
calls of `ops2` has obtained a buffer of non-zero length as its input buffer
(from the source, or the one stashed by `start`): it returns false as long as
none has, buffers of length zero included, and once one has it returns true
and both returned values are not negative. -/
theorem getMediaTimeMapping_established (st0 st1 st2 : State) (ops1 ops2 : List Op)
    (hnew : IsNew st0) (hgood : ∀ op ∈ ops1 ++ ops2, op.Good)
    (hlast : ops1 = [] ∨ ∃ ops op, ops1 = ops ++ [op] ∧ op.isSeekOrReset = true)
    (hfree : ∀ op ∈ ops2, op.isSeekOrReset = false)
    (h1 : run st0 ops1 = .ok st1) (h2 : run st1 ops2 = .ok st2) :
    (getMediaTimeMapping st2).1 = adoptedNonEmpty st1 ops2 ∧
    (adoptedNonEmpty st1 ops2 = true →
      0 ≤ (getMediaTimeMapping st2).2.1 ∧ 0 ≤ (getMediaTimeMapping st2).2.2) := by
  have hg1 : ∀ op ∈ ops1, op.Good := fun o ho => hgood o (List.mem_append_left _ ho)
  have hg2 : ∀ op ∈ ops2, op.Good := fun o ho => hgood o (List.mem_append_right _ ho)
  have hs1 : Sane st1 := run_sane h1 (isNew_sane hnew) hg1
  have ht1 : st1.mPositionTimeRealUs = -1 ∧ st1.mPositionTimeMediaUs = -1 := by
    rcases hlast with rfl | ⟨ops, op, rfl, hop⟩
    · cases h1; exact isNew_times hnew
    · rw [run_append] at h1
      cases hr : run st0 ops with
      | error f => rw [hr] at h1; cases h1
      | ok sa =>
        rw [hr] at h1
        simp only [run] at h1
        cases hstep : step sa op with
        | error f => rw [hstep] at h1; cases h1
        | ok sb =>
          rw [hstep] at h1
          cases h1
          have hsa : Sane sa := run_sane hr (isNew_sane hnew)
            (fun o ho => hg1 o (List.mem_append_left _ ho))
          obtain ⟨-, d, -, hsr, -⟩ := step_mapping hstep hsa
            (hg1 op (List.mem_append_right _ (List.mem_singleton_self _)))
          exact hsr hop
  obtain ⟨d, hd, hm⟩ := run_mappingStep h2 hs1 hg2 hfree
  obtain ⟨d', hd', hk⟩ := run_keyTimes h2 hs1 hg2 hfree
  have hdd : d' = d := List.append_cancel_left (hd'.symm.trans hd)
  subst hdd
  rw [← hk]
  rcases hm with ⟨hn, hmm, -⟩ | ⟨hkt, hmm, hmr⟩
  · rw [noKeyTime_any hn]
    refine ⟨?_, fun h => by cases h⟩
    simp [getMediaTimeMapping, hmm, ht1.2]
  · rw [hasKeyTime_any.mp hkt]
    refine ⟨?_, fun _ => ⟨hmr, hmm⟩⟩
    simp only [getMediaTimeMapping, decide_eq_true_eq]
    constructor <;> intro h <;> simp [h] at hmr hmm

theorem getMediaTimeMapping_established_witness :
    IsNew (construct true false true 0 0) ∧
    (∀ op ∈ exSeekingOps ++ [Op.fillBuffer 8 exOutput 3 7], op.Good) ∧
    (exSeekingOps = [] ∨ ∃ ops op, exSeekingOps = ops ++ [op] ∧ op.isSeekOrReset = true) ∧
    (∀ op ∈ [Op.fillBuffer 8 exOutput 3 7], op.isSeekOrReset = false) ∧
    run (construct true false true 0 0) exSeekingOps = .ok exSeeking ∧
    run exSeeking [.fillBuffer 8 exOutput 3 7] = .ok exAfterSeek ∧
    getMediaTimeMapping exSeeking = (false, -1, -1) ∧
    adoptedNonEmpty exSeeking [.fillBuffer 8 exOutput 3 7] = true ∧
    getMediaTimeMapping exAfterSeek = (true, 0, 2000) ∧
    ((getMediaTimeMapping exAfterSeek).1 =
        adoptedNonEmpty exSeeking [.fillBuffer 8 exOutput 3 7] ∧
      (adoptedNonEmpty exSeeking [.fillBuffer 8 exOutput 3 7] = true →
        0 ≤ (getMediaTimeMapping exAfterSeek).2.1 ∧
        0 ≤ (getMediaTimeMapping exAfterSeek).2.2)) :=
  ⟨Or.inl ⟨true, false, true, 0, 0, rfl⟩, exSeekingOps_good,
    Or.inr ⟨[.setSource exSource, .start exOutput false, .fillBuffer 8 exOutput 3 5],
      .seekTo 700 6, rfl, rfl⟩,
    fun op hop => by rw [List.mem_singleton.mp hop]; rfl, rfl, rfl, rfl, rfl, rfl,
    getMediaTimeMapping_established (construct true false true 0 0) exSeeking exAfterSeek
      exSeekingOps [.fillBuffer 8 exOutput 3 7]
      (Or.inl ⟨true, false, true, 0, 0, rfl⟩) exSeekingOps_good
      (Or.inr ⟨[.setSource exSource, .start exOutput false, .fillBuffer 8 exOutput 3 5],
        .seekTo 700 6, rfl, rfl⟩)
      (fun op hop => by rw [List.mem_singleton.mp hop]; rfl) rfl rfl⟩

/-- A player whose only buffer read has length zero: the `fillBuffer` call
has obtained no buffer of non-zero length, the real time is set and the media
time is not, and `getMediaTimeMapping` returns false. -/
theorem exOnlyEmpty_mapping :
    run (construct true false true 0 0)
      [.setSource exEmptySource, .start exOutput false, .fillBuffer 8 exOutput 3 5] =
        .ok exOnlyEmpty ∧
    adoptedNonEmpty (construct true false true 0 0)
      [.setSource exEmptySource, .start exOutput false, .fillBuffer 8 exOutput 3 5] = false ∧
    getMediaTimeMapping exOnlyEmpty = (false, 0, -1) := ⟨rfl, rfl, rfl⟩

/-! ### The clock -/

theorem getRealTimeUsLocked_eq {st : State} (now : Int) (hst : st.mStarted = true)
    (hsr : st.mSampleRate ≠ 0) :
    getRealTimeUsLocked st now = .ok
      (-st.mLatencyUs + Int.tdiv (st.mNumFramesPlayed * 1000000) st.mSampleRate
        + (if st.mPinnedTimeUs ≥ 0 then st.mPinnedTimeUs else now)
        - st.mNumFramesPlayedSysTimeUs) := by
  simp only [getRealTimeUsLocked, hst, Bool.not_true, Bool.false_eq_true, if_false,
    if_neg hsr]
  congr 1
  ring

/-- C11: on a started player with a sample rate other than zero,
`getRealTimeUs()` returns, for every clock value `now`,
`-mLatencyUs + (mNumFramesPlayed * 1000000) / mSampleRate + c -
mNumFramesPlayedSysTimeUs` with the truncating division, where `c` is
`mPinnedTimeUs` when that is not negative and `now` otherwise. -/
theorem getRealTimeUs_formula (st : State) (now : Int) (hst : st.mStarted = true)
    (hsr : st.mSampleRate ≠ 0) :
    getRealTimeUs st now = .ok
      (-st.mLatencyUs + Int.tdiv (st.mNumFramesPlayed * 1000000) st.mSampleRate
        + (if st.mPinnedTimeUs ≥ 0 then st.mPinnedTimeUs else now)
        - st.mNumFramesPlayedSysTimeUs) :=
  getRealTimeUsLocked_eq now hst hsr

theorem getRealTimeUs_formula_witness :
    exPlayed.mStarted = true ∧ exPlayed.mSampleRate ≠ 0 ∧
    getRealTimeUs exPlayed 9 = .ok
      (-exPlayed.mLatencyUs + Int.tdiv (exPlayed.mNumFramesPlayed * 1000000) exPlayed.mSampleRate
        + (if exPlayed.mPinnedTimeUs ≥ 0 then exPlayed.mPinnedTimeUs else 9)
        - exPlayed.mNumFramesPlayedSysTimeUs) :=
  ⟨rfl, by decide, getRealTimeUs_formula exPlayed 9 rfl (by decide)⟩

/-- C12: without offload, `getMediaTimeUs()` returns the seek target when a
position time is negative and a seek is pending, 0 when a position time is
negative and no seek is pending, and otherwise (on a started player with a
sample rate other than zero, where `getRealTimeUs()` returns)
`mPositionTimeMediaUs + max 0 (getRealTimeUs() - mPositionTimeRealUs)`, which
is not less than `mPositionTimeMediaUs`. -/
theorem getMediaTimeUs_cases (st : State) (out : Output) (now : Int)
    (hoff : st.mOffload = false) :
    ((st.mPositionTimeMediaUs < 0 ∨ st.mPositionTimeRealUs < 0) → st.mSeeking = true →
      getMediaTimeUs st out now = .ok st.mSeekTimeUs) ∧
    ((st.mPositionTimeMediaUs < 0 ∨ st.mPositionTimeRealUs < 0) → st.mSeeking = false →
      getMediaTimeUs st out now = .ok 0) ∧
    (0 ≤ st.mPositionTimeMediaUs → 0 ≤ st.mPositionTimeRealUs → st.mStarted = true →
      st.mSampleRate ≠ 0 →
      ∃ realTime, getRealTimeUs st now = .ok realTime ∧
        getMediaTimeUs st out now =
          .ok (st.mPositionTimeMediaUs + max 0 (realTime - st.mPositionTimeRealUs)) ∧
        st.mPositionTimeMediaUs ≤
          st.mPositionTimeMediaUs + max 0 (realTime - st.mPositionTimeRealUs)) := by
  refine ⟨?_, ?_, ?_⟩
  · intro hneg hsk
    simp only [getMediaTimeUs, if_pos hneg, hsk, if_true]
  · intro hneg hsk
    simp only [getMediaTimeUs, if_pos hneg, hsk, Bool.false_eq_true, if_false]
  · intro hm hr hst hsr
    have hnot : ¬ (st.mPositionTimeMediaUs < 0 ∨ st.mPositionTimeRealUs < 0) := by
      rintro (h | h) <;> omega
    obtain ⟨rt, hrt⟩ : ∃ rt, getRealTimeUsLocked st now = .ok rt :=
      ⟨_, getRealTimeUsLocked_eq now hst hsr⟩
    refine ⟨rt, hrt, ?_, ?_⟩
    · simp only [getMediaTimeUs, if_neg hnot, hoff, Bool.false_eq_true, if_false, hrt]
      by_cases h : rt - st.mPositionTimeRealUs < 0
      · rw [if_pos h, max_eq_left (le_of_lt h)]
      · rw [if_neg h, max_eq_right (not_lt.mp h)]
    · have := le_max_left 0 (rt - st.mPositionTimeRealUs)
      omega

theorem getMediaTimeUs_cases_witness :
    exPlayed.mOffload = false ∧
    ((exPlayed.mPositionTimeMediaUs < 0 ∨ exPlayed.mPositionTimeRealUs < 0) →
      exPlayed.mSeeking = true →
      getMediaTimeUs exPlayed exOutput 9 = .ok exPlayed.mSeekTimeUs) ∧
    ((exPlayed.mPositionTimeMediaUs < 0 ∨ exPlayed.mPositionTimeRealUs < 0) →
      exPlayed.mSeeking = false →
      getMediaTimeUs exPlayed exOutput 9 = .ok 0) ∧
    (0 ≤ exPlayed.mPositionTimeMediaUs → 0 ≤ exPlayed.mPositionTimeRealUs →
      exPlayed.mStarted = true → exPlayed.mSampleRate ≠ 0 →
      ∃ realTime, getRealTimeUs exPlayed 9 = .ok realTime ∧
        getMediaTimeUs exPlayed exOutput 9 =
          .ok (exPlayed.mPositionTimeMediaUs +
            max 0 (realTime - exPlayed.mPositionTimeRealUs)) ∧
        exPlayed.mPositionTimeMediaUs ≤
          exPlayed.mPositionTimeMediaUs +
            max 0 (realTime - exPlayed.mPositionTimeRealUs)) :=
  ⟨rfl, getMediaTimeUs_cases exPlayed exOutput 9 rfl⟩

/-! ### After the end of the stream -/

/-- C17: on a player with `mReachedEOS` true, `fillBuffer` returns 0 for every
size and every bound, stores no byte and leaves the player as it is, the
record of the calls made included: no read, no copy, no notification.  So any
number of `fillBuffer` calls in a row leaves the player as it is, with
`mReachedEOS` true. -/
theorem fillBuffer_after_eos (st : State) (heos : st.mReachedEOS = true) :
    (∀ fuel out size now,
      fillBuffer fuel st out size now = .ok { state := st, size_done := 0, data := [] }) ∧
    (∀ calls : List (Nat × Output × Nat × Int),
      run st (calls.map (fun c => Op.fillBuffer c.1 c.2.1 c.2.2.1 c.2.2.2)) = .ok st) := by
  have h1 : ∀ fuel out size now,
      fillBuffer fuel st out size now = .ok { state := st, size_done := 0, data := [] } := by
    intro fuel out size now
    simp only [fillBuffer, heos, if_true]
  refine ⟨h1, ?_⟩
  intro calls
  induction calls with
  | nil => rfl
  | cons c cs ih =>
    simp only [List.map_cons, run, step, h1, Except.map]
    exact ih

theorem fillBuffer_after_eos_witness :
    exMixed.mReachedEOS = true ∧
    (∀ fuel out size now,
      fillBuffer fuel exMixed out size now =
        .ok { state := exMixed, size_done := 0, data := [] }) ∧
    (∀ calls : List (Nat × Output × Nat × Int),
      run exMixed (calls.map (fun c => Op.fillBuffer c.1 c.2.1 c.2.2.1 c.2.2.2)) =
        .ok exMixed) :=
  ⟨rfl, fillBuffer_after_eos exMixed rfl⟩

/-! ### Pause, resume and the pinned clock -/

theorem keepsPin_step {st st' : State} {op : Op} (h : step st op = .ok st')
    (hk : op.keepsPin = true) (hst : st.mStarted = true) :
    st'.mStarted = true ∧ st'.mPinnedTimeUs = st.mPinnedTimeUs ∧
    st'.mLatencyUs = st.mLatencyUs ∧ st'.mNumFramesPlayed = st.mNumFramesPlayed ∧
    st'.mSampleRate = st.mSampleRate ∧
    st'.mNumFramesPlayedSysTimeUs = st.mNumFramesPlayedSysTimeUs := by
  cases op with
  | setSource source =>
    simp only [step, setSource] at h
    split_ifs at h
    cases h
    exact ⟨hst, rfl, rfl, rfl, rfl, rfl⟩
  | start out b =>
    simp only [step, start, hst, if_true, Except.map] at h
    cases h
  | resume =>
    simp only [step, resume, State.log] at h
    split_ifs at h
    cases h
    exact ⟨hst, rfl, rfl, rfl, rfl, rfl⟩
  | pause b now => cases hk
  | reset now => cases hk
  | seekTo t now => cases hk
  | fillBuffer fuel out size now => cases hk

theorem keepsPin_run {st st' : State} {ops : List Op} (h : run st ops = .ok st')
    (hk : ∀ op ∈ ops, op.keepsPin = true) (hst : st.mStarted = true) :
    st'.mStarted = true ∧ st'.mPinnedTimeUs = st.mPinnedTimeUs ∧
    st'.mLatencyUs = st.mLatencyUs ∧ st'.mNumFramesPlayed = st.mNumFramesPlayed ∧
    st'.mSampleRate = st.mSampleRate ∧
    st'.mNumFramesPlayedSysTimeUs = st.mNumFramesPlayedSysTimeUs := by
  induction ops generalizing st with
  | nil => cases h; exact ⟨hst, rfl, rfl, rfl, rfl, rfl⟩
  | cons op ops ih =>
    simp only [run] at h
    cases hstep : step st op with
    | error f => rw [hstep] at h; cases h
    | ok s1 =>
      rw [hstep] at h
      obtain ⟨a1, a2, a3, a4, a5, a6⟩ :=
        keepsPin_step hstep (hk op (List.mem_cons_self _ _)) hst
      obtain ⟨b1, b2, b3, b4, b5, b6⟩ :=
        ih h (fun o ho => hk o (List.mem_cons_of_mem _ ho)) a1
      exact ⟨b1, b2.trans a2, b3.trans a3, b4.trans a4, b5.trans a5, b6.trans a6⟩

theorem pause_false_ok {st : State} (t : Int) (hst : st.mStarted = true)
    (hout : st.mAudioSink = true ∨ st.mAudioTrack = true) :
    pause st false t = .ok { st.log [.outputPause] with mPinnedTimeUs := t } := by
  have hno : ¬ ((!st.mAudioSink) = true ∧ (!st.mAudioTrack) = true) := by
    rcases hout with h | h <;> simp [h]
  simp only [pause, hst, Bool.not_true, Bool.false_eq_true, if_false, if_neg hno]

theorem resume_ok {st : State} (hst : st.mStarted = true)
    (hout : st.mAudioSink = true ∨ st.mAudioTrack = true) :
    resume st = .ok (st.log [.outputStart]) := by
  have hno : ¬ ((!st.mAudioSink) = true ∧ (!st.mAudioTrack) = true) := by
    rcases hout with h | h <;> simp [h]
  simp only [resume, hst, Bool.not_true, Bool.false_eq_true, if_false, if_neg hno]

theorem pinned_clock {s : State} {t : Int} (hst : s.mStarted = true)
    (hsr : s.mSampleRate ≠ 0) (hp : s.mPinnedTimeUs = t) (ht : 0 ≤ t) (now : Int) :
    getRealTimeUs s now = .ok
      (-s.mLatencyUs + Int.tdiv (s.mNumFramesPlayed * 1000000) s.mSampleRate
        + t - s.mNumFramesPlayedSysTimeUs) := by
  rw [getRealTimeUs, getRealTimeUsLocked_eq now hst hsr, hp, if_pos ht]

/-- C15: on a started player with an output and a sample rate other than
zero, `pause(false)` at a time `t` that is not negative returns, and in every
state reached from there by calls other than `fillBuffer`, `seekTo`, `pause`
and `reset`, `getRealTimeUs()` returns one and the same value for every clock
value: the value of the formula with `t` in the place of the clock. -/
theorem pause_pins_clock (st : State) (t : Int) (ops : List Op)
    (hst : st.mStarted = true) (hout : st.mAudioSink = true ∨ st.mAudioTrack = true)
    (hsr : st.mSampleRate ≠ 0) (ht : 0 ≤ t) (hops : ∀ op ∈ ops, op.keepsPin = true) :
    ∃ st1, pause st false t = .ok st1 ∧
      ∀ st2, run st1 ops = .ok st2 → ∀ now1 now2,
        getRealTimeUs st2 now1 = getRealTimeUs st2 now2 ∧
        getRealTimeUs st2 now1 = .ok
          (-st.mLatencyUs + Int.tdiv (st.mNumFramesPlayed * 1000000) st.mSampleRate
            + t - st.mNumFramesPlayedSysTimeUs) := by
  refine ⟨_, pause_false_ok t hst hout, ?_⟩
  intro st2 hrun now1 now2
  obtain ⟨b1, b2, b3, b4, b5, b6⟩ := keepsPin_run hrun hops hst
  simp only [State.log] at b2 b3 b4 b5 b6
  have hv : ∀ now, getRealTimeUs st2 now = .ok
      (-st.mLatencyUs + Int.tdiv (st.mNumFramesPlayed * 1000000) st.mSampleRate
        + t - st.mNumFramesPlayedSysTimeUs) := by
    intro now
    rw [getRealTimeUs, getRealTimeUsLocked_eq now b1 (by rw [b5]; exact hsr), b2, b3, b4, b5,
      b6, if_pos ht]
  exact ⟨(hv now1).trans (hv now2).symm, hv now1⟩

theorem pause_pins_clock_witness :
    exPlayed.mStarted = true ∧ (exPlayed.mAudioSink = true ∨ exPlayed.mAudioTrack = true) ∧
    exPlayed.mSampleRate ≠ 0 ∧ (0 : Int) ≤ 10 ∧
    (∀ op ∈ [Op.resume], op.keepsPin = true) ∧
    ∃ st1, pause exPlayed false 10 = .ok st1 ∧
      ∀ st2, run st1 [Op.resume] = .ok st2 → ∀ now1 now2,
        getRealTimeUs st2 now1 = getRealTimeUs st2 now2 ∧
        getRealTimeUs st2 now1 = .ok
          (-exPlayed.mLatencyUs +
            Int.tdiv (exPlayed.mNumFramesPlayed * 1000000) exPlayed.mSampleRate
            + 10 - exPlayed.mNumFramesPlayedSysTimeUs) :=
  ⟨rfl, Or.inl rfl, by decide, by decide,
    fun op hop => by rw [List.mem_singleton.mp hop]; rfl,
    pause_pins_clock exPlayed 10 [Op.resume] rfl (Or.inl rfl) (by decide) (by decide)
      (fun op hop => by rw [List.mem_singleton.mp hop]; rfl)⟩

theorem fillFinish_config {st : State} {l : Locals} {now : Int} {r : FillResult}
    (h : fillFinish st l now = .ok r) :
    r.state.mStarted = st.mStarted ∧ r.state.mSampleRate = st.mSampleRate ∧
    r.state.mLatencyUs = st.mLatencyUs ∧ r.state.mFrameSize = st.mFrameSize ∧
    r.state.mAudioSink = st.mAudioSink ∧ r.state.mAudioTrack = st.mAudioTrack ∧
    r.state.mObserver = st.mObserver ∧ r.state.mOffload = st.mOffload ∧
    r.state.mSource = st.mSource := by
  simp only [fillFinish, State.log] at h
  split_ifs at h <;> cases h <;> exact ⟨rfl, rfl, rfl, rfl, rfl, rfl, rfl, rfl, rfl⟩

/-- What a call of `fillBuffer` leaves of the configuration. -/
theorem fillBuffer_config {fuel : Nat} {st : State} {out : Output} {size : Nat} {now : Int}
    {r : FillResult} (h : fillBuffer fuel st out size now = .ok r) :
    r.state.mStarted = st.mStarted ∧ r.state.mSampleRate = st.mSampleRate ∧
    r.state.mFrameSize = st.mFrameSize ∧
    r.state.mAudioSink = st.mAudioSink ∧ r.state.mAudioTrack = st.mAudioTrack ∧
    r.state.mObserver = st.mObserver ∧ r.state.mOffload = st.mOffload ∧
    r.state.mSource = st.mSource := by
  simp only [fillBuffer] at h
  split_ifs at h
  · cases h
    exact ⟨rfl, rfl, rfl, rfl, rfl, rfl, rfl, rfl⟩
  · split at h
    · cases h
    · rename_i st1 l1 hl
      have hc := fillLoop_config fuel hl
      obtain ⟨a1, a2, -, a4, a5, a6, a7, a8, a9⟩ := fillFinish_config h
      exact ⟨a1.trans hc.mStarted, a2.trans hc.mSampleRate, a4.trans hc.mFrameSize,
        a5.trans hc.mAudioSink, a6.trans hc.mAudioTrack, a7.trans hc.mObserver,
        a8.trans hc.mOffload, a9.trans hc.mSource⟩

/-- C16 (as stated, refuted): the player exPlayed is paused with
`pause(false)` at time 10 and resumed; with no other call in between,
`getRealTimeUs()` returns -8995 at time 20 and at time 30: the results do not
differ by 10. -/
theorem resume_keeps_clock_pinned :
    run (construct true false true 0 0)
      [.setSource exSource, .start exOutput false, .fillBuffer 8 exOutput 3 5] = .ok exPlayed ∧
    run exPlayed [.pause false 10, .resume] = .ok exResumed ∧
    getRealTimeUs exResumed 20 = .ok (-8995) ∧
    getRealTimeUs exResumed 30 = .ok (-8995) :=
  ⟨rfl, rfl, rfl, rfl⟩

/-- C16 (amended): after `pause(false)` at a time `t` that is not negative and
`resume()` on a started player, `getRealTimeUs()` still returns the same value
for every clock value; it is the next `fillBuffer` call that does not end with
`mReachedEOS` true (`mReachedEOS` being false at the pause) that sets the
clock free: after it, the results at clock values `now1` and `now2` differ by
`now2 - now1`. -/
theorem fillBuffer_unpins_clock (st : State) (t : Int) (hst : st.mStarted = true)
    (hout : st.mAudioSink = true ∨ st.mAudioTrack = true) (hsr : st.mSampleRate ≠ 0)
    (ht : 0 ≤ t) (heos : st.mReachedEOS = false) :
    ∃ st1 st2, pause st false t = .ok st1 ∧ resume st1 = .ok st2 ∧
      (∀ now1 now2, ∃ v, getRealTimeUs st2 now1 = .ok v ∧ getRealTimeUs st2 now2 = .ok v) ∧
      (∀ fuel out size now r, fillBuffer fuel st2 out size now = .ok r →
        r.state.mReachedEOS = false →
        ∀ now1 now2, ∃ v1 v2, getRealTimeUs r.state now1 = .ok v1 ∧
          getRealTimeUs r.state now2 = .ok v2 ∧ v2 - v1 = now2 - now1) := by
  obtain ⟨st1, hp1, s1, p1, r1, o1, e1⟩ : ∃ st1, pause st false t = .ok st1 ∧
      st1.mStarted = true ∧ st1.mPinnedTimeUs = t ∧ st1.mSampleRate ≠ 0 ∧
      (st1.mAudioSink = true ∨ st1.mAudioTrack = true) ∧ st1.mReachedEOS = false :=
    ⟨_, pause_false_ok t hst hout, hst, rfl, hsr, hout, heos⟩
  obtain ⟨st2, hp2, s2, p2, r2, e2⟩ : ∃ st2, resume st1 = .ok st2 ∧
      st2.mStarted = true ∧ st2.mPinnedTimeUs = t ∧ st2.mSampleRate ≠ 0 ∧
      st2.mReachedEOS = false :=
    ⟨_, resume_ok s1 o1, s1, p1, r1, e1⟩
  refine ⟨st1, st2, hp1, hp2, ?_, ?_⟩
  · intro now1 now2
    exact ⟨_, pinned_clock s2 r2 p2 ht now1, pinned_clock s2 r2 p2 ht now2⟩
  · intro fuel out size now r hf hne now1 now2
    obtain ⟨c1, c2, -⟩ := fillBuffer_config hf
    have hp := (fillBuffer_clock fuel st2 out size now r e2 hf).2.2.2
    rw [hne] at hp
    simp only [Bool.false_eq_true, if_false] at hp
    have hs1 : r.state.mStarted = true := c1.trans s2
    have hs2 : r.state.mSampleRate ≠ 0 := by rw [c2]; exact r2
    refine ⟨_, _, getRealTimeUsLocked_eq now1 hs1 hs2, getRealTimeUsLocked_eq now2 hs1 hs2, ?_⟩
    have hn : ¬ r.state.mPinnedTimeUs ≥ 0 := by rw [hp]; decide
    rw [if_neg hn, if_neg hn]
    ring

theorem fillBuffer_unpins_clock_witness :
    exPlayed.mStarted = true ∧ (exPlayed.mAudioSink = true ∨ exPlayed.mAudioTrack = true) ∧
    exPlayed.mSampleRate ≠ 0 ∧ (0 : Int) ≤ 10 ∧ exPlayed.mReachedEOS = false ∧
    ∃ st1 st2, pause exPlayed false 10 = .ok st1 ∧ resume st1 = .ok st2 ∧
      (∀ now1 now2, ∃ v, getRealTimeUs st2 now1 = .ok v ∧ getRealTimeUs st2 now2 = .ok v) ∧
      (∀ fuel out size now r, fillBuffer fuel st2 out size now = .ok r →
        r.state.mReachedEOS = false →
        ∀ now1 now2, ∃ v1 v2, getRealTimeUs r.state now1 = .ok v1 ∧
          getRealTimeUs r.state now2 = .ok v2 ∧ v2 - v1 = now2 - now1) :=
  ⟨rfl, Or.inl rfl, by decide, by decide, rfl,
    fillBuffer_unpins_clock exPlayed 10 rfl (Or.inl rfl) (by decide) (by decide) rfl⟩

/-- The call of `fillBuffer` on the resumed player does set the clock free. -/
theorem exRefill_unpinned :
    fillBuffer 8 exResumed exOutput 2 12 = .ok exRefill ∧
    exRefill.state.mReachedEOS = false ∧
    getRealTimeUs exRefill.state 20 = .ok (-7992) ∧
    getRealTimeUs exRefill.state 30 = .ok (-7982) :=
  ⟨rfl, rfl, rfl, rfl⟩

/-! ### reset -/

/-- C19 (as stated, refuted): the player exPlayed is paused with
`pause(false)` at time 10 and then reset; `mPinnedTimeUs` is still 10 after
`reset`, not -1. -/
theorem reset_keeps_pinned_time :
    run (construct true false true 0 0)
      [.setSource exSource, .start exOutput false, .fillBuffer 8 exOutput 3 5,
        .pause false 10] = .ok exPaused ∧
    exPaused.mStarted = true ∧
    reset exPaused 20 = .ok exPausedReset ∧
    exPausedReset.mPinnedTimeUs = 10 :=
  ⟨rfl, rfl, rfl, rfl⟩

/-- A `start` that returns `OK` leaves the player started and the clock not
pinned. -/
theorem start_ok_unpinned {st st' : State} {out : Output} {b : Bool}
    (h : start st out b = .ok (st', OK)) :
    st'.mStarted = true ∧ st'.mPinnedTimeUs = -1 := by
  have key : ∀ {s : State} {format : MetaData},
      startOutput s out format b = .ok (st', OK) →
      st'.mStarted = true ∧ st'.mPinnedTimeUs = -1 := by
    intro s format h
    simp only [startOutput, startCleanup, releaseFirstBuffer, State.log] at h
    repeat' split at h
    all_goals first
      | cases h; done
      | (simp only [Except.ok.injEq, Prod.mk.injEq] at h
         obtain ⟨h1, h2⟩ := h
         first
           | (subst h1; exact ⟨rfl, rfl⟩)
           | (exfalso; simp_all [BAD_VALUE, OK]))
  have key2 : ∀ {s : State} {source : MediaSource},
      startRead s source out b = .ok (st', OK) →
      st'.mStarted = true ∧ st'.mPinnedTimeUs = -1 := by
    intro s source h
    simp only [startRead, State.log] at h
    split_ifs at h
    all_goals exact key h
  simp only [start, State.log] at h
  split at h
  · cases h
  split at h
  · cases h
  split_ifs at h
  · exact key2 h
  · simp only [Except.ok.injEq, Prod.mk.injEq] at h
    exact absurd h.2 (by assumption)
  · exact key2 h

/-- C19 (amended): on a started player with an output and a source, `reset`
returns and leaves `mNumFramesPlayed = 0`, both position times -1, no seek
pending, `mReachedEOS` false, `mFinalStatus` `OK`, `mStarted` false, no first
buffer and no input buffer held, and no source; `mPinnedTimeUs` is left as it
was (it is a `start` returning `OK` that sets it to -1). -/
theorem reset_effect (st : State) (now : Int) (hst : st.mStarted = true)
    (hout : st.mAudioSink = true ∨ st.mAudioTrack = true)
    (hsrc : st.mSource.isSome = true) :
    (∃ st', reset st now = .ok st' ∧
      st'.mNumFramesPlayed = 0 ∧ st'.mNumFramesPlayedSysTimeUs = now ∧
      st'.mPositionTimeMediaUs = -1 ∧ st'.mPositionTimeRealUs = -1 ∧
      isSeeking st' = false ∧ reachedEOS st' = (false, OK) ∧ st'.mStarted = false ∧
      st'.mFirstBuffer = none ∧ st'.mInputBuffer = none ∧ st'.mSource = none ∧
      st'.mPinnedTimeUs = st.mPinnedTimeUs) ∧
    (∀ s out b s', start s out b = .ok (s', OK) → s'.mPinnedTimeUs = -1) := by
  refine ⟨?_, fun s out b s' h => (start_ok_unpinned h).2⟩
  have hno : ¬ ((!st.mAudioSink) = true ∧ (!st.mAudioTrack) = true) := by
    rcases hout with h | h <;> simp [h]
  have hs : ¬ st.mSource.isNone = true := by
    cases hm : st.mSource with
    | none => rw [hm] at hsrc; cases hsrc
    | some x => simp
  simp only [reset, releaseInputBuffer, releaseFirstBuffer, State.log, hst, Bool.not_true,
    Bool.false_eq_true, if_false, if_neg hno, if_neg hs]
  exact ⟨_, rfl, rfl, rfl, rfl, rfl, rfl, rfl, rfl, rfl, rfl, rfl, rfl⟩

theorem reset_effect_witness :
    exPaused.mStarted = true ∧ (exPaused.mAudioSink = true ∨ exPaused.mAudioTrack = true) ∧
    exPaused.mSource.isSome = true ∧
    (∃ st', reset exPaused 20 = .ok st' ∧
      st'.mNumFramesPlayed = 0 ∧ st'.mNumFramesPlayedSysTimeUs = 20 ∧
      st'.mPositionTimeMediaUs = -1 ∧ st'.mPositionTimeRealUs = -1 ∧
      isSeeking st' = false ∧ reachedEOS st' = (false, OK) ∧ st'.mStarted = false ∧
      st'.mFirstBuffer = none ∧ st'.mInputBuffer = none ∧ st'.mSource = none ∧
      st'.mPinnedTimeUs = exPaused.mPinnedTimeUs) ∧
    (∀ s out b s', start s out b = .ok (s', OK) → s'.mPinnedTimeUs = -1) :=
  ⟨rfl, Or.inl rfl, rfl, reset_effect exPaused 20 rfl (Or.inl rfl) rfl⟩

/-! ### The error exits of start -/

/-- C18, failing input: a new player without sink is given a source of three
channels, without channel mask, whose first read hands back a buffer, and is
started with `sourceAlreadyStarted` false, and then true, for an output that
has no channel mask for three channels.  `start` returns `BAD_VALUE` (line
284); on return the first buffer is still held, no buffer was released and the
source was not stopped: the calls made are the start of the source (in the
first case) and the read. -/
theorem start_bad_value_keeps_first_buffer :
    exTrackReady.mAudioSink = false ∧ exTrackReady.mStarted = false ∧
    exTrackReady.mSource = some exThreeChannelSource ∧ exTrackReady.trace = [] ∧
    exThreeChannelSource.getFormat.kKeyChannelCount = some 3 ∧
    exThreeChannelSource.getFormat.kKeyChannelMask = none ∧
    exNoMaskOutput.channelMaskFromCount 3 = 0 ∧
    (∃ st', start exTrackReady exNoMaskOutput false = .ok (st', BAD_VALUE) ∧
      st'.mFirstBuffer = some ⟨[1, 2, 3, 4], 0, 4, some 0⟩ ∧
      st'.trace = [.sourceStart, .sourceRead none OK (some ⟨[1, 2, 3, 4], 0, 4, some 0⟩)] ∧
      st'.mStarted = false) ∧
    (∃ st', start exTrackReady exNoMaskOutput true = .ok (st', BAD_VALUE) ∧
      st'.mFirstBuffer = some ⟨[1, 2, 3, 4], 0, 4, some 0⟩ ∧
      st'.trace = [.sourceRead none OK (some ⟨[1, 2, 3, 4], 0, 4, some 0⟩)] ∧
      st'.mStarted = false) :=
  ⟨rfl, rfl, rfl, rfl, rfl, rfl, rfl, ⟨_, rfl, rfl, rfl, rfl⟩, ⟨_, rfl, rfl, rfl, rfl⟩⟩

theorem startOutput_exits {st st' : State} {out : Output} {format : MetaData} {b : Bool}
    {s : status_t} (h : startOutput st out format b = .ok (st', s)) (hs : s ≠ OK) :
    st'.mStarted = st.mStarted ∧
    ((st.mAudioSink = false ∧ s = BAD_VALUE ∧ st'.mFirstBuffer = st.mFirstBuffer ∧
        st'.trace = st.trace) ∨
     (∃ mid, st'.mFirstBuffer = none ∧
        st'.trace = st.trace ++ mid ++ st.mFirstBuffer.toList.map Event.bufferRelease ++
          (if b then [] else [.sourceStop]) ∧
        (mid = [.outputOpen] ∨ mid = [.outputOpen, .outputClose]))) := by
  cases b
  all_goals
    simp only [startOutput, startCleanup, releaseFirstBuffer, State.log, Bool.false_eq_true,
      if_false, if_true] at h
    repeat' split at h
    all_goals cases h
    all_goals first
      | exact absurd rfl hs
      | (refine ⟨rfl, Or.inl ⟨?_, rfl, rfl, rfl⟩⟩
         rw [Bool.eq_false_iff]
         assumption)
      | exact ⟨rfl, Or.inr ⟨[.outputOpen], rfl, rfl, Or.inl rfl⟩⟩
      | exact ⟨rfl, Or.inr ⟨[.outputOpen], rfl, (List.append_nil _).symm, Or.inl rfl⟩⟩
      | (refine ⟨rfl, Or.inr ⟨[.outputOpen, .outputClose], rfl, ?_, Or.inr rfl⟩⟩
         simp)

theorem startRead_exits {st st' : State} {source : MediaSource} {out : Output} {b : Bool}
    {s : status_t} (h : startRead st source out b = .ok (st', s)) (hs : s ≠ OK) :
    st'.mStarted = st.mStarted ∧ ∃ (seekOpt : Option Int) (r : ReadResult),
    ((st.mAudioSink = false ∧ s = BAD_VALUE ∧ st'.mFirstBuffer = r.buffer ∧
        st'.trace = st.trace ++ [.sourceRead seekOpt r.err r.buffer]) ∨
     (∃ mid, st'.mFirstBuffer = none ∧
        st'.trace = st.trace ++ [.sourceRead seekOpt r.err r.buffer] ++ mid ++
          r.buffer.toList.map Event.bufferRelease ++ (if b then [] else [.sourceStop]) ∧
        (mid = [.outputOpen] ∨ mid = [.outputOpen, .outputClose]))) := by
  simp only [startRead, State.log] at h
  split_ifs at h
  all_goals
    obtain ⟨h1, h2⟩ := startOutput_exits h hs
    simp only at h1 h2
    rcases h2 with ⟨a1, a2, a3, a4⟩ | ⟨mid, a1, a2, a3⟩
    · exact ⟨h1, _, ⟨_, _⟩, Or.inl ⟨a1, a2, a3, a4⟩⟩
    · exact ⟨h1, _, ⟨_, _⟩, Or.inr ⟨mid, a1, a2, a3⟩⟩

/-- The exits of `start` with a status other than `OK`: the failed start of
the source (line 124), before any read; the exit with `BAD_VALUE` of line 284,
which keeps the buffer of the first read and leaves the source running; and the
exits of lines 256-267 and 303-317, which release the buffer of the first
read and stop the source unless it was already started. -/
theorem start_error_exits {st st' : State} {out : Output} {b : Bool} {s : status_t}
    (h : start st out b = .ok (st', s)) (hs : s ≠ OK) :
    st'.mStarted = false ∧
    ((b = false ∧ st'.trace = st.trace ++ [.sourceStart] ∧
        st'.mFirstBuffer = st.mFirstBuffer) ∨
     (∃ (seekOpt : Option Int) (r : ReadResult), st.mAudioSink = false ∧ s = BAD_VALUE ∧ st'.mFirstBuffer = r.buffer ∧
        st'.trace = st.trace ++ (if b then [] else [.sourceStart]) ++
          [.sourceRead seekOpt r.err r.buffer]) ∨
     (∃ (seekOpt : Option Int) (r : ReadResult) (mid : List Event), st'.mFirstBuffer = none ∧
        st'.trace = st.trace ++ (if b then [] else [.sourceStart]) ++
          [.sourceRead seekOpt r.err r.buffer] ++ mid ++
          r.buffer.toList.map Event.bufferRelease ++ (if b then [] else [.sourceStop]) ∧
        (mid = [.outputOpen] ∨ mid = [.outputOpen, .outputClose]))) := by
  simp only [start, State.log] at h
  split at h
  · cases h
  rename_i hst
  have hst0 : st.mStarted = false := by simpa using hst
  split at h
  · cases h
  split_ifs at h with hb hstart
  · obtain ⟨h1, seekOpt, r, h2⟩ := startRead_exits h hs
    refine ⟨h1.trans hst0, Or.inr ?_⟩
    rcases h2 with ⟨a1, a2, a3, a4⟩ | ⟨mid, a1, a2, a3⟩
    · exact Or.inl ⟨seekOpt, r, a1, a2, a3, by rw [a4]; simp [hb]⟩
    · exact Or.inr ⟨seekOpt, r, mid, a1, by rw [a2]; simp [hb], a3⟩
  · cases h
    exact ⟨hst0, Or.inl ⟨by simpa using hb, rfl, rfl⟩⟩
  · obtain ⟨h1, seekOpt, r, h2⟩ := startRead_exits h hs
    simp only at h1 h2
    refine ⟨h1.trans hst0, Or.inr ?_⟩
    rcases h2 with ⟨a1, a2, a3, a4⟩ | ⟨mid, a1, a2, a3⟩
    · exact Or.inl ⟨seekOpt, r, a1, a2, a3, by rw [a4]; simp [hb]⟩
    · exact Or.inr ⟨seekOpt, r, mid, a1, by rw [a2]; simp [hb], a3⟩

/-! ### The delay of the end-of-stream notification -/

theorem noPostEOS_nil : NoPostEOS [] := by
  intro e he; cases he

theorem noPostEOS_append {a b : List Event} (ha : NoPostEOS a) (hb : NoPostEOS b) :
    NoPostEOS (a ++ b) := by
  intro e he
  rcases List.mem_append.1 he with h | h
  · exact ha e h
  · exact hb e h

theorem noPostEOS_singleton {e : Event} (h : e.isPostEOS = false) : NoPostEOS [e] := by
  intro x hx
  simp only [List.mem_singleton] at hx
  subst hx
  exact h

theorem noPostEOS_countP {d : List Event} (h : NoPostEOS d) :
    d.countP Event.isPostEOS = 0 := by
  rw [List.countP_eq_zero]
  intro e he
  simp [h e he]

theorem heldReleases_noPostEOS (st : State) : NoPostEOS (heldReleases st) := by
  intro e he
  simp only [heldReleases, List.mem_append, List.mem_map] at he
  rcases he with he | ⟨b, -, rfl⟩
  · split at he
    · simp only [List.mem_map] at he
      obtain ⟨b, -, rfl⟩ := he
      rfl
    · cases he
  · rfl

theorem seekCheck_noPostEOS (st : State) (l : Locals) :
    ∃ d, (seekCheck st l).1.trace = st.trace ++ d ∧ NoPostEOS d := by
  rcases Bool.eq_false_or_eq_true st.mSeeking with hsk | hsk
  · exact ⟨_, (seekCheck_seeking l hsk).1, heldReleases_noPostEOS st⟩
  · rw [seekCheck_idle l hsk]
    exact ⟨[], (List.append_nil _).symm, noPostEOS_nil⟩

theorem consume_noPostEOS (st : State) (l : Locals) (b : MediaBuffer) :
    ∃ e, (consume st l b).1.trace = st.trace ++ [e] ∧ NoPostEOS [e] := by
  unfold consume
  split
  · exact ⟨_, rfl, noPostEOS_singleton rfl⟩
  · exact ⟨_, rfl, noPostEOS_singleton rfl⟩

theorem obtainBuffer_noPostEOS {st st2 : State} {o : Option Int} {err : status_t}
    (h : obtainBuffer st o = .ok (st2, err)) :
    ∃ e, st2.trace = st.trace ++ [e] ∧ NoPostEOS [e] ∧ st2.mLatencyUs = st.mLatencyUs := by
  unfold obtainBuffer at h
  split at h
  · cases h
    exact ⟨.firstBufferTaken st.mFirstBufferResult st.mFirstBuffer, rfl,
      noPostEOS_singleton rfl, rfl⟩
  · split at h
    · cases h
    · cases h
      refine ⟨_, rfl, ?_, rfl⟩
      exact noPostEOS_singleton rfl

theorem readSuccess_noPostEOS {st st3 : State} {out : Output} {l : Locals} {b : MediaBuffer}
    (h : readSuccess st out l b = .ok st3) :
    ∃ d, st3.trace = st.trace ++ d ∧ NoPostEOS d := by
  simp only [readSuccess, State.log] at h
  split_ifs at h <;> cases h
  all_goals first
    | exact ⟨[], (List.append_nil _).symm, noPostEOS_nil⟩
    | exact ⟨[.findKeyTime b], rfl, noPostEOS_singleton rfl⟩
    | exact ⟨[.postAudioSeekComplete], rfl, noPostEOS_singleton rfl⟩
    | (refine ⟨[.findKeyTime b, .postAudioSeekComplete], List.append_assoc _ _ _, ?_⟩
       intro e he
       simp only [List.mem_cons, List.mem_singleton, List.not_mem_nil, or_false] at he
       rcases he with he | he <;> rw [he] <;> rfl)

theorem drainFrames_cast (framesPlayed : Int) (out : Output) (n pending : Nat)
    (st : State) (hf : st.mNumFramesPlayed = framesPlayed)
    (h : getNumFramesPendingPlayout st out = .ok pending) :
    ((u32 (pending + u32 n) : Nat) : Int) =
      (specPendingFrames framesPlayed out.getPosition.1 (u32 out.getPosition.2) + (n : Int))
        % 4294967296 := by
  subst hf
  simp only [getNumFramesPendingPlayout] at h
  unfold specPendingFrames
  split_ifs at h with h1 h2
  · simp only [Except.ok.injEq] at h
    subst h
    rw [if_pos h2]
    simp only [u32]
    omega
  · simp only [Except.ok.injEq] at h
    subst h
    rw [if_neg h2]
    simp only [u32, u32OfInt]
    omega

/-- The branch `err != OK` with an observer, without offload and with
`mReachedEOS` false: the delay is the drain time of the specification plus the
latency when the sink needs trailing padding, and 0 when it does not. -/
theorem readError_delay {st st3 : State} {out : Output} {l l3 : Locals} {err : status_t}
    (h : readError st out l err = .ok (st3, l3)) (hobs : st.mObserver = true)
    (heos : st.mReachedEOS = false) (hoff : st.mOffload = false)
    (hsr : 0 < st.mSampleRate) :
    l3.postEOS = true ∧ st3.mLatencyUs = st.mLatencyUs ∧ st3.trace = st.trace ∧
    l3.postEOSDelayUs =
      (if out.needsTrailingPadding then
        specDrainTimeUs st.mNumFramesPlayed out.getPosition.1 (u32 out.getPosition.2)
          l.size_done st.mFrameSize st.mSampleRate + st.mLatencyUs
       else 0) := by
  simp only [readError, hobs, heos, hoff, Bool.not_false, and_self, if_true,
    Bool.false_eq_true, if_false] at h
  split at h
  · cases h
  rename_i pending hp
  split_ifs at h <;> cases h
  all_goals refine ⟨rfl, rfl, rfl, ?_⟩
  · rename_i hpad
    rw [if_pos hpad]
    unfold specDrainTimeUs
    rw [← drainFrames_cast st.mNumFramesPlayed out (l.size_done / st.mFrameSize) pending st rfl hp,
      Int.fdiv_eq_tdiv (by positivity) (le_of_lt hsr)]
  · simp [*]

theorem readError_noPostEOS {st st3 : State} {out : Output} {l l3 : Locals} {err : status_t}
    (h : readError st out l err = .ok (st3, l3)) :
    ∃ d, st3.trace = st.trace ++ d ∧ NoPostEOS d := by
  unfold readError at h
  repeat' split at h
  all_goals cases h
  all_goals first
    | exact ⟨[], (List.append_nil _).symm, noPostEOS_nil⟩
    | exact ⟨[.setOffloadEOSReached], rfl, noPostEOS_singleton rfl⟩

/-- A pass of the loop posts no `postAudioEOS` itself; a pass that ends with
`break`, with an observer, without offload and with `mReachedEOS` false at its
start, leaves the notification to be posted with the delay of
`readError_delay`. -/
theorem loopBody_eos {out : Output} {st st' : State} {l l' : Locals} {c : Bool}
    (h : loopBody out st l = .ok (st', l', c)) :
    ∃ d, st'.trace = st.trace ++ d ∧ NoPostEOS d ∧
      (c = false → st.mObserver = true → st.mReachedEOS = false → st.mOffload = false →
        0 < st.mSampleRate →
        l'.postEOS = true ∧
        l'.postEOSDelayUs =
          (if out.needsTrailingPadding then
            specDrainTimeUs st.mNumFramesPlayed out.getPosition.1 (u32 out.getPosition.2)
              l'.size_done st.mFrameSize st.mSampleRate + st'.mLatencyUs
           else 0)) := by
  unfold loopBody at h
  obtain ⟨ds, hds, hns⟩ := seekCheck_noPostEOS st l
  have hcs := seekCheck_config st l
  obtain ⟨-, -, -, hes, -, hsd, -⟩ := seekCheck_trace st l
  rcases loopTail_cases h with ⟨b, -, hc, hct⟩ | ⟨-, st2, err, ho, h2⟩
  · obtain ⟨e, he, hne⟩ := consume_noPostEOS (seekCheck st l).1 (seekCheck st l).2.1 b
    rw [hc] at he
    refine ⟨ds ++ [e], by rw [he, hds, List.append_assoc], noPostEOS_append hns hne, ?_⟩
    intro hcf
    rw [hct] at hcf
    cases hcf
  · obtain ⟨e2, he2, hn2, hl2⟩ := obtainBuffer_noPostEOS ho
    have hc2 := hcs.trans (obtainBuffer_config ho)
    obtain ⟨-, -, -, -, heo2, -⟩ := obtainBuffer_trace ho
    rcases h2 with ⟨-, -, hre, -⟩ | ⟨b, st3, -, -, hrs, hc, hct⟩
    · obtain ⟨d3, hd3, hn3⟩ := readError_noPostEOS hre
      obtain ⟨-, -, -, -, -, hsd3, -⟩ := readError_trace hre
      refine ⟨ds ++ ([e2] ++ d3), by rw [hd3, he2, hds]; simp,
        noPostEOS_append hns (noPostEOS_append hn2 hn3), ?_⟩
      intro _ hobs heos hoff hsr
      obtain ⟨p1, p2, -, p4⟩ := readError_delay hre (by rw [hc2.mObserver]; exact hobs)
        (by rw [heo2, hes]; exact heos) (by rw [hc2.mOffload]; exact hoff)
        (by rw [hc2.mSampleRate]; exact hsr)
      refine ⟨p1, ?_⟩
      rw [p4, hc2.mNumFramesPlayed, hc2.mFrameSize, hc2.mSampleRate, p2, hsd3, hsd]
    · obtain ⟨d3, hd3, hn3⟩ := readSuccess_noPostEOS hrs
      obtain ⟨e, he, hne⟩ := consume_noPostEOS st3 (seekCheck st l).2.1 b
      rw [hc] at he
      refine ⟨ds ++ ([e2] ++ (d3 ++ [e])), by rw [he, hd3, he2, hds]; simp,
        noPostEOS_append hns (noPostEOS_append hn2 (noPostEOS_append hn3 hne)), ?_⟩
      intro hcf
      rw [hct] at hcf
      cases hcf

/-- The notifications of the end of the stream of a call of `fillBuffer`
entered with `mReachedEOS` false, an observer, no offload and a positive sample
rate: none when the call ends with `mReachedEOS` false; exactly one, after all
calls of the loop, when it ends with `mReachedEOS` true, and its delay is the
drain time of the specification plus the latency when the sink needs trailing
padding, and 0 when it does not. -/
theorem fillBuffer_eos_delay {fuel : Nat} {st : State} {out : Output} {size : Nat} {now : Int}
    {r : FillResult} (h : fillBuffer fuel st out size now = .ok r)
    (heos : st.mReachedEOS = false) (hobs : st.mObserver = true)
    (hoff : st.mOffload = false) (hsr : 0 < st.mSampleRate) :
    (r.state.mReachedEOS = false ∧
      ∃ d, r.state.trace = st.trace ++ d ∧ NoPostEOS d) ∨
    (r.state.mReachedEOS = true ∧
      ∃ pre post, r.state.trace = st.trace ++ pre ++
          Event.postAudioEOS
            (if out.needsTrailingPadding then
              specDrainTimeUs st.mNumFramesPlayed out.getPosition.1 (u32 out.getPosition.2)
                r.size_done st.mFrameSize st.mSampleRate + r.state.mLatencyUs
             else 0) :: post ∧
        NoPostEOS pre ∧ NoPostEOS post) := by
  simp only [fillBuffer, heos, Bool.false_eq_true, if_false] at h
  split at h
  · cases h
  rename_i st1 l1 hl
  have key := fillLoop_induct
    (fun s l d => SameConfig st s ∧ s.mReachedEOS = false ∧ l.postEOS = false ∧ NoPostEOS d)
    (fun s l d => s.mReachedEOS = true ∧ l.postEOS = true ∧ NoPostEOS d ∧
      l.postEOSDelayUs =
        (if out.needsTrailingPadding then
          specDrainTimeUs st.mNumFramesPlayed out.getPosition.1 (u32 out.getPosition.2)
            l.size_done st.mFrameSize st.mSampleRate + s.mLatencyUs
         else 0))
    ?_ fuel [] ⟨SameConfig.refl st, heos, rfl, noPostEOS_nil⟩ hl
  · obtain ⟨d, hd, hcase⟩ := key
    obtain ⟨hsd, -, -, -, -, hre⟩ := fillFinish_state h
    obtain ⟨-, -, hlat, -⟩ := fillFinish_config h
    obtain ⟨ht, -⟩ := fillFinish_trace h
    rcases hcase with ⟨-, -, he1, hp1, hn1⟩ | ⟨he1, hp1, hn1, hdel⟩
    · left
      refine ⟨hre.trans he1, d ++ (if l1.postSeekComplete then [Event.postAudioSeekComplete]
        else []), ?_, ?_⟩
      · rw [ht, hd, hp1]
        simp
      · refine noPostEOS_append (by simpa using hn1) ?_
        split
        · exact noPostEOS_singleton rfl
        · exact noPostEOS_nil
    · right
      refine ⟨hre.trans he1, d,
        (if l1.postSeekComplete then [Event.postAudioSeekComplete] else []), ?_,
        by simpa using hn1, ?_⟩
      · rw [ht, hd, hp1, hsd, hlat, hdel]
        simp
      · split
        · exact noPostEOS_singleton rfl
        · exact noPostEOS_nil
  · intro s1 l1 d s2 l2 c hR _ hb
    obtain ⟨hc1, he1, hp1, hn1⟩ := hR
    obtain ⟨d2, ht, hn2, hbrk⟩ := loopBody_eos hb
    obtain ⟨d2', ht', -, hcont, hfail⟩ := loopBody_trace hb
    have hdd : d2' = d2 := List.append_cancel_left (ht'.symm.trans ht)
    subst hdd
    refine ⟨d2', ht, ?_, ?_⟩
    · intro hc
      obtain ⟨-, -, e2, -, p2, -⟩ := hcont hc
      exact ⟨hc1.trans (loopBody_config hb), e2.trans he1, p2.trans hp1,
        noPostEOS_append hn1 hn2⟩
    · intro hc
      obtain ⟨-, -, -, -, -, -, -, -, e2, -⟩ := hfail hc
      obtain ⟨q1, q2⟩ := hbrk hc (by rw [hc1.mObserver]; exact hobs) he1
        (by rw [hc1.mOffload]; exact hoff) (by rw [hc1.mSampleRate]; exact hsr)
      refine ⟨e2, q1, noPostEOS_append hn1 hn2, ?_⟩
      rw [q2, hc1.mNumFramesPlayed, hc1.mFrameSize, hc1.mSampleRate]

theorem fillBuffer_failed_read_eos {fuel : Nat} {st : State} {out : Output} {size : Nat}
    {now : Int} {r : FillResult} (h : fillBuffer fuel st out size now = .ok r)
    (heos : st.mReachedEOS = false) {d : List Event} (hd : r.state.trace = st.trace ++ d)
    (hfail : ∃ e ∈ d, e.isFailedRead = true) : r.state.mReachedEOS = true := by
  obtain ⟨d', hd', hcase⟩ := fillBuffer_trace h heos
  have hdd : d' = d := List.append_cancel_left (hd'.symm.trans hd)
  subst hdd
  rcases hcase with ⟨-, hn, -⟩ | ⟨-, -, -, -, -, -, -, -, -, he, -⟩
  · obtain ⟨e, he, hf⟩ := hfail
    rw [hn e he] at hf
    cases hf
  · exact he

/-- C13: in a started session, on a source without endless run of empty
buffers, with an observer, without offload, with a positive sample rate and a
sink that needs trailing padding, a call of `fillBuffer` entered with
`mReachedEOS` false returns; when a read of the call fails, the call posts
`postAudioEOS` once, after the calls of its loop, with the delay
`floor(1000000 * P / mSampleRate) + mLatencyUs`, where `P` is
`pending + size_done / mFrameSize` as a 32-bit unsigned count and `pending` is
`mNumFramesPlayed` at entry minus the frames the sink reports, or 0 when the
query fails or the sink reports more. -/
theorem postAudioEOS_delay_padding (st : State) (source : MediaSource) (out : Output)
    (size : Nat) (now : Int) (hs : Session st source) (hne : source.NoEndlessEmpties)
    (heos : st.mReachedEOS = false) (hobs : st.mObserver = true)
    (hoff : st.mOffload = false) (hsr : 0 < st.mSampleRate)
    (hpad : out.needsTrailingPadding = true) :
    ∃ fuel r d, (∀ fuel', fuel ≤ fuel' → fillBuffer fuel' st out size now = .ok r) ∧
      r.state.trace = st.trace ++ d ∧
      ((∃ e ∈ d, e.isFailedRead = true) →
        ∃ pre post, d = pre ++
            Event.postAudioEOS
              (specDrainTimeUs st.mNumFramesPlayed out.getPosition.1 (u32 out.getPosition.2)
                r.size_done st.mFrameSize st.mSampleRate + r.state.mLatencyUs) :: post ∧
          NoPostEOS pre ∧ NoPostEOS post) := by
  obtain ⟨fuel, r, hr⟩ := fillBuffer_returns hne st hs out size now
  have h := hr fuel (le_refl _)
  obtain ⟨d, hd, -⟩ := fillBuffer_trace h heos
  refine ⟨fuel, r, d, hr, hd, ?_⟩
  intro hfail
  have he := fillBuffer_failed_read_eos h heos hd hfail
  rcases fillBuffer_eos_delay h heos hobs hoff hsr with ⟨hf, -⟩ | ⟨-, pre, post, ht, hn1, hn2⟩
  · rw [he] at hf
    cases hf
  · rw [if_pos hpad, hd, List.append_assoc] at ht
    exact ⟨pre, post, List.append_cancel_left ht, hn1, hn2⟩

theorem postAudioEOS_delay_padding_witness :
    Session exStarted exSource ∧ exSource.NoEndlessEmpties ∧ exStarted.mReachedEOS = false ∧
    exStarted.mObserver = true ∧ exStarted.mOffload = false ∧ 0 < exStarted.mSampleRate ∧
    exOutput.needsTrailingPadding = true ∧
    ∃ fuel r d, (∀ fuel', fuel ≤ fuel' → fillBuffer fuel' exStarted exOutput 8 5 = .ok r) ∧
      r.state.trace = exStarted.trace ++ d ∧
      ((∃ e ∈ d, e.isFailedRead = true) →
        ∃ pre post, d = pre ++
            Event.postAudioEOS
              (specDrainTimeUs exStarted.mNumFramesPlayed exOutput.getPosition.1
                (u32 exOutput.getPosition.2) r.size_done exStarted.mFrameSize
                exStarted.mSampleRate + r.state.mLatencyUs) :: post ∧
          NoPostEOS pre ∧ NoPostEOS post) :=
  ⟨exStarted_session, exSource_noEndlessEmpties, rfl, rfl, rfl, by decide, rfl,
    postAudioEOS_delay_padding exStarted exSource exOutput 8 5 exStarted_session
      exSource_noEndlessEmpties rfl rfl rfl (by decide) rfl⟩

/-- The call of the witness does end with a failed read: it copies the six
bytes of the source, and posts `postAudioEOS` with the delay 13000, the drain
time 3000 of three frames at 1000 frames per second plus the latency 10000. -/
theorem exDrained_delay :
    fillBuffer 8 exStarted exOutput 8 5 = .ok exDrained ∧
    exDrained.size_done = 6 ∧ exDrained.state.mReachedEOS = true ∧
    exDrained.state.trace.getLast? = some (Event.postAudioEOS 13000) ∧
    exDrained.state.trace.countP Event.isPostEOS = 1 ∧
    specDrainTimeUs exStarted.mNumFramesPlayed exOutput.getPosition.1
      (u32 exOutput.getPosition.2) 6 exStarted.mFrameSize exStarted.mSampleRate = 3000 ∧
    exDrained.state.mLatencyUs = 10000 :=
  ⟨rfl, rfl, rfl, by decide, by decide, by decide, by decide⟩

/-- C14 (as stated, refuted): the player exStarted (observer, no offload,
sample rate 1000, frames of two bytes, no frame played) is asked for eight
bytes with a sink that needs no trailing padding and reports no frame played.
The call copies the six bytes of the source, the next read fails, and
`postAudioEOS` is posted with the delay 0, while the pending-playout time of
the three frames is 3000. -/
theorem postAudioEOS_without_padding_is_immediate :
    exStarted.mObserver = true ∧ exStarted.mOffload = false ∧
    exStarted.mReachedEOS = false ∧ exOutputNoPadding.needsTrailingPadding = false ∧
    fillBuffer 8 exStarted exOutputNoPadding 8 5 = .ok exDrainedNoPadding ∧
    exDrainedNoPadding.size_done = 6 ∧ exDrainedNoPadding.state.mReachedEOS = true ∧
    exDrainedNoPadding.state.trace.getLast? = some (Event.postAudioEOS 0) ∧
    exDrainedNoPadding.state.trace.countP Event.isPostEOS = 1 ∧
    specDrainTimeUs exStarted.mNumFramesPlayed exOutputNoPadding.getPosition.1
      (u32 exOutputNoPadding.getPosition.2) 6 exStarted.mFrameSize exStarted.mSampleRate
      = 3000 :=
  ⟨rfl, rfl, rfl, rfl, rfl, rfl, rfl, by decide, by decide, by decide⟩

/-- C14 (amended): in a started session, on a source without endless run of
empty buffers, with an observer, without offload and with a sink that does
not need trailing padding, a call of `fillBuffer` entered with `mReachedEOS`
false returns; when a read of the call fails, the call posts `postAudioEOS`
once, after the calls of its loop, with the delay 0. -/
theorem postAudioEOS_delay_no_padding (st : State) (source : MediaSource) (out : Output)
    (size : Nat) (now : Int) (hs : Session st source) (hne : source.NoEndlessEmpties)
    (heos : st.mReachedEOS = false) (hobs : st.mObserver = true)
    (hoff : st.mOffload = false) (hsr : 0 < st.mSampleRate)
    (hpad : out.needsTrailingPadding = false) :
    ∃ fuel r d, (∀ fuel', fuel ≤ fuel' → fillBuffer fuel' st out size now = .ok r) ∧
      r.state.trace = st.trace ++ d ∧
      ((∃ e ∈ d, e.isFailedRead = true) →
        ∃ pre post, d = pre ++ Event.postAudioEOS 0 :: post ∧
          NoPostEOS pre ∧ NoPostEOS post) := by
  obtain ⟨fuel, r, hr⟩ := fillBuffer_returns hne st hs out size now
  have h := hr fuel (le_refl _)
  obtain ⟨d, hd, -⟩ := fillBuffer_trace h heos
  refine ⟨fuel, r, d, hr, hd, ?_⟩
  intro hfail
  have he := fillBuffer_failed_read_eos h heos hd hfail
  rcases fillBuffer_eos_delay h heos hobs hoff hsr with ⟨hf, -⟩ | ⟨-, pre, post, ht, hn1, hn2⟩
  · rw [he] at hf
    cases hf
  · rw [hpad, hd, List.append_assoc] at ht
    simp only [Bool.false_eq_true, if_false] at ht
    exact ⟨pre, post, List.append_cancel_left ht, hn1, hn2⟩

theorem postAudioEOS_delay_no_padding_witness :
    Session exStarted exSource ∧ exSource.NoEndlessEmpties ∧ exStarted.mReachedEOS = false ∧
    exStarted.mObserver = true ∧ exStarted.mOffload = false ∧ 0 < exStarted.mSampleRate ∧
    exOutputNoPadding.needsTrailingPadding = false ∧
    ∃ fuel r d,
      (∀ fuel', fuel ≤ fuel' → fillBuffer fuel' exStarted exOutputNoPadding 8 5 = .ok r) ∧
      r.state.trace = exStarted.trace ++ d ∧
      ((∃ e ∈ d, e.isFailedRead = true) →
        ∃ pre post, d = pre ++ Event.postAudioEOS 0 :: post ∧
          NoPostEOS pre ∧ NoPostEOS post) :=
  ⟨exStarted_session, exSource_noEndlessEmpties, rfl, rfl, rfl, by decide, rfl,
    postAudioEOS_delay_no_padding exStarted exSource exOutputNoPadding 8 5 exStarted_session
      exSource_noEndlessEmpties rfl rfl rfl (by decide) rfl⟩

/-! ### The scenario of three buffers -/

theorem fillLoop_break {out : Output} {st s1 : State} {l l1 : Locals} (fuel : Nat)
    (hrem : l.size_remaining ≠ 0) (hb : loopBody out st l = .ok (s1, l1, false)) :
    fillLoop out (fuel + 1) st l = .ok (s1, l1) := by
  simp only [fillLoop, if_neg hrem, hb]

set_option maxRecDepth 100000 in
set_option maxHeartbeats 4000000 in
theorem scFirst_eq (p fuel : Nat) :
    fillBuffer (fuel + 4) scStarted (scOutput p) 2048 1 = .ok scFirst := rfl

theorem scSecond_eq (p fuel : Nat) :
    fillBuffer (fuel + 4) scFirst.state (scOutput p) 2048 2 = .ok scSecond := rfl

theorem scThird_passes (out : Output) (fuel : Nat) :
    fillLoop out (fuel + 4) scSecond.state (Locals.init 2048) =
      fillLoop out (fuel + 2) scBeforeEnd.1 scBeforeEnd.2 := rfl

theorem scAtEnd_eq :
    obtainBuffer scBeforeEnd.1 none = .ok (scAtEnd, ERROR_END_OF_STREAM) := rfl

theorem scAtEnd_trace :
    scAtEnd.trace = scSecond.state.trace ++
      [.memcpy ⟨List.replicate 1764 0, 568, 1196, some 20000⟩ 1196,
       .bufferRelease ⟨List.replicate 1764 0, 1764, 0, some 20000⟩,
       .sourceRead none ERROR_END_OF_STREAM none] := rfl

theorem scDrainTime (p : Nat) (hp : p ≤ 1024) :
    specDrainTimeUs 1024 OK (u32 p) 1196 4 44100 =
      (1000000 * (1024 + 299 - (p : Int))) / 44100 := by
  have hu : u32 p = p := by
    simp only [u32]
    omega
  have hc : ¬ (OK ≠ OK ∨ (1024 : Int) < ((p : Nat) : Int)) := by
    rintro (h | h)
    · exact h rfl
    · omega
  unfold specDrainTimeUs specPendingFrames
  rw [hu, if_neg hc, Int.fdiv_eq_ediv _ (by decide)]
  congr 2
  omega

/-- C20: the player of the scenario (sample rate 44100, frames of four
bytes, a source of three buffers of 1764 bytes with time stamps 0, 10000 and
20000 followed by the end of the stream, freshly started, no seek) is asked
three times for 2048 bytes, the sink reporting `p1`, `p2` and `p3 ≤ 1024`
frames played.  The calls return 2048, 2048 and 1196; `mReachedEOS` is false
after the first two and true, with `ERROR_END_OF_STREAM`, after the third;
`mNumFramesPlayed` is then 1323; and the third call copies the 1196 bytes
left, releases the buffer, reads the end of the stream and posts
`postAudioEOS` with the delay `1000000 * (1024 + 299 - p3) / 44100` plus the
latency 10000 of the sink, which needs trailing padding. -/
theorem scenario_three_fills (p1 p2 p3 : Nat) (hp : p3 ≤ 1024) :
    run (construct true false true 0 0) [.setSource scSource, .start (scOutput 0) false]
      = .ok scStarted ∧
    scStarted.mSampleRate = 44100 ∧ scStarted.mFrameSize = 4 ∧ isSeeking scStarted = false ∧
    (∀ fuel, fillBuffer (fuel + 4) scStarted (scOutput p1) 2048 1 = .ok scFirst) ∧
    scFirst.size_done = 2048 ∧ (reachedEOS scFirst.state).1 = false ∧
    (∀ fuel, fillBuffer (fuel + 4) scFirst.state (scOutput p2) 2048 2 = .ok scSecond) ∧
    scSecond.size_done = 2048 ∧ (reachedEOS scSecond.state).1 = false ∧
    scSecond.state.mNumFramesPlayed = 1024 ∧
    ∃ r3, (∀ fuel, fillBuffer (fuel + 4) scSecond.state (scOutput p3) 2048 3 = .ok r3) ∧
      r3.size_done = 1196 ∧ reachedEOS r3.state = (true, ERROR_END_OF_STREAM) ∧
      r3.state.mNumFramesPlayed = 1323 ∧
      r3.state.trace = scSecond.state.trace ++
        [.memcpy ⟨List.replicate 1764 0, 568, 1196, some 20000⟩ 1196,
         .bufferRelease ⟨List.replicate 1764 0, 1764, 0, some 20000⟩,
         .sourceRead none ERROR_END_OF_STREAM none,
         .postAudioEOS ((1000000 * (1024 + 299 - (p3 : Int))) / 44100 + 10000)] := by
  refine ⟨rfl, rfl, rfl, rfl, scFirst_eq p1, by decide, rfl, scSecond_eq p2, by decide, rfl,
    by decide, ?_⟩
  obtain ⟨st3, l3, hre⟩ := readError_ok scAtEnd (scOutput p3) scBeforeEnd.2
    ERROR_END_OF_STREAM (Or.inl rfl) (fun _ _ => rfl) (by decide) (by decide)
  have hlt : loopBody (scOutput p3) scBeforeEnd.1 scBeforeEnd.2 = .ok (st3, l3, false) := by
    rw [loopBody_idle _ (by rfl)]
    exact loopTail_fail rfl scAtEnd_eq rfl (by decide) hre
  obtain ⟨q1, q2, q3, q4⟩ := readError_delay hre rfl rfl rfl (by decide)
  obtain ⟨-, -, -, t1, t2, t3, -, -, t4⟩ := readError_trace hre
  have hc := readError_config hre
  obtain ⟨r, hr⟩ := fillFinish_ok st3 l3 3 (by rw [hc.mFrameSize]; decide)
    (fun _ => by rw [hc.mObserver]; rfl) (fun h => by rw [t4] at h; cases h)
  obtain ⟨f1, -, f3, -, -, f6⟩ := fillFinish_state hr
  obtain ⟨g1, g2⟩ := fillFinish_trace hr
  refine ⟨r, ?_, ?_, ?_, ?_, ?_⟩
  · intro fuel
    have hrem : scBeforeEnd.2.size_remaining ≠ 0 := by decide
    simp only [fillBuffer, show scSecond.state.mReachedEOS = false from rfl,
      Bool.false_eq_true, if_false, scThird_passes, fillLoop_break (fuel + 1) hrem hlt, hr]
  · rw [f1, t3]
    decide
  · simp only [reachedEOS, f6, t1, g2, t2]
  · rw [f3, hc.mNumFramesPlayed, hc.mFrameSize, t3]
    decide
  · rw [g1, q1, t4, q3, scAtEnd_trace, q4]
    have e1 : scAtEnd.mNumFramesPlayed = 1024 := rfl
    have e2 : scAtEnd.mFrameSize = 4 := rfl
    have e3 : scAtEnd.mSampleRate = 44100 := rfl
    have e4 : scAtEnd.mLatencyUs = 10000 := rfl
    have e5 : scBeforeEnd.2.size_done = 1196 := by decide
    have e6 : scBeforeEnd.2.postSeekComplete = false := rfl
    have e7 : (scOutput p3).getPosition = (OK, p3) := rfl
    have e8 : (scOutput p3).needsTrailingPadding = true := rfl
    rw [e1, e2, e3, e4, e5, e6, e7, e8, if_pos rfl, scDrainTime p3 hp]
    simp only [if_true, Bool.false_eq_true, if_false, List.append_nil, List.append_assoc,
      List.cons_append, List.nil_append]

theorem scenario_three_fills_witness :
    (1000 : Nat) ≤ 1024 ∧
    run (construct true false true 0 0) [.setSource scSource, .start (scOutput 0) false]
      = .ok scStarted ∧
    scStarted.mSampleRate = 44100 ∧ scStarted.mFrameSize = 4 ∧ isSeeking scStarted = false ∧
    (∀ fuel, fillBuffer (fuel + 4) scStarted (scOutput 300) 2048 1 = .ok scFirst) ∧
    scFirst.size_done = 2048 ∧ (reachedEOS scFirst.state).1 = false ∧
    (∀ fuel, fillBuffer (fuel + 4) scFirst.state (scOutput 700) 2048 2 = .ok scSecond) ∧
    scSecond.size_done = 2048 ∧ (reachedEOS scSecond.state).1 = false ∧
    scSecond.state.mNumFramesPlayed = 1024 ∧
    ∃ r3, (∀ fuel, fillBuffer (fuel + 4) scSecond.state (scOutput 1000) 2048 3 = .ok r3) ∧
      r3.size_done = 1196 ∧ reachedEOS r3.state = (true, ERROR_END_OF_STREAM) ∧
      r3.state.mNumFramesPlayed = 1323 ∧
      r3.state.trace = scSecond.state.trace ++
        [.memcpy ⟨List.replicate 1764 0, 568, 1196, some 20000⟩ 1196,
         .bufferRelease ⟨List.replicate 1764 0, 1764, 0, some 20000⟩,
         .sourceRead none ERROR_END_OF_STREAM none,
         .postAudioEOS ((1000000 * (1024 + 299 - ((1000 : Nat) : Int))) / 44100 + 10000)] :=
  ⟨by decide, scenario_three_fills 300 700 1000 (by decide)⟩

/-! ### Frame accounting -/

theorem fillBuffer_frameCount {fuel : Nat} {st : State} {out : Output} {size : Nat}
    {now : Int} {r : FillResult} (h : fillBuffer fuel st out size now = .ok r) :
    r.state.mNumFramesPlayed =
      st.mNumFramesPlayed + ((r.size_done / st.mFrameSize : Nat) : Int) ∧
    r.state.mFrameSize = st.mFrameSize := by
  refine ⟨?_, (fillBuffer_config h).2.2.1⟩
  rcases Bool.eq_false_or_eq_true st.mReachedEOS with heos | heos
  · simp only [fillBuffer, heos, if_true] at h
    cases h
    simp
  · exact (fillBuffer_clock fuel st out size now r heos h).1

theorem fillSeq_frames {st st' : State} {calls : List FillCall} {rs : List FillResult}
    (h : fillSeq st calls = .ok (st', rs)) :
    st'.mNumFramesPlayed = st.mNumFramesPlayed + (framesOfCalls st.mFrameSize rs : Int) ∧
    st'.mFrameSize = st.mFrameSize ∧ rs.length = calls.length := by
  induction calls generalizing st rs with
  | nil =>
    simp only [fillSeq, Except.ok.injEq, Prod.mk.injEq] at h
    obtain ⟨h1, h2⟩ := h
    subst h1 h2
    simp [framesOfCalls]
  | cons c cs ih =>
    simp only [fillSeq] at h
    split at h
    · cases h
    rename_i r hr
    split at h
    · cases h
    rename_i st1 rs1 hrs
    simp only [Except.ok.injEq, Prod.mk.injEq] at h
    obtain ⟨h1, h2⟩ := h
    subst h1 h2
    obtain ⟨a1, a2⟩ := fillBuffer_frameCount hr
    obtain ⟨b1, b2, b3⟩ := ih hrs
    refine ⟨?_, b2.trans a2, by simp [b3]⟩
    rw [b1, a1, a2]
    simp only [framesOfCalls, List.map_cons, List.sum_cons, Nat.cast_add]
    ring

theorem framesOfCalls_le (frameSize : Nat) (rs : List FillResult) :
    framesOfCalls frameSize rs ≤ bytesOfCalls rs / frameSize := by
  induction rs with
  | nil => simp [framesOfCalls, bytesOfCalls]
  | cons r rs ih =>
    simp only [framesOfCalls, bytesOfCalls, List.map_cons, List.sum_cons] at ih ⊢
    exact le_trans (Nat.add_le_add_left ih _) (Nat.add_div_le_add_div _ _ _)

theorem framesOfCalls_eq (frameSize : Nat) (rs : List FillResult)
    (h : ∀ r ∈ rs, frameSize ∣ r.size_done) :
    framesOfCalls frameSize rs = bytesOfCalls rs / frameSize := by
  induction rs with
  | nil => simp [framesOfCalls, bytesOfCalls]
  | cons r rs ih =>
    have ih1 := ih (fun x hx => h x (List.mem_cons_of_mem _ hx))
    simp only [framesOfCalls, bytesOfCalls, List.map_cons, List.sum_cons] at ih1 ⊢
    rw [ih1, Nat.add_div_of_dvd_right (h r (List.mem_cons_self _ _))]

/-- C25: after a sequence of `fillBuffer` calls that return `r1..rm` bytes,
made on a player with `mNumFramesPlayed = 0` (as `seekTo`, `reset` and
`pause(true)` leave it), `mNumFramesPlayed` is the sum of the
`floor(ri / mFrameSize)`; this is at most `floor((r1 + ... + rm) / mFrameSize)`,
and equal to it when every `ri` is a multiple of `mFrameSize`.  Each call adds
`floor(ri / mFrameSize)`, whatever the bytes left over by earlier calls. -/
theorem frames_per_call (st st' : State) (calls : List FillCall) (rs : List FillResult)
    (h0 : st.mNumFramesPlayed = 0) (h : fillSeq st calls = .ok (st', rs)) :
    st'.mNumFramesPlayed = (framesOfCalls st.mFrameSize rs : Int) ∧
    framesOfCalls st.mFrameSize rs ≤ bytesOfCalls rs / st.mFrameSize ∧
    ((∀ r ∈ rs, st.mFrameSize ∣ r.size_done) →
      framesOfCalls st.mFrameSize rs = bytesOfCalls rs / st.mFrameSize) ∧
    (∀ (c : FillCall) (r : FillResult),
      fillBuffer c.fuel st' c.out c.size c.now = .ok r →
      r.state.mNumFramesPlayed =
        st'.mNumFramesPlayed + ((r.size_done / st.mFrameSize : Nat) : Int)) := by
  obtain ⟨a1, a2, -⟩ := fillSeq_frames h
  refine ⟨by rw [a1, h0, zero_add], framesOfCalls_le _ _, framesOfCalls_eq _ _, ?_⟩
  intro c r hr
  rw [(fillBuffer_frameCount hr).1, a2]

theorem frames_per_call_witness :
    exStarted.mNumFramesPlayed = 0 ∧
    fillSeq exStarted exTwoCalls = .ok (exTwoFills.1, exTwoFills.2) ∧
    exTwoFills.1.mNumFramesPlayed = (framesOfCalls exStarted.mFrameSize exTwoFills.2 : Int) ∧
    framesOfCalls exStarted.mFrameSize exTwoFills.2 ≤
      bytesOfCalls exTwoFills.2 / exStarted.mFrameSize ∧
    ((∀ r ∈ exTwoFills.2, exStarted.mFrameSize ∣ r.size_done) →
      framesOfCalls exStarted.mFrameSize exTwoFills.2 =
        bytesOfCalls exTwoFills.2 / exStarted.mFrameSize) ∧
    (∀ (c : FillCall) (r : FillResult),
      fillBuffer c.fuel exTwoFills.1 c.out c.size c.now = .ok r →
      r.state.mNumFramesPlayed =
        exTwoFills.1.mNumFramesPlayed +
          ((r.size_done / exStarted.mFrameSize : Nat) : Int)) :=
  ⟨rfl, rfl, frames_per_call exStarted exTwoFills.1 exTwoCalls exTwoFills.2 rfl rfl⟩

/-- Two calls that return three bytes each, with frames of two bytes, count
two frames, while the six bytes written are three frames: the partial frame of
each call is not counted. -/
theorem exTwoFills_frames :
    exStarted.mFrameSize = 2 ∧ exTwoFills.2.map (fun r => r.size_done) = [3, 3] ∧
    exTwoFills.1.mNumFramesPlayed = 2 ∧ bytesOfCalls exTwoFills.2 / exStarted.mFrameSize = 3 :=
  ⟨rfl, rfl, rfl, rfl⟩

/-! ### Buffers of length zero -/

theorem fillLoop_step {out : Output} {st s1 : State} {l l1 : Locals} (fuel : Nat)
    (hrem : l.size_remaining ≠ 0) (hb : loopBody out st l = .ok (s1, l1, true)) :
    fillLoop out (fuel + 1) st l = fillLoop out fuel s1 l1 := by
  simp only [fillLoop, if_neg hrem, hb]

theorem consume_empty (st : State) (l : Locals) {b : MediaBuffer} (h : b.range_length = 0) :
    consume st l b = ({ st.log [.bufferRelease b] with mInputBuffer := none }, l) := by
  simp only [consume, if_pos h]

theorem consume_bytes (st : State) (l : Locals) {b : MediaBuffer} (h : b.range_length ≠ 0) :
    (consume st l b).1.trace =
      st.trace ++ [.memcpy b (min l.size_remaining b.range_length)] ∧
    (consume st l b).2.size_done = l.size_done + min l.size_remaining b.range_length ∧
    (consume st l b).2.size_remaining =
      l.size_remaining - min l.size_remaining b.range_length ∧
    (consume st l b).2.data =
      l.data ++ (b.data.drop b.range_offset).take (min l.size_remaining b.range_length) ∧
    (consume st l b).1.mInputBuffer = some { b with
      range_offset := b.range_offset + min l.size_remaining b.range_length
      range_length := b.range_length - min l.size_remaining b.range_length } := by
  have hmin : (if l.size_remaining > b.range_length then b.range_length
      else l.size_remaining) = min l.size_remaining b.range_length := by
    split_ifs with h1
    · exact (min_eq_right (le_of_lt h1)).symm
    · exact (min_eq_left (not_lt.mp h1)).symm
  simp only [consume, if_neg h, State.log, hmin, and_self]

theorem readSuccess_empty {st : State} (out : Output) (l : Locals) {b : MediaBuffer}
    (hlen : b.range_length = 0) (hsk : st.mSeeking = false)
    (hout : st.mAudioSink = true ∨ st.mAudioTrack = true)
    (hfs : st.mFrameSize ≠ 0) (hsr : st.mSampleRate ≠ 0) :
    ∃ st3, readSuccess st out l b = .ok st3 ∧ st3.trace = st.trace ∧
      st3.mInputBuffer = st.mInputBuffer ∧ st3.mReachedEOS = st.mReachedEOS ∧
      st3.mFinalStatus = st.mFinalStatus ∧
      st3.mPositionTimeMediaUs = st.mPositionTimeMediaUs ∧ st3.reads = st.reads ∧
      st3.mIsFirstBuffer = st.mIsFirstBuffer ∧ st3.mFirstBuffer = st.mFirstBuffer ∧
      st3.mSeeking = false := by
  have hno : ¬ ((!st.mAudioSink) = true ∧ (!st.mAudioTrack) = true) := by
    rcases hout with h | h <;> simp [h]
  simp only [readSuccess, if_neg hno, hlen, ne_eq, not_true_eq_false, false_and, if_false,
    if_neg hfs, if_neg hsr, hsk, Bool.false_eq_true]
  exact ⟨_, rfl, rfl, rfl, rfl, rfl, rfl, rfl, rfl, rfl, rfl⟩

theorem seekCheck_keeps (st : State) (l : Locals) :
    (seekCheck st l).1.mPositionTimeMediaUs = st.mPositionTimeMediaUs ∧
    (seekCheck st l).2.1.size_done = l.size_done ∧
    (seekCheck st l).2.1.size_remaining = l.size_remaining ∧
    (seekCheck st l).2.1.data = l.data := by
  simp only [seekCheck, releaseFirstBuffer, releaseInputBuffer, State.log]
  split_ifs <;> exact ⟨rfl, rfl, rfl, rfl⟩

theorem obtainBuffer_keeps {st st2 : State} {o : Option Int} {err : status_t}
    (h : obtainBuffer st o = .ok (st2, err)) :
    st2.mPositionTimeMediaUs = st.mPositionTimeMediaUs ∧ st2.mSeeking = st.mSeeking ∧
    st2.mIsFirstBuffer = false := by
  unfold obtainBuffer at h
  split at h
  · cases h
    exact ⟨rfl, rfl, rfl⟩
  · rename_i hfb
    split at h
    · cases h
    · cases h
      exact ⟨rfl, rfl, by simpa using hfb⟩

theorem readSuccess_time {st st3 : State} {out : Output} {l : Locals} {b : MediaBuffer}
    (h : readSuccess st out l b = .ok st3) (hsk : st.mSeeking = false)
    (hlen : b.range_length ≠ 0) :
    st3.trace = st.trace ++ [.findKeyTime b] ∧
    b.kKeyTime = some st3.mPositionTimeMediaUs := by
  simp only [readSuccess, State.log, hsk, Bool.false_eq_true, false_and, if_false,
    if_pos hlen] at h
  split_ifs at h with h1 h2
  cases h
  refine ⟨rfl, ?_⟩
  cases hk : b.kKeyTime with
  | none => exact absurd ⟨hlen, by simp [hk]⟩ h2
  | some t => simp

/-- C22: in a pass of the loop of `fillBuffer` in which, after the seek check,
no input buffer is held and the buffer obtained (from the source, or the one
stashed by `start`) comes with `OK` and has length zero, nothing is copied
(the locals `size_done`, `size_remaining` and the bytes stored stay as they
are), the buffer is released, `mReachedEOS`, `mFinalStatus` and
`mPositionTimeMediaUs` keep their values, and the pass ends with `continue`:
the loop goes on with no input buffer held.  When the buffer obtained in the
next pass of the same call has a length other than zero,
`min(size_remaining, range_length)` of its bytes are copied in that
pass. -/
theorem empty_buffer_pass (out : Output) (st st2 : State) (l : Locals) (b : MediaBuffer)
    (hin : (seekCheck st l).1.mInputBuffer = none)
    (ho : obtainBuffer (seekCheck st l).1 (seekCheck st l).2.2 = .ok (st2, OK))
    (hb : st2.mInputBuffer = some b) (hlen : b.range_length = 0)
    (hout : st.mAudioSink = true ∨ st.mAudioTrack = true)
    (hfs : st.mFrameSize ≠ 0) (hsr : st.mSampleRate ≠ 0) (hrem : l.size_remaining ≠ 0) :
    ∃ st' l', loopBody out st l = .ok (st', l', true) ∧
      l'.size_done = l.size_done ∧ l'.size_remaining = l.size_remaining ∧ l'.data = l.data ∧
      st'.trace = st2.trace ++ [.bufferRelease b] ∧ st'.mInputBuffer = none ∧
      st'.mReachedEOS = st.mReachedEOS ∧ st'.mFinalStatus = st.mFinalStatus ∧
      st'.mPositionTimeMediaUs = st.mPositionTimeMediaUs ∧
      (∀ fuel, fillLoop out (fuel + 1) st l = fillLoop out fuel st' l') ∧
      (∀ st3 b2, obtainBuffer st' none = .ok (st3, OK) → st3.mInputBuffer = some b2 →
        b2.range_length ≠ 0 → b2.kKeyTime.isSome = true →
        ∃ st4 l4, (∀ fuel, fillLoop out (fuel + 2) st l = fillLoop out fuel st4 l4) ∧
          st4.trace = st3.trace ++
            [.findKeyTime b2, .memcpy b2 (min l.size_remaining b2.range_length)] ∧
          l4.size_done = l.size_done + min l.size_remaining b2.range_length ∧
          l4.data = l.data ++
            (b2.data.drop b2.range_offset).take (min l.size_remaining b2.range_length)) := by
  have hc1 := seekCheck_config st l
  have hc2 := hc1.trans (obtainBuffer_config ho)
  obtain ⟨k1, k2, k3, k4⟩ := seekCheck_keeps st l
  obtain ⟨-, -, -, e1, f1, -⟩ := seekCheck_trace st l
  obtain ⟨-, -, -, -, e2, f2⟩ := obtainBuffer_trace ho
  obtain ⟨m1, m2, m3⟩ := obtainBuffer_keeps ho
  have hsk2 : st2.mSeeking = false := m2.trans (seekCheck_seeking_false st l)
  obtain ⟨st3, hrs, r1, r2, r3, r4, r5, r6, r7, r8, r9⟩ :=
    readSuccess_empty out (seekCheck st l).2.1 hlen hsk2
      (by rw [hc2.mAudioSink, hc2.mAudioTrack]; exact hout)
      (by rw [hc2.mFrameSize]; exact hfs) (by rw [hc2.mSampleRate]; exact hsr)
  have hlt := loopTail_read hin ho hb rfl hrs
  rw [consume_empty st3 (seekCheck st l).2.1 hlen] at hlt
  have hlb : loopBody out st l =
      .ok ({ st3.log [.bufferRelease b] with mInputBuffer := none },
        (seekCheck st l).2.1, true) := hlt
  refine ⟨_, _, hlb, k2, k3, k4, ?_, rfl, ?_, ?_, ?_, fun fuel => fillLoop_step fuel hrem hlb,
    ?_⟩
  · simp only [State.log, r1]
  · exact r3.trans (e2.trans e1)
  · exact r4.trans (f2.trans f1)
  · exact r5.trans (m1.trans k1)
  · intro s3 b2 ho2 hb2 hlen2 hkey
    have hc3 : SameConfig st { st3.log [.bufferRelease b] with mInputBuffer := none } :=
      loopBody_config hlb
    have hc4 := hc3.trans (obtainBuffer_config ho2)
    obtain ⟨n1, n2, n3⟩ := obtainBuffer_keeps ho2
    have hsk4 : s3.mSeeking = false := n2.trans r9
    obtain ⟨s4, hrs2⟩ := readSuccess_ok s3 out (seekCheck st l).2.1 b2
      (by rw [hc4.mAudioSink, hc4.mAudioTrack]; exact hout)
      (by rw [hc4.mFrameSize]; exact hfs) (by rw [hc4.mSampleRate]; exact hsr)
      (fun _ => hkey)
    have hlt2 := @loopTail_read out _ _ _ (seekCheck st l).2.1 _ _ _ rfl ho2 hb2 rfl hrs2
    have hlb2 : loopBody out { st3.log [.bufferRelease b] with mInputBuffer := none }
        (seekCheck st l).2.1 =
        .ok ((consume s4 (seekCheck st l).2.1 b2).1, (consume s4 (seekCheck st l).2.1 b2).2,
          true) := by
      rw [loopBody_idle _ (by exact r9)]
      exact hlt2
    obtain ⟨c1, c2, -, c4, -⟩ := consume_bytes s4 (seekCheck st l).2.1 hlen2
    obtain ⟨t1, -⟩ := readSuccess_time hrs2 hsk4 hlen2
    refine ⟨(consume s4 (seekCheck st l).2.1 b2).1, (consume s4 (seekCheck st l).2.1 b2).2,
      fun fuel => ?_, ?_, ?_, ?_⟩
    · rw [fillLoop_step (fuel + 1) hrem hlb,
        fillLoop_step fuel (by rw [k3]; exact hrem) hlb2]
    · rw [c1, t1, k3]
      simp
    · rw [c2, k2, k3]
    · rw [c4, k4, k3]

theorem empty_buffer_pass_witness :
    (seekCheck exGapStarted (Locals.init 2)).1.mInputBuffer = none ∧
    obtainBuffer (seekCheck exGapStarted (Locals.init 2)).1
      (seekCheck exGapStarted (Locals.init 2)).2.2 = .ok (exGapTaken, OK) ∧
    exGapTaken.mInputBuffer = some ⟨[], 0, 0, none⟩ ∧
    (⟨[], 0, 0, none⟩ : MediaBuffer).range_length = 0 ∧
    (exGapStarted.mAudioSink = true ∨ exGapStarted.mAudioTrack = true) ∧
    exGapStarted.mFrameSize ≠ 0 ∧ exGapStarted.mSampleRate ≠ 0 ∧
    (Locals.init 2).size_remaining ≠ 0 ∧
    ∃ st' l', loopBody exOutput exGapStarted (Locals.init 2) = .ok (st', l', true) ∧
      l'.size_done = (Locals.init 2).size_done ∧
      l'.size_remaining = (Locals.init 2).size_remaining ∧
      l'.data = (Locals.init 2).data ∧
      st'.trace = exGapTaken.trace ++ [.bufferRelease ⟨[], 0, 0, none⟩] ∧
      st'.mInputBuffer = none ∧
      st'.mReachedEOS = exGapStarted.mReachedEOS ∧
      st'.mFinalStatus = exGapStarted.mFinalStatus ∧
      st'.mPositionTimeMediaUs = exGapStarted.mPositionTimeMediaUs ∧
      (∀ fuel, fillLoop exOutput (fuel + 1) exGapStarted (Locals.init 2) =
        fillLoop exOutput fuel st' l') ∧
      (∀ st3 b2, obtainBuffer st' none = .ok (st3, OK) → st3.mInputBuffer = some b2 →
        b2.range_length ≠ 0 → b2.kKeyTime.isSome = true →
        ∃ st4 l4,
          (∀ fuel, fillLoop exOutput (fuel + 2) exGapStarted (Locals.init 2) =
            fillLoop exOutput fuel st4 l4) ∧
          st4.trace = st3.trace ++
            [.findKeyTime b2, .memcpy b2 (min (Locals.init 2).size_remaining b2.range_length)] ∧
          l4.size_done =
            (Locals.init 2).size_done + min (Locals.init 2).size_remaining b2.range_length ∧
          l4.data = (Locals.init 2).data ++
            (b2.data.drop b2.range_offset).take
              (min (Locals.init 2).size_remaining b2.range_length)) :=
  ⟨rfl, rfl, rfl, rfl, Or.inl rfl, by decide, by decide, by decide,
    empty_buffer_pass exOutput exGapStarted exGapTaken (Locals.init 2) ⟨[], 0, 0, none⟩
      rfl rfl rfl rfl (Or.inl rfl) (by decide) (by decide) (by decide)⟩

/-- The call of the witness as a whole: the empty buffer is taken and
released, the next buffer is read and its two bytes are delivered in the same
call; the media position time is set by the second buffer only. -/
theorem exGapFilled_eq :
    fillBuffer 8 exGapStarted exOutput 2 5 = .ok exGapFilled ∧
    exGapFilled.size_done = 2 ∧ exGapFilled.data = [7, 8] ∧
    exGapFilled.state.mReachedEOS = false ∧
    exGapFilled.state.mPositionTimeMediaUs = 100 ∧
    exGapFilled.state.trace = exGapStarted.trace ++
      [.firstBufferTaken OK (some ⟨[], 0, 0, none⟩), .bufferRelease ⟨[], 0, 0, none⟩,
       .sourceRead none OK (some ⟨[7, 8], 0, 2, some 100⟩),
       .findKeyTime ⟨[7, 8], 0, 2, some 100⟩, .memcpy ⟨[7, 8], 0, 2, some 100⟩ 2] :=
  ⟨rfl, rfl, rfl, rfl, rfl, rfl⟩

/-! ### Termination of the loop -/

theorem seekCheck_holdsNoByte {st : State} (l : Locals) (h : HoldsNoByte st) :
    HoldsNoByte (seekCheck st l).1 := by
  rcases Bool.eq_false_or_eq_true st.mSeeking with hsk | hsk
  · obtain ⟨-, -, h3, h4, -⟩ := seekCheck_seeking l hsk
    exact ⟨fun b hb => (by rw [h3] at hb; cases hb), fun hf => (by rw [h4] at hf; cases hf)⟩
  · rw [seekCheck_idle l hsk]
    exact h

/-- On a source that only hands back buffers of length zero, a pass of the
loop entered with no byte held ends with `continue`, with no byte held and
the same `size_remaining`. -/
theorem loopBody_endless (out : Output) {source : MediaSource} (hsrc : source.OnlyEmpties)
    {st : State} (l : Locals) (hs : Session st source) (hh : HoldsNoByte st) :
    ∃ st' l', loopBody out st l = .ok (st', l', true) ∧ Session st' source ∧
      HoldsNoByte st' ∧ l'.size_remaining = l.size_remaining := by
  have hs1 := seekCheck_session hs l
  have hh1 := seekCheck_holdsNoByte l hh
  have hsk1 := seekCheck_seeking_false st l
  obtain ⟨-, -, k3, -⟩ := seekCheck_keeps st l
  have key : ∀ (s : State) (l1 : Locals) (o : Option Int), Session s source → HoldsNoByte s →
      s.mSeeking = false →
      ∃ st' l', loopTail out s l1 o = .ok (st', l', true) ∧ Session st' source ∧
        HoldsNoByte st' ∧ l'.size_remaining = l1.size_remaining := by
    intro s l1 o hs hh hsk
    cases hib : s.mInputBuffer with
    | some b =>
      have hlen := hh.1 b hib
      have hlt := @loopTail_held out _ l1 o _ hib
      rw [consume_empty s l1 hlen] at hlt
      have hc := loopTail_config hlt
      refine ⟨_, _, hlt, hs.of_config hc (fun hf => ⟨hf, rfl⟩), ⟨fun b hb => (by cases hb), ?_⟩,
        rfl⟩
      exact hh.2
    | none =>
      obtain ⟨st2, err, ho, hc2, hwf, hfb2, hsk2, -⟩ := obtainBuffer_ok hs o
      have hbuf : ∃ b, st2.mInputBuffer = some b ∧ b.range_length = 0 := by
        have ho' := ho
        unfold obtainBuffer at ho'
        split at ho'
        · rename_i hfb
          cases ho'
          exact hh.2 hfb
        · rw [hs.hasSource] at ho'
          simp only [State.log, Except.ok.injEq, Prod.mk.injEq] at ho'
          obtain ⟨h1, -⟩ := ho'
          subst h1
          have he := hsrc (s.reads ++ [o])
          unfold ReadResult.isEmpty at he
          split at he
          · rename_i b hb
            exact ⟨b, hb, by simpa using he⟩
          · cases he
      obtain ⟨b, hb, hlen⟩ := hbuf
      have herr : err = OK := by
        unfold ReadResult.WellFormed at hwf
        simp only [hb] at hwf
        exact hwf.1
      obtain ⟨st3, hrs, -, r2, -, -, -, -, r7, -, -⟩ :=
        readSuccess_empty out l1 hlen (hsk2.trans hsk)
          (by rw [hc2.mAudioSink, hc2.mAudioTrack]; exact hs.output)
          (by rw [hc2.mFrameSize]; exact hs.frameSize)
          (by rw [hc2.mSampleRate]; exact hs.sampleRate)
      have hlt := @loopTail_read out _ _ _ l1 _ _ _ hib ho hb herr hrs
      rw [consume_empty st3 l1 hlen] at hlt
      have hc := loopTail_config hlt
      have hfb3 : st3.mIsFirstBuffer = false := r7.trans hfb2
      refine ⟨_, _, hlt, hs.of_config hc (fun hf => ?_), ⟨fun b hb => (by cases hb), fun hf => ?_⟩,
        rfl⟩
      · exact absurd (hfb3.symm.trans hf) (by decide)
      · exact absurd (hfb3.symm.trans hf) (by decide)
  obtain ⟨st', l', h1, h2, h3, h4⟩ :=
    key (seekCheck st l).1 (seekCheck st l).2.1 (seekCheck st l).2.2 hs1 hh1 hsk1
  exact ⟨st', l', h1, h2, h3, h4.trans k3⟩

theorem fillLoop_endless (out : Output) {source : MediaSource} (hsrc : source.OnlyEmpties)
    (fuel : Nat) (st : State) (l : Locals) (hs : Session st source) (hh : HoldsNoByte st)
    (hrem : l.size_remaining ≠ 0) : fillLoop out fuel st l = .error .timeout := by
  induction fuel generalizing st l with
  | zero => simp only [fillLoop, if_neg hrem]
  | succ n ih =>
    obtain ⟨st', l', hb, hs', hh', hr'⟩ := loopBody_endless out hsrc l hs hh
    rw [fillLoop_step n hrem hb]
    exact ih st' l' hs' hh' (by rw [hr']; exact hrem)

/-- What `consume` does with a buffer: a buffer of length zero is released and
the locals stay as they are; otherwise at least one byte is copied when there
is room left. -/
theorem consume_progress (st : State) (l : Locals) (b : MediaBuffer)
    (hrem : l.size_remaining ≠ 0) :
    ((consume st l b).2.size_remaining < l.size_remaining) ∨
    ((consume st l b).2.size_remaining = l.size_remaining ∧ b.range_length = 0 ∧
      (consume st l b).1.trace = st.trace ++ [.bufferRelease b]) := by
  by_cases hlen : b.range_length = 0
  · right
    rw [consume_empty st l hlen]
    exact ⟨rfl, hlen, rfl⟩
  · left
    obtain ⟨-, -, c3, -⟩ := consume_bytes st l hlen
    rw [c3]
    have : 0 < min l.size_remaining b.range_length := by
      rw [lt_min_iff]
      exact ⟨Nat.pos_of_ne_zero hrem, Nat.pos_of_ne_zero hlen⟩
    omega

/-- Every pass of the loop in a started session returns, and it either ends
with `break` on a failed read, or copies at least one byte, or releases a
buffer of length zero. -/
theorem loopBody_progress (out : Output) {source : MediaSource} {st : State}
    (hs : Session st source) (l : Locals) (hrem : l.size_remaining ≠ 0) :
    ∃ st' l' c, loopBody out st l = .ok (st', l', c) ∧
      ((c = false ∧ st'.mReachedEOS = true ∧ st'.mFinalStatus ≠ OK) ∨
       (c = true ∧ l'.size_remaining < l.size_remaining) ∨
       (c = true ∧ l'.size_remaining = l.size_remaining ∧
          ∃ pre b, st'.trace = st.trace ++ pre ++ [.bufferRelease b] ∧
            b.range_length = 0)) := by
  have hs1 := seekCheck_session hs l
  have hsk1 := seekCheck_seeking_false st l
  obtain ⟨-, -, k3, -⟩ := seekCheck_keeps st l
  obtain ⟨ds, hds, -⟩ := seekCheck_trace st l
  have hrem1 : (seekCheck st l).2.1.size_remaining ≠ 0 := by rw [k3]; exact hrem
  obtain ⟨st', l', c, hlt, -⟩ :=
    loopTail_progress out hs1 hsk1 (seekCheck st l).2.1 (seekCheck st l).2.2 hrem1
  refine ⟨st', l', c, hlt, ?_⟩
  rcases loopTail_cases hlt with ⟨b, -, hc, hct⟩ | ⟨-, st2, err, ho, h2⟩
  · right
    have hp := consume_progress (seekCheck st l).1 (seekCheck st l).2.1 b hrem1
    rw [hc] at hp
    rcases hp with hp | ⟨hp, hlen, ht⟩
    · exact Or.inl ⟨hct, by rw [← k3]; exact hp⟩
    · exact Or.inr ⟨hct, hp.trans k3, ds, b, by rw [ht, hds], hlen⟩
  · obtain ⟨e2, he2, -⟩ := obtainBuffer_trace ho
    rcases h2 with ⟨-, herr, hre, hct⟩ | ⟨b, st3, -, -, hrs, hc, hct⟩
    · left
      obtain ⟨-, -, -, r3, r4, -⟩ := readError_trace hre
      exact ⟨hct, r3, by rw [r4]; exact herr⟩
    · right
      obtain ⟨d3, hd3, -⟩ := readSuccess_trace hrs
      have hp := consume_progress st3 (seekCheck st l).2.1 b hrem1
      rw [hc] at hp
      rcases hp with hp | ⟨hp, hlen, ht⟩
      · exact Or.inl ⟨hct, by rw [← k3]; exact hp⟩
      · refine Or.inr ⟨hct, hp.trans k3, ds ++ [e2] ++ d3, b, ?_, hlen⟩
        rw [ht, hd3, he2, hds]
        simp

/-- C24: in a started session (the answers of the source pass the `CHECK`s:
each read hands back a buffer, empty or not, or an error), for every size,
`fillBuffer` returns when the source never hands back empty buffers without
end; every pass of its loop returns and either breaks on a failed read, or
copies at least one byte (less room is left), or releases a buffer of length
zero; and on a source that only hands back buffers of length zero, a call for
at least one byte entered with no byte held does not return, whatever the
bound on the passes. -/
theorem fillBuffer_terminates (st : State) (source : MediaSource) (out : Output)
    (size : Nat) (now : Int) (hs : Session st source) :
    (source.NoEndlessEmpties →
      ∃ fuel r, ∀ fuel', fuel ≤ fuel' → fillBuffer fuel' st out size now = .ok r) ∧
    (∀ l : Locals, l.size_remaining ≠ 0 →
      ∃ st' l' c, loopBody out st l = .ok (st', l', c) ∧
        ((c = false ∧ st'.mReachedEOS = true ∧ st'.mFinalStatus ≠ OK) ∨
         (c = true ∧ l'.size_remaining < l.size_remaining) ∨
         (c = true ∧ l'.size_remaining = l.size_remaining ∧
            ∃ pre b, st'.trace = st.trace ++ pre ++ [.bufferRelease b] ∧
              b.range_length = 0))) ∧
    (source.OnlyEmpties → HoldsNoByte st → st.mReachedEOS = false → 0 < size →
      ∀ fuel, fillBuffer fuel st out size now = .error .timeout) := by
  refine ⟨fun hne => fillBuffer_returns hne st hs out size now,
    fun l hrem => loopBody_progress out hs l hrem, ?_⟩
  intro hsrc hh heos hsize fuel
  have hrem : (Locals.init size).size_remaining ≠ 0 := by
    simp only [Locals.init]
    omega
  simp only [fillBuffer, heos, Bool.false_eq_true, if_false,
    fillLoop_endless out hsrc fuel st (Locals.init size) hs hh hrem]

theorem fillBuffer_terminates_witness :
    Session exStarted exSource ∧
    (exSource.NoEndlessEmpties →
      ∃ fuel r, ∀ fuel', fuel ≤ fuel' → fillBuffer fuel' exStarted exOutput 3 5 = .ok r) ∧
    (∀ l : Locals, l.size_remaining ≠ 0 →
      ∃ st' l' c, loopBody exOutput exStarted l = .ok (st', l', c) ∧
        ((c = false ∧ st'.mReachedEOS = true ∧ st'.mFinalStatus ≠ OK) ∨
         (c = true ∧ l'.size_remaining < l.size_remaining) ∨
         (c = true ∧ l'.size_remaining = l.size_remaining ∧
            ∃ pre b, st'.trace = exStarted.trace ++ pre ++ [.bufferRelease b] ∧
              b.range_length = 0))) ∧
    (exSource.OnlyEmpties → HoldsNoByte exStarted → exStarted.mReachedEOS = false → 0 < 3 →
      ∀ fuel, fillBuffer fuel exStarted exOutput 3 5 = .error .timeout) :=
  ⟨exStarted_session, fillBuffer_terminates exStarted exSource exOutput 3 5 exStarted_session⟩

theorem exEndless_session : Session exEndless exEndlessSource where
  started := rfl
  hasSource := rfl
  wellFormed := fun _ => ⟨rfl, fun h => absurd rfl h⟩
  output := Or.inl rfl
  eosOutput := fun _ _ => rfl
  frameSize := by decide
  sampleRate := by decide
  firstBuffer := fun _ => ⟨rfl, fun h => absurd rfl h⟩

/-- A started player on a source that hands back buffers of length zero for
ever: a call of `fillBuffer` for one byte does not return, whatever the bound
on the passes of its loop. -/
theorem exEndless_never_returns (fuel : Nat) :
    exEndlessSource.OnlyEmpties ∧ HoldsNoByte exEndless ∧
    fillBuffer fuel exEndless exOutput 1 0 = .error .timeout := by
  have h1 : exEndlessSource.OnlyEmpties := fun _ => rfl
  have h2 : HoldsNoByte exEndless :=
    ⟨fun b hb => (by cases hb), fun _ => ⟨_, rfl, rfl⟩⟩
  refine ⟨h1, h2, ?_⟩
  simp only [fillBuffer, show exEndless.mReachedEOS = false from rfl, Bool.false_eq_true,
    if_false, fillLoop_endless exOutput h1 fuel exEndless (Locals.init 1) exEndless_session h2
      (by decide)]

/-! ### The buffers held -/

theorem holdAfter_append (n : Nat) (a b : List Event) :
    holdAfter n (a ++ b) = (holdAfter n a).bind (fun m => holdAfter m b) := by
  induction a generalizing n with
  | nil => rfl
  | cons e es ih =>
    cases e
    case sourceRead o err buf =>
      simp only [List.cons_append, holdAfter]
      split_ifs
      · exact ih _
      · exact ih _
      · rfl
    case bufferRelease b0 =>
      simp only [List.cons_append, holdAfter]
      split_ifs
      · exact ih _
      · rfl
    all_goals
      simp only [List.cons_append, holdAfter]
      exact ih n

theorem holdAfter_neutral (n : Nat) {d : List Event} (h : ∀ e ∈ d, e.isNeutral = true) :
    holdAfter n d = some n := by
  induction d with
  | nil => rfl
  | cons e es ih =>
    have he := h e (List.mem_cons_self _ _)
    have ih1 := ih (fun x hx => h x (List.mem_cons_of_mem _ hx))
    cases e <;> first | (cases he; done) | simpa only [holdAfter] using ih1

theorem holdAfter_trans {n m k : Nat} {a b : List Event} (ha : holdAfter n a = some m)
    (hb : holdAfter m b = some k) : holdAfter n (a ++ b) = some k := by
  rw [holdAfter_append, ha]
  exact hb

theorem holdAfter_le_one {n m : Nat} {d : List Event} (h : holdAfter n d = some m)
    (hn : n ≤ 1) : m ≤ 1 := by
  induction d generalizing n with
  | nil => cases h; exact hn
  | cons e es ih =>
    cases e
    case sourceRead o err buf =>
      simp only [holdAfter] at h
      split_ifs at h
      · exact ih h (by decide)
      · exact ih h (by decide)
    case bufferRelease b =>
      simp only [holdAfter] at h
      split_ifs at h
      exact ih h (by decide)
    all_goals exact ih (by simpa only [holdAfter] using h) hn

/-- The buffers handed out by the source are those released and those still
held. -/
theorem holdAfter_count {n m : Nat} {d : List Event} (h : holdAfter n d = some m) :
    n + d.countP Event.isObtain = d.countP Event.isRelease + m := by
  induction d generalizing n with
  | nil => cases h; simp
  | cons e es ih =>
    cases e
    case sourceRead o err buf =>
      simp only [holdAfter] at h
      split_ifs at h with h0 hb
      · have := ih h
        cases buf with
        | none => cases hb
        | some b =>
          simp only [List.countP_cons, Event.isObtain, Event.isRelease, if_true,
            Bool.false_eq_true, if_false] at this ⊢
          omega
      · have := ih h
        cases buf with
        | some b => exact absurd rfl hb
        | none =>
          simp only [List.countP_cons, Event.isObtain, Event.isRelease,
            Bool.false_eq_true, if_false] at this ⊢
          omega
    case bufferRelease b =>
      simp only [holdAfter] at h
      split_ifs at h with h1
      have := ih h
      simp only [List.countP_cons, Event.isObtain, Event.isRelease, if_true,
        Bool.false_eq_true, if_false] at this ⊢
      omega
    all_goals
      have := ih (by simpa only [holdAfter] using h)
      simp only [List.countP_cons, Event.isObtain, Event.isRelease,
        Bool.false_eq_true, if_false] at this ⊢
      omega

theorem holdStep_refl (a : State) : HoldStep a a [] := rfl

theorem holdStep_trans {a b c : State} {d1 d2 : List Event} (h1 : HoldStep a b d1)
    (h2 : HoldStep b c d2) : HoldStep a c (d1 ++ d2) :=
  holdAfter_trans h1 h2

theorem holdStep_same {a b : State} {d : List Event} (hd : ∀ e ∈ d, e.isNeutral = true)
    (h1 : b.mFirstBuffer = a.mFirstBuffer) (h2 : b.mInputBuffer = a.mInputBuffer) :
    HoldStep a b d := by
  unfold HoldStep
  rw [holdAfter_neutral _ hd]
  simp only [heldBuffers, h1, h2]

theorem seekCheck_hold (st : State) (l : Locals) (hf : FirstInv st) :
    FirstInv (seekCheck st l).1 ∧
    ∃ d, (seekCheck st l).1.trace = st.trace ++ d ∧ HoldStep st (seekCheck st l).1 d := by
  rcases Bool.eq_false_or_eq_true st.mSeeking with hsk | hsk
  · simp only [seekCheck, hsk, if_true, releaseFirstBuffer, releaseInputBuffer, State.log]
    rcases Bool.eq_false_or_eq_true st.mIsFirstBuffer with hfb | hfb
    · simp only [hfb, if_true]
      refine ⟨fun h => (by cases h), _, List.append_assoc _ _ _, ?_⟩
      unfold HoldStep
      cases h1 : st.mFirstBuffer with
      | none =>
        cases h2 : st.mInputBuffer with
        | none => simp [heldBuffers, h1, h2, holdAfter]
        | some b => simp [heldBuffers, h1, h2, holdAfter]
      | some b1 =>
        have := (hf (by simp [h1])).2
        simp [heldBuffers, h1, this, holdAfter]
    · simp only [hfb, Bool.false_eq_true, if_false]
      have h1 : st.mFirstBuffer = none := by
        cases h1 : st.mFirstBuffer with
        | none => rfl
        | some b1 =>
          have := (hf (by simp [h1])).1
          rw [hfb] at this
          cases this
      refine ⟨fun h => (by simp [h1] at h), _, rfl, ?_⟩
      unfold HoldStep
      cases h2 : st.mInputBuffer with
      | none => simp [heldBuffers, h1, h2, holdAfter]
      | some b => simp [heldBuffers, h1, h2, holdAfter]
  · rw [seekCheck_idle l hsk]
    exact ⟨hf, [], (List.append_nil _).symm, holdStep_refl st⟩

theorem consume_hold (st : State) (l : Locals) {b : MediaBuffer}
    (hin : st.mInputBuffer = some b) (h1 : st.mFirstBuffer = none) :
    (consume st l b).1.mFirstBuffer = none ∧
    ∃ d, (consume st l b).1.trace = st.trace ++ d ∧ HoldStep st (consume st l b).1 d := by
  by_cases hlen : b.range_length = 0
  · rw [consume_empty st l hlen]
    refine ⟨h1, _, rfl, ?_⟩
    simp [HoldStep, heldBuffers, h1, hin, holdAfter, State.log]
  · obtain ⟨c1, -, -, -, c5⟩ := consume_bytes st l hlen
    have hfirst : (consume st l b).1.mFirstBuffer = none :=
      (consume_buffers st l b).2.1.trans h1
    refine ⟨hfirst, _, c1, ?_⟩
    simp [HoldStep, heldBuffers, h1, hin, holdAfter, hfirst, c5]

theorem obtainBuffer_hold {st st2 : State} {o : Option Int} {err : status_t}
    (h : obtainBuffer st o = .ok (st2, err)) (hf : FirstInv st)
    (hin : st.mInputBuffer = none) :
    st2.mFirstBuffer = none ∧ ∃ d, st2.trace = st.trace ++ d ∧ HoldStep st st2 d := by
  unfold obtainBuffer at h
  split at h
  · cases h
    refine ⟨rfl, _, rfl, ?_⟩
    cases h1 : st.mFirstBuffer <;> simp [HoldStep, heldBuffers, h1, hin, holdAfter, State.log]
  · rename_i hfb
    have h1 : st.mFirstBuffer = none := by
      cases h1 : st.mFirstBuffer with
      | none => rfl
      | some b1 => exact absurd (hf (by simp [h1])).1 hfb
    split at h
    · cases h
    · cases h
      refine ⟨h1, _, rfl, ?_⟩
      rename_i source hsrc
      cases hb : (source.read (st.reads ++ [o])).buffer <;>
        simp [HoldStep, heldBuffers, h1, hin, holdAfter, State.log, hb]

theorem readError_hold {st st3 : State} {out : Output} {l l3 : Locals} {err : status_t}
    (h : readError st out l err = .ok (st3, l3)) :
    st3.mFirstBuffer = st.mFirstBuffer ∧ st3.mInputBuffer = st.mInputBuffer ∧
    ∃ d, st3.trace = st.trace ++ d ∧ ∀ e ∈ d, e.isNeutral = true := by
  unfold readError at h
  repeat' split at h
  all_goals cases h
  all_goals first
    | exact ⟨rfl, rfl, [], (List.append_nil _).symm, fun e he => by cases he⟩
    | (refine ⟨rfl, rfl, [.setOffloadEOSReached], rfl, ?_⟩
       intro e he
       rw [List.mem_singleton.mp he]
       rfl)

theorem readSuccess_hold {st st3 : State} {out : Output} {l : Locals} {b : MediaBuffer}
    (h : readSuccess st out l b = .ok st3) :
    st3.mFirstBuffer = st.mFirstBuffer ∧ st3.mInputBuffer = st.mInputBuffer ∧
    ∃ d, st3.trace = st.trace ++ d ∧ ∀ e ∈ d, e.isNeutral = true := by
  obtain ⟨r1, -, r3, -⟩ := readSuccess_buffers h
  refine ⟨r3, r1, ?_⟩
  simp only [readSuccess, State.log] at h
  split_ifs at h <;> cases h
  all_goals first
    | exact ⟨[], (List.append_nil _).symm, fun e he => by cases he⟩
    | (refine ⟨[.findKeyTime b], rfl, ?_⟩
       intro e he
       rw [List.mem_singleton.mp he]
       rfl)
    | (refine ⟨[.postAudioSeekComplete], rfl, ?_⟩
       intro e he
       rw [List.mem_singleton.mp he]
       rfl)
    | (refine ⟨[.findKeyTime b, .postAudioSeekComplete], List.append_assoc _ _ _, ?_⟩
       intro e he
       simp only [List.mem_cons, List.mem_singleton, List.not_mem_nil, or_false] at he
       rcases he with he | he <;> rw [he] <;> rfl)

/-- A pass of the loop keeps the discipline of the buffers: the source is read
only when no buffer is held, and a buffer is released only when it is the one
held. -/
theorem loopBody_hold {out : Output} {st st' : State} {l l' : Locals} {c : Bool}
    (h : loopBody out st l = .ok (st', l', c)) (hf : FirstInv st) :
    FirstInv st' ∧ ∃ d, st'.trace = st.trace ++ d ∧ HoldStep st st' d := by
  unfold loopBody at h
  obtain ⟨hf1, ds, hds, hs⟩ := seekCheck_hold st l hf
  have none_inv : ∀ {s : State}, s.mFirstBuffer = none → FirstInv s := by
    intro s hs h
    rw [hs] at h
    cases h
  rcases loopTail_cases h with ⟨b, hb, hc, -⟩ | ⟨hib, st2, err, ho, h2⟩
  · have h1 : (seekCheck st l).1.mFirstBuffer = none := by
      cases h1 : (seekCheck st l).1.mFirstBuffer with
      | none => rfl
      | some b1 =>
        have := (hf1 (by simp [h1])).2
        rw [hb] at this
        cases this
    obtain ⟨c1, d, hd, hh⟩ := consume_hold (seekCheck st l).1 (seekCheck st l).2.1 hb h1
    rw [hc] at c1 hd hh
    exact ⟨none_inv c1, ds ++ d, by rw [hd, hds, List.append_assoc], holdStep_trans hs hh⟩
  · obtain ⟨o1, d2, hd2, hh2⟩ := obtainBuffer_hold ho hf1 hib
    rcases h2 with ⟨-, -, hre, -⟩ | ⟨b, st3, hb, -, hrs, hc, -⟩
    · obtain ⟨e1, e2, d3, hd3, hn3⟩ := readError_hold hre
      exact ⟨none_inv (e1.trans o1), ds ++ (d2 ++ d3), by rw [hd3, hd2, hds]; simp,
        holdStep_trans hs (holdStep_trans hh2 (holdStep_same hn3 e1 e2))⟩
    · obtain ⟨e1, e2, d3, hd3, hn3⟩ := readSuccess_hold hrs
      obtain ⟨c1, d4, hd4, hh4⟩ :=
        consume_hold st3 (seekCheck st l).2.1 (e2.trans hb) (e1.trans o1)
      rw [hc] at c1 hd4 hh4
      exact ⟨none_inv c1, ds ++ (d2 ++ (d3 ++ d4)), by rw [hd4, hd3, hd2, hds]; simp,
        holdStep_trans hs (holdStep_trans hh2
          (holdStep_trans (holdStep_same hn3 e1 e2) hh4))⟩

theorem fillFinish_hold {st : State} {l : Locals} {now : Int} {r : FillResult}
    (h : fillFinish st l now = .ok r) :
    r.state.mFirstBuffer = st.mFirstBuffer ∧ r.state.mInputBuffer = st.mInputBuffer ∧
    r.state.mIsFirstBuffer = st.mIsFirstBuffer ∧
    ∃ d, r.state.trace = st.trace ++ d ∧ ∀ e ∈ d, e.isNeutral = true := by
  obtain ⟨ht, -⟩ := fillFinish_trace h
  have hb : r.state.mFirstBuffer = st.mFirstBuffer ∧
      r.state.mInputBuffer = st.mInputBuffer ∧
      r.state.mIsFirstBuffer = st.mIsFirstBuffer := by
    simp only [fillFinish, State.log] at h
    split_ifs at h <;> cases h <;> exact ⟨rfl, rfl, rfl⟩
  refine ⟨hb.1, hb.2.1, hb.2.2, _, ht, ?_⟩
  intro e he
  cases hpe : l.postEOS <;> cases hpc : l.postSeekComplete <;> simp [hpe, hpc] at he
  · subst he; rfl
  · subst he; rfl
  · rcases he with rfl | rfl <;> rfl

/-- A call of `fillBuffer` keeps the discipline of the buffers. -/
theorem fillBuffer_hold {fuel : Nat} {st : State} {out : Output} {size : Nat} {now : Int}
    {r : FillResult} (h : fillBuffer fuel st out size now = .ok r) (hf : FirstInv st) :
    FirstInv r.state ∧ ∃ d, r.state.trace = st.trace ++ d ∧ HoldStep st r.state d := by
  simp only [fillBuffer] at h
  split_ifs at h
  · cases h
    exact ⟨hf, [], (List.append_nil _).symm, holdStep_refl st⟩
  split at h
  · cases h
  rename_i st1 l1 hl
  have key := fillLoop_induct
    (fun s _ d => FirstInv s ∧ HoldStep st s d)
    (fun s _ d => FirstInv s ∧ HoldStep st s d)
    ?_ fuel [] ⟨hf, holdStep_refl st⟩ hl
  · have hfin : FirstInv st1 ∧ ∃ d, st1.trace = st.trace ++ d ∧ HoldStep st st1 d := by
      obtain ⟨d, hd, ⟨-, hR⟩ | hB⟩ := key
      · exact ⟨hR.1, d, hd, by simpa using hR.2⟩
      · exact ⟨hB.1, d, hd, by simpa using hB.2⟩
    obtain ⟨hf1, d, hd, hh⟩ := hfin
    obtain ⟨b1, b2, b3, d2, hd2, hn2⟩ := fillFinish_hold h
    refine ⟨?_, d ++ d2, by rw [hd2, hd, List.append_assoc],
      holdStep_trans hh (holdStep_same hn2 b1 b2)⟩
    intro hsome
    rw [b1] at hsome
    rw [b2, b3]
    exact hf1 hsome
  · intro s1 l1 d s2 l2 c hR _ hb
    obtain ⟨hf2, d2, ht, hh⟩ := loopBody_hold hb hR.1
    exact ⟨d2, ht, fun _ => ⟨hf2, holdStep_trans hR.2 hh⟩,
      fun _ => ⟨hf2, holdStep_trans hR.2 hh⟩⟩

theorem startOutput_hold {st st' : State} {out : Output} {format : MetaData} {b : Bool}
    {s : status_t} (h : startOutput st out format b = .ok (st', s))
    (hin : st.mInputBuffer = none) :
    st'.mInputBuffer = none ∧ st'.mIsFirstBuffer = st.mIsFirstBuffer ∧
    (st'.mFirstBuffer.isSome = true → st'.mFirstBuffer = st.mFirstBuffer) ∧
    ∃ d, st'.trace = st.trace ++ d ∧ HoldStep st st' d := by
  cases b
  all_goals
    simp only [startOutput, startCleanup, releaseFirstBuffer, State.log, Bool.false_eq_true,
      if_false, if_true] at h
    repeat' split at h
    all_goals cases h
    all_goals refine ⟨hin, rfl, ?_, ?_⟩
    all_goals first
      | (intro _; rfl)
      | (intro hx; cases hx)
      | (apply Exists.intro
         constructor
         · first
           | exact (List.append_nil _).symm
           | rfl
           | (simp only [List.append_assoc]; rfl)
         · cases hfst : st.mFirstBuffer <;>
             simp [HoldStep, heldBuffers, holdAfter, hfst, hin])

theorem startRead_hold {st st' : State} {source : MediaSource} {out : Output} {b : Bool}
    {s : status_t} (h : startRead st source out b = .ok (st', s))
    (hin : st.mInputBuffer = none) :
    st'.mInputBuffer = none ∧ FirstInv st' ∧
    ∃ d, st'.trace = st.trace ++ d ∧ HoldStep st st' d := by
  simp only [startRead, State.log] at h
  split_ifs at h with h0 hsk hfc hbuf hfc hbuf
  all_goals
    have h1 : st.mFirstBuffer = none := by
      cases h1 : st.mFirstBuffer with
      | none => rfl
      | some x => simp [h1] at h0
    obtain ⟨a1, a2, a3, d, hd, hh⟩ := startOutput_hold h hin
    simp only at a2 a3 hd
    refine ⟨a1, ?_, _, hd.trans (List.append_assoc _ _ _), ?_⟩
    · intro hsome
      have hfb := a3 hsome
      rw [hfb] at hsome
      refine ⟨?_, a1⟩
      first
        | exact a2
        | exact absurd hsome hbuf
    · refine holdAfter_trans ?_ hh
      simp only [heldBuffers, h1, hin, holdAfter]
      rfl

/-- A call of `start` keeps the discipline of the buffers. -/
theorem start_hold {st st' : State} {out : Output} {b : Bool} {s : status_t}
    (h : start st out b = .ok (st', s)) (hinv : BufferInv st) :
    BufferInv st' ∧ ∃ d, st'.trace = st.trace ++ d ∧ HoldStep st st' d := by
  simp only [start, State.log] at h
  split at h
  · cases h
  rename_i hst
  have hin : st.mInputBuffer = none := hinv.idle (by simpa using hst)
  split at h
  · cases h
  split_ifs at h
  · obtain ⟨a1, a2, d, hd, hh⟩ := startRead_hold h hin
    exact ⟨⟨a2, fun _ => a1⟩, d, hd, hh⟩
  · cases h
    refine ⟨⟨hinv.first, fun _ => hin⟩, [.sourceStart], rfl, ?_⟩
    exact holdStep_same (fun e he => by rw [List.mem_singleton.mp he]; rfl) rfl rfl
  · obtain ⟨a1, a2, d, hd, hh⟩ := startRead_hold h hin
    simp only at hd
    refine ⟨⟨a2, fun _ => a1⟩, [.sourceStart] ++ d, by rw [hd, List.append_assoc], ?_⟩
    exact holdStep_trans
      (holdStep_same (b := { st with trace := st.trace ++ [.sourceStart] })
        (fun e he => by rw [List.mem_singleton.mp he]; rfl) rfl rfl) hh

/-- A call of `reset` releases what is held. -/
theorem reset_hold {st st' : State} {now : Int} (h : reset st now = .ok st')
    (hf : FirstInv st) :
    BufferInv st' ∧ ∃ d, st'.trace = st.trace ++ d ∧ HoldStep st st' d := by
  simp only [reset, releaseInputBuffer, releaseFirstBuffer, State.log] at h
  split_ifs at h
  all_goals
    cases h
    refine ⟨⟨fun hx => (by cases hx), fun _ => rfl⟩, _,
      (by simp only [List.append_assoc]; rfl), ?_⟩
    cases h1 : st.mFirstBuffer with
    | none =>
      cases h2 : st.mInputBuffer <;> simp [HoldStep, heldBuffers, holdAfter, h1, h2]
    | some x =>
      have := (hf (by simp [h1])).2
      simp [HoldStep, heldBuffers, holdAfter, h1, this]

/-- One call keeps the discipline of the buffers, `fillBuffer` being called on
a started player. -/
theorem step_hold {st st' : State} {op : Op} (h : step st op = .ok st')
    (hinv : BufferInv st) (hfill : op.isFill = true → st.mStarted = true) :
    BufferInv st' ∧ ∃ d, st'.trace = st.trace ++ d ∧ HoldStep st st' d := by
  cases op with
  | setSource source =>
    simp only [step, setSource] at h
    split_ifs at h
    cases h
    exact ⟨⟨hinv.first, hinv.idle⟩, [], (List.append_nil _).symm, holdStep_refl st⟩
  | start out b =>
    simp only [step] at h
    cases hst : start st out b with
    | error f => rw [hst] at h; cases h
    | ok p =>
      obtain ⟨s1, r⟩ := p
      rw [hst] at h
      cases h
      exact start_hold hst hinv
  | pause b now =>
    simp only [step, pause, State.log] at h
    split_ifs at h <;> cases h
    · exact ⟨⟨hinv.first, hinv.idle⟩, [.outputStop], rfl,
        holdStep_same (fun e he => by rw [List.mem_singleton.mp he]; rfl) rfl rfl⟩
    · exact ⟨⟨hinv.first, hinv.idle⟩, [.outputPause], rfl,
        holdStep_same (fun e he => by rw [List.mem_singleton.mp he]; rfl) rfl rfl⟩
  | resume =>
    simp only [step, resume, State.log] at h
    split_ifs at h
    cases h
    exact ⟨⟨hinv.first, hinv.idle⟩, [.outputStart], rfl,
      holdStep_same (fun e he => by rw [List.mem_singleton.mp he]; rfl) rfl rfl⟩
  | reset now => exact reset_hold h hinv.first
  | seekTo t now =>
    simp only [step, seekTo, State.log] at h
    split_ifs at h
    · cases h
    all_goals
      simp only [Except.map, Except.ok.injEq] at h
      subst h
      exact ⟨⟨hinv.first, hinv.idle⟩, [.outputFlush], rfl,
        holdStep_same (fun e he => by rw [List.mem_singleton.mp he]; rfl) rfl rfl⟩
  | fillBuffer fuel out size now =>
    simp only [step] at h
    cases hfb : fillBuffer fuel st out size now with
    | error f => rw [hfb] at h; cases h
    | ok r =>
      rw [hfb] at h
      cases h
      obtain ⟨a1, d, hd, hh⟩ := fillBuffer_hold hfb hinv.first
      have hst : r.state.mStarted = true := (fillBuffer_config hfb).1.trans (hfill rfl)
      exact ⟨⟨a1, fun hx => by rw [hst] at hx; cases hx⟩, d, hd, hh⟩

theorem run_hold {st st' : State} {ops : List Op} (h : run st ops = .ok st')
    (hinv : BufferInv st) (hfill : FillsWhenStarted st ops) :
    BufferInv st' ∧ ∃ d, st'.trace = st.trace ++ d ∧ HoldStep st st' d := by
  induction ops generalizing st with
  | nil => cases h; exact ⟨hinv, [], (List.append_nil _).symm, holdStep_refl _⟩
  | cons op ops ih =>
    simp only [run] at h
    simp only [FillsWhenStarted] at hfill
    cases hstep : step st op with
    | error f => rw [hstep] at h; cases h
    | ok s1 =>
      rw [hstep] at h hfill
      obtain ⟨a1, d, hd, hh⟩ := step_hold hstep hinv hfill.1
      obtain ⟨b1, d2, hd2, hh2⟩ := ih h a1 hfill.2
      exact ⟨b1, d ++ d2, by rw [hd2, hd, List.append_assoc], holdStep_trans hh hh2⟩

theorem isNew_buffers {st : State} (h : IsNew st) :
    BufferInv st ∧ st.trace = [] ∧ heldBuffers st = 0 := by
  rcases h with ⟨a, b, c, n, s, rfl⟩ | ⟨a, b, c, n, s, rfl⟩ <;>
    exact ⟨⟨fun hx => (by cases hx), fun _ => rfl⟩, rfl, rfl⟩

/-- C23: in every state reached from a constructor by calls of `setSource`,
`start`, `fillBuffer`, `seekTo`, `pause`, `resume` and `reset`, `fillBuffer`
being called on a started player only (it is private, and called from the
callback of the output), at most one of the stashed first buffer and the
input buffer is held; along the calls made so far, the source was read only
when no buffer was held, and a buffer was released only when it was the one
held; so the buffers handed out by the source are those released (once each,
before the next read) and the one still held, if any. -/
theorem buffers_discipline (st0 st : State) (ops : List Op) (hnew : IsNew st0)
    (hfill : FillsWhenStarted st0 ops) (h : run st0 ops = .ok st) :
    heldBuffers st ≤ 1 ∧ holdAfter 0 st.trace = some (heldBuffers st) ∧
    st.trace.countP Event.isObtain = st.trace.countP Event.isRelease + heldBuffers st := by
  obtain ⟨hinv, ht, h0⟩ := isNew_buffers hnew
  obtain ⟨-, d, hd, hh⟩ := run_hold h hinv hfill
  unfold HoldStep at hh
  rw [h0] at hh
  rw [ht, List.nil_append] at hd
  rw [hd]
  refine ⟨holdAfter_le_one hh (by decide), hh, ?_⟩
  have := holdAfter_count hh
  omega

theorem buffers_discipline_witness :
    IsNew (construct true false true 0 0) ∧
    FillsWhenStarted (construct true false true 0 0)
      [.setSource exSource, .start exOutput false, .fillBuffer 8 exOutput 3 5] ∧
    run (construct true false true 0 0)
      [.setSource exSource, .start exOutput false, .fillBuffer 8 exOutput 3 5] = .ok exPlayed ∧
    heldBuffers exPlayed ≤ 1 ∧ holdAfter 0 exPlayed.trace = some (heldBuffers exPlayed) ∧
    exPlayed.trace.countP Event.isObtain =
      exPlayed.trace.countP Event.isRelease + heldBuffers exPlayed :=
  ⟨Or.inl ⟨_, _, _, _, _, rfl⟩,
    ⟨fun hx => (by cases hx), fun hx => (by cases hx), fun _ => rfl, trivial⟩, rfl,
    buffers_discipline (construct true false true 0 0) exPlayed
      [.setSource exSource, .start exOutput false, .fillBuffer 8 exOutput 3 5]
      (Or.inl ⟨_, _, _, _, _, rfl⟩)
      ⟨fun hx => (by cases hx), fun hx => (by cases hx), fun _ => rfl, trivial⟩ rfl⟩

/-! ### The stream across buffers and calls -/

theorem payload_length {b : MediaBuffer} (h : b.InBounds) :
    b.payload.length = b.range_length := by
  unfold MediaBuffer.InBounds at h
  simp only [MediaBuffer.payload, List.length_take, List.length_drop]
  omega

theorem payload_empty {b : MediaBuffer} (h : b.range_length = 0) : b.payload = [] := by
  simp [MediaBuffer.payload, h]

theorem payloads_drop_of_none {bufs : List MediaBuffer} {n : Nat} (h : bufs[n]? = none) :
    bufs.drop n = [] := by
  rw [List.getElem?_eq_none_iff] at h
  exact List.drop_eq_nil_of_le h

theorem payloads_drop_of_some {bufs : List MediaBuffer} {n : Nat} {b : MediaBuffer}
    (h : bufs[n]? = some b) :
    payloads (bufs.drop n) = b.payload ++ payloads (bufs.drop (n + 1)) ∧ n < bufs.length := by
  obtain ⟨hlt, hb⟩ := List.getElem?_eq_some_iff.mp h
  rw [List.drop_eq_getElem_cons hlt, hb]
  exact ⟨rfl, hlt⟩

theorem mem_of_getElem?_some {bufs : List MediaBuffer} {n : Nat} {b : MediaBuffer}
    (h : bufs[n]? = some b) : b ∈ bufs := by
  obtain ⟨hlt, hb⟩ := List.getElem?_eq_some_iff.mp h
  rw [← hb]
  exact List.getElem_mem _

theorem consume_copy (st : State) (l : Locals) {b : MediaBuffer} (h : b.range_length ≠ 0) :
    consume st l b =
      ({ st.log [.memcpy b (min l.size_remaining b.range_length)] with
          mInputBuffer := some { b with
            range_offset := b.range_offset + min l.size_remaining b.range_length
            range_length := b.range_length - min l.size_remaining b.range_length } },
       { l with
          data := l.data ++
            (b.data.drop b.range_offset).take (min l.size_remaining b.range_length)
          size_done := l.size_done + min l.size_remaining b.range_length
          size_remaining := l.size_remaining - min l.size_remaining b.range_length }) := by
  have hk : (if l.size_remaining > b.range_length then b.range_length else l.size_remaining) =
      min l.size_remaining b.range_length := by
    split_ifs <;> omega
  simp only [consume, if_neg h, hk]

/-- What one `consume` delivers of the bytes to come. -/
theorem consume_stream {source : MediaSource} {bufs : List MediaBuffer} {st : State}
    (l : Locals) {b : MediaBuffer} (hin : st.mInputBuffer = some b)
    (hst : Streaming source bufs st) :
    Streaming source bufs (consume st l b).1 ∧
    ∃ k, k ≤ l.size_remaining ∧ k ≤ (upcoming bufs st).length ∧
      (consume st l b).2.data = l.data ++ (upcoming bufs st).take k ∧
      upcoming bufs (consume st l b).1 = (upcoming bufs st).drop k ∧
      (consume st l b).2.size_done = l.size_done + k ∧
      (consume st l b).2.size_remaining = l.size_remaining - k ∧
      ((consume st l b).2.size_remaining ≠ 0 →
        passBound bufs (consume st l b).1 < passBound bufs st) := by
  have hib := hst.input b hin
  have hlen := payload_length hib
  have hup0 : upcoming bufs st = b.payload ++
      ((if st.mIsFirstBuffer then heldPayload st.mFirstBuffer else []) ++
        payloads (bufs.drop st.reads.length)) := by
    simp only [upcoming, hin, heldPayload]
  by_cases h0 : b.range_length = 0
  · rw [consume_empty st l h0]
    have hup : upcoming bufs ({ st.log [.bufferRelease b] with mInputBuffer := none }) =
        upcoming bufs st := by
      rw [hup0, payload_empty h0]
      rfl
    refine ⟨⟨hst.noSeek, hst.reads, fun b hb => (by cases hb), hst.first, ?_⟩,
      0, Nat.zero_le _, Nat.zero_le _, (by simp), hup, rfl, rfl, ?_⟩
    · intro he
      exact hup.trans (hst.eos he)
    · intro _
      simp only [passBound, State.log, hin, h0, if_true]
      omega
  · rw [consume_copy st l h0]
    have hkl : min l.size_remaining b.range_length ≤ b.payload.length := by
      rw [hlen]; exact Nat.min_le_right _ _
    have hup : upcoming bufs ({ st.log [.memcpy b (min l.size_remaining b.range_length)] with
          mInputBuffer := some { b with
            range_offset := b.range_offset + min l.size_remaining b.range_length
            range_length := b.range_length - min l.size_remaining b.range_length } }) =
        (upcoming bufs st).drop (min l.size_remaining b.range_length) := by
      rw [hup0, List.drop_append_of_le_length hkl]
      simp only [upcoming, State.log, heldPayload, MediaBuffer.payload]
      congr 1
      rw [List.drop_take, List.drop_drop]
    refine ⟨⟨hst.noSeek, hst.reads, ?_, hst.first, ?_⟩,
      min l.size_remaining b.range_length, Nat.min_le_left _ _, ?_, ?_, hup, rfl, rfl, ?_⟩
    · intro b2 hb2
      simp only [State.log, Option.some.injEq] at hb2
      subst hb2
      unfold MediaBuffer.InBounds at hib ⊢
      simp only
      omega
    · intro he
      rw [hup, hst.eos he, List.drop_nil]
    · rw [hup0, List.length_append]; omega
    · rw [hup0, List.take_append_of_le_length hkl]
      simp only [MediaBuffer.payload, List.take_take]
      congr 2
      omega
    · intro hrem
      simp only at hrem
      simp only [passBound, State.log, hin]
      have : b.range_length - min l.size_remaining b.range_length = 0 := by omega
      simp only [this, if_true, if_neg h0]
      omega

theorem Streaming.of_same {source : MediaSource} {bufs : List MediaBuffer} {a b : State}
    (h : Streaming source bufs a)
    (h1 : b.mInputBuffer = a.mInputBuffer) (h2 : b.mIsFirstBuffer = a.mIsFirstBuffer)
    (h3 : b.mFirstBuffer = a.mFirstBuffer) (h4 : b.reads = a.reads)
    (h5 : b.mSeeking = false)
    (h6 : b.mReachedEOS = true → a.mReachedEOS = true ∨ upcoming bufs a = []) :
    Streaming source bufs b ∧ upcoming bufs b = upcoming bufs a ∧
    passBound bufs b = passBound bufs a := by
  have hup : upcoming bufs b = upcoming bufs a := by
    simp only [upcoming, h1, h2, h3, h4]
  refine ⟨⟨h5, ?_, ?_, ?_, ?_⟩, hup, ?_⟩
  · rw [h4]; exact h.reads
  · intro x hx; rw [h1] at hx; exact h.input x hx
  · intro hx; rw [h2] at hx; rw [h3, h4]; exact h.first hx
  · intro hx
    rw [hup]
    rcases h6 hx with h7 | h7
    · exact h.eos h7
    · exact h7
  · simp only [passBound, h1, h2, h4]

theorem readSuccess_stream {st st3 : State} {out : Output} {l : Locals} {b : MediaBuffer}
    (h : readSuccess st out l b = .ok st3) :
    st3.mInputBuffer = st.mInputBuffer ∧ st3.mIsFirstBuffer = st.mIsFirstBuffer ∧
    st3.mFirstBuffer = st.mFirstBuffer ∧ st3.reads = st.reads ∧
    (st.mSeeking = false → st3.mSeeking = false) ∧ st3.mReachedEOS = st.mReachedEOS := by
  simp only [readSuccess, State.log] at h
  split_ifs at h <;> cases h <;> first
    | exact ⟨rfl, rfl, rfl, rfl, fun hx => hx, rfl⟩
    | exact ⟨rfl, rfl, rfl, rfl, fun _ => rfl, rfl⟩

theorem readError_stream {st st3 : State} {out : Output} {l l3 : Locals} {err : status_t}
    (h : readError st out l err = .ok (st3, l3)) :
    st3.mInputBuffer = st.mInputBuffer ∧ st3.mIsFirstBuffer = st.mIsFirstBuffer ∧
    st3.mFirstBuffer = st.mFirstBuffer ∧ st3.reads = st.reads ∧
    st3.mSeeking = st.mSeeking ∧ l3.data = l.data ∧ l3.size_done = l.size_done ∧
    l3.size_remaining = l.size_remaining := by
  unfold readError at h
  repeat' split at h
  all_goals cases h
  all_goals exact ⟨rfl, rfl, rfl, rfl, rfl, rfl, rfl, rfl⟩

theorem replicate_none_snoc (n : Nat) :
    List.replicate n (none : Option Int) ++ [none] = List.replicate (n + 1) none := by
  rw [List.replicate_succ']

/-- What `obtainBuffer` does in the middle of a stream: the bytes to come are
the same, now headed by those of the input buffer. -/
theorem obtainBuffer_stream {source : MediaSource} {bufs : List MediaBuffer} {st : State}
    (hs : Session st source) (hy : source.Yields bufs) (hb : ∀ b ∈ bufs, b.InBounds)
    (hst : Streaming source bufs st) (hin : st.mInputBuffer = none) :
    ∃ st2 err, obtainBuffer st none = .ok (st2, err) ∧ Session st2 source ∧
      Streaming source bufs st2 ∧ (ReadResult.mk err st2.mInputBuffer).WellFormed ∧
      upcoming bufs st2 = upcoming bufs st ∧ passBound bufs st2 ≤ passBound bufs st ∧
      (st2.mInputBuffer = none → upcoming bufs st = []) := by
  obtain ⟨st2, err, ho, hc, hwf, hf2, hsk, hcase⟩ := obtainBuffer_ok hs none
  have hs2 : Session st2 source := hs.of_config hc (fun h => by rw [hf2] at h; cases h)
  refine ⟨st2, err, ho, hs2, ?_⟩
  rcases Bool.eq_false_or_eq_true st.mIsFirstBuffer with hfb | hfb
  · -- the stashed first buffer
    unfold obtainBuffer at ho
    rw [if_pos hfb] at ho
    simp only [Except.ok.injEq, Prod.mk.injEq] at ho
    obtain ⟨rfl, rfl⟩ := ho
    obtain ⟨hne, hfirst⟩ := hst.first hfb
    obtain ⟨m, hm⟩ : ∃ m, st.reads.length = m + 1 := by
      cases hr : st.reads with
      | nil => exact absurd hr hne
      | cons a t => exact ⟨t.length, rfl⟩
    have hrd := hst.reads
    rw [hm] at hrd
    rw [hrd, hy m] at hfirst
    have hup : upcoming bufs
        ({ st.log [.firstBufferTaken st.mFirstBufferResult st.mFirstBuffer] with
            mInputBuffer := st.mFirstBuffer
            mFirstBuffer := none
            mIsFirstBuffer := false }) = upcoming bufs st := by
      simp only [upcoming, State.log, hin, hfb, heldPayload, if_true, Bool.false_eq_true,
        if_false, List.nil_append, List.append_assoc]
    refine ⟨⟨hst.noSeek, hst.reads, ?_, fun h => (by cases h), ?_⟩, hwf, hup, ?_, ?_⟩
    · intro b hb2
      simp only [State.log] at hb2
      rw [hfirst] at hb2
      exact hb b (mem_of_getElem?_some hb2)
    · intro he
      exact hup.trans (hst.eos he)
    · simp only [passBound, State.log, hin, hfb, if_true, Bool.false_eq_true, if_false]
      split <;> (try split) <;> omega
    · intro hnone
      simp only [State.log] at hnone
      rw [hnone] at hfirst
      have h1 := payloads_drop_of_none hfirst.symm
      have h2 : bufs.drop st.reads.length = [] := by
        rw [hm]
        apply List.drop_eq_nil_of_le
        have := List.drop_eq_nil_iff.mp h1
        omega
      simp only [upcoming, hin, hfb, hnone, heldPayload, if_true, h2, payloads,
        List.append_nil]
  · -- a read of the source
    unfold obtainBuffer at ho
    rw [if_neg (by rw [hfb]; decide)] at ho
    simp only [hs.hasSource, Except.ok.injEq, Prod.mk.injEq] at ho
    obtain ⟨rfl, rfl⟩ := ho
    have hrd : st.reads ++ [none] = List.replicate (st.reads.length + 1) none := by
      conv_lhs => rw [hst.reads]
      exact replicate_none_snoc _
    have hbuf : (source.read (st.reads ++ [none])).buffer = bufs[st.reads.length]? := by
      rw [hrd]; exact hy _
    have hlen : (st.reads ++ [none]).length = st.reads.length + 1 := by simp
    have hup0 : upcoming bufs st = payloads (bufs.drop st.reads.length) := by
      simp only [upcoming, hin, hfb, heldPayload, Bool.false_eq_true, if_false,
        List.nil_append]
    have hup1 : upcoming bufs
        ({ st.log [.sourceRead none (source.read (st.reads ++ [none])).err
              (source.read (st.reads ++ [none])).buffer] with
            mInputBuffer := (source.read (st.reads ++ [none])).buffer
            reads := st.reads ++ [none] }) =
          heldPayload bufs[st.reads.length]? ++ payloads (bufs.drop (st.reads.length + 1)) := by
      simp only [upcoming, State.log, hfb, hbuf, hlen, Bool.false_eq_true, if_false,
        List.nil_append]
    cases hg : bufs[st.reads.length]? with
    | none =>
      have h1 := payloads_drop_of_none hg
      have h2 : bufs.drop (st.reads.length + 1) = [] := by
        apply List.drop_eq_nil_of_le
        have := List.drop_eq_nil_iff.mp h1
        omega
      have hup : upcoming bufs
          ({ st.log [.sourceRead none (source.read (st.reads ++ [none])).err
                (source.read (st.reads ++ [none])).buffer] with
              mInputBuffer := (source.read (st.reads ++ [none])).buffer
              reads := st.reads ++ [none] }) = upcoming bufs st := by
        rw [hup1, hup0, hg, h1, h2]; rfl
      refine ⟨⟨hst.noSeek, ?_, ?_, ?_, ?_⟩, hwf, hup, ?_, ?_⟩
      · simp only [State.log]; rw [hlen]; exact hrd
      · intro b hb2
        simp only [State.log] at hb2
        rw [hbuf, hg] at hb2; cases hb2
      · intro h; simp only [State.log] at h; rw [hfb] at h; cases h
      · intro he; exact hup.trans (hst.eos he)
      · simp only [passBound, State.log, hin, hfb, hbuf, hg, hlen]
        omega
      · intro _
        rw [hup0, h1]; rfl
    | some b =>
      obtain ⟨h1, hlt⟩ := payloads_drop_of_some hg
      have hup : upcoming bufs
          ({ st.log [.sourceRead none (source.read (st.reads ++ [none])).err
                (source.read (st.reads ++ [none])).buffer] with
              mInputBuffer := (source.read (st.reads ++ [none])).buffer
              reads := st.reads ++ [none] }) = upcoming bufs st := by
        rw [hup1, hup0, hg, h1]; rfl
      refine ⟨⟨hst.noSeek, ?_, ?_, ?_, ?_⟩, hwf, hup, ?_, ?_⟩
      · simp only [State.log]; rw [hlen]; exact hrd
      · intro b2 hb2
        simp only [State.log] at hb2
        rw [hbuf, hg] at hb2
        cases hb2
        exact hb b (mem_of_getElem?_some hg)
      · intro h; simp only [State.log] at h; rw [hfb] at h; cases h
      · intro he; exact hup.trans (hst.eos he)
      · simp only [passBound, State.log, hin, hfb, hbuf, hg, hlen, Bool.false_eq_true,
          if_false]
        split <;> omega
      · intro hnone
        simp only [State.log] at hnone
        rw [hbuf, hg] at hnone; cases hnone

theorem consume_session {st : State} {source : MediaSource} (hs : Session st source)
    (l : Locals) (b : MediaBuffer) : Session (consume st l b).1 source := by
  obtain ⟨h1, h2, -⟩ := consume_buffers st l b
  exact hs.of_config (consume_config st l b) (fun h => ⟨h1 ▸ h, h2⟩)

/-- One pass of the loop in the middle of a stream: it returns, and it
delivers the next `k` bytes to come, for some `k` up to the room left; when
it ends with `break` nothing was left to come. -/
theorem loopBody_stream (out : Output) {source : MediaSource} {bufs : List MediaBuffer}
    {st : State} (hs : Session st source) (hy : source.Yields bufs)
    (hb : ∀ b ∈ bufs, b.InBounds) (hst : Streaming source bufs st) (l : Locals) :
    ∃ st1 l1 c, loopBody out st l = .ok (st1, l1, c) ∧ Session st1 source ∧
      Streaming source bufs st1 ∧
      ∃ k, k ≤ l.size_remaining ∧ k ≤ (upcoming bufs st).length ∧
        l1.data = l.data ++ (upcoming bufs st).take k ∧
        upcoming bufs st1 = (upcoming bufs st).drop k ∧
        l1.size_done = l.size_done + k ∧
        l1.size_remaining = l.size_remaining - k ∧
        (c = true → l1.size_remaining ≠ 0 → passBound bufs st1 < passBound bufs st) ∧
        (c = false → upcoming bufs st = []) := by
  rw [loopBody_idle l hst.noSeek]
  cases hin : st.mInputBuffer with
  | some b =>
    rw [loopTail_held hin]
    obtain ⟨a1, k, a2, a3, a4, a5, a6, a7, a8⟩ := consume_stream l hin hst
    exact ⟨_, _, _, rfl, consume_session hs l b, a1, k, a2, a3, a4, a5, a6, a7,
      fun _ => a8, fun h => by cases h⟩
  | none =>
    obtain ⟨st2, err, ho, hs2, hst2, hwf, hup2, hpb2, hnone⟩ :=
      obtainBuffer_stream hs hy hb hst hin
    cases hin2 : st2.mInputBuffer with
    | none =>
      rw [hin2] at hwf
      have herr : err ≠ OK := hwf
      obtain ⟨st3, l3, hre⟩ := readError_ok st2 out l err hs2.output hs2.eosOutput
        hs2.frameSize hs2.sampleRate
      rw [loopTail_fail hin ho hin2 herr hre]
      obtain ⟨b1, b2, b3, b4, b5, b6, b7, b8⟩ := readError_stream hre
      have hnil := hnone hin2
      obtain ⟨c1, c2, -⟩ := hst2.of_same b1 b2 b3 b4 (b5.trans hst2.noSeek)
        (fun _ => Or.inr (hup2.trans hnil))
      have hs3 : Session st3 source :=
        hs2.of_config (readError_config hre) (fun h => ⟨b2 ▸ h, b3⟩)
      refine ⟨_, _, _, rfl, hs3, c1, 0, Nat.zero_le _, Nat.zero_le _, ?_, ?_, b7, b8,
        fun h => (by cases h), fun _ => hnil⟩
      · rw [b6, hnil]; simp
      · rw [c2, hup2, hnil]; rfl
    | some b =>
      rw [hin2] at hwf
      obtain ⟨herr, hkt⟩ : err = OK ∧ (b.range_length ≠ 0 → b.kKeyTime.isSome = true) := hwf
      obtain ⟨st3, hrs⟩ := readSuccess_ok st2 out l b hs2.output hs2.frameSize
        hs2.sampleRate hkt
      rw [loopTail_read hin ho hin2 herr hrs]
      obtain ⟨b1, b2, b3, b4, b5, b6⟩ := readSuccess_stream hrs
      obtain ⟨c1, c2, c3⟩ := hst2.of_same b1 b2 b3 b4 (b5 hst2.noSeek)
        (fun h => Or.inl (b6 ▸ h))
      have hs3 : Session st3 source :=
        hs2.of_config (readSuccess_config hrs) (fun h => ⟨b2 ▸ h, b3⟩)
      obtain ⟨a1, k, a2, a3, a4, a5, a6, a7, a8⟩ :=
        consume_stream l (b1.trans hin2) c1
      rw [c2, hup2] at a3 a4 a5
      refine ⟨_, _, _, rfl, consume_session hs3 l b, a1, k, a2, a3, a4, a5, a6, a7,
        fun _ h => ?_, fun h => by cases h⟩
      have := a8 h
      omega

theorem fillLoop_done (out : Output) (fuel : Nat) (st : State) {l : Locals}
    (h : l.size_remaining = 0) : fillLoop out fuel st l = .ok (st, l) := by
  cases fuel <;> simp only [fillLoop, if_pos h]

/-- The loop of `fillBuffer` in the middle of a stream, with `passBound`
passes allowed: it returns, having delivered the next bytes to come, as many
as there is room for or as are left. -/
theorem fillLoop_stream (out : Output) {source : MediaSource} {bufs : List MediaBuffer}
    (hy : source.Yields bufs) (hb : ∀ b ∈ bufs, b.InBounds) (fuel : Nat) :
    ∀ (st : State) (l : Locals), Session st source → Streaming source bufs st →
      passBound bufs st ≤ fuel →
      ∃ st' l', fillLoop out fuel st l = .ok (st', l') ∧ Session st' source ∧
        Streaming source bufs st' ∧
        l'.data = l.data ++ (upcoming bufs st).take l.size_remaining ∧
        l'.size_done = l.size_done + min l.size_remaining (upcoming bufs st).length ∧
        upcoming bufs st' = (upcoming bufs st).drop l.size_remaining := by
  induction fuel with
  | zero =>
    intro st l _ _ hpb
    simp only [passBound] at hpb
    omega
  | succ n ih =>
    intro st l hs hst hpb
    by_cases hrem : l.size_remaining = 0
    · rw [fillLoop_done out _ st hrem]
      exact ⟨_, _, rfl, hs, hst, by rw [hrem]; simp, by rw [hrem]; simp, by rw [hrem]; rfl⟩
    · obtain ⟨st1, l1, c, hbody, hs1, hst1, k, k1, k2, k3, k4, k5, k6, k7, k8⟩ :=
        loopBody_stream out hs hy hb hst l
      cases c with
      | false =>
        rw [fillLoop_break n hrem hbody]
        have hnil := k8 rfl
        rw [hnil] at k2 k3 k4 ⊢
        refine ⟨_, _, rfl, hs1, hst1, ?_, ?_, ?_⟩
        · rw [k3]; simp
        · rw [k5]
          simp only [List.length_nil] at k2 ⊢
          omega
        · rw [k4]; simp
      | true =>
        rw [fillLoop_step n hrem hbody]
        by_cases hrem1 : l1.size_remaining = 0
        · rw [fillLoop_done out _ st1 hrem1]
          have hk : k = l.size_remaining := by omega
          subst hk
          refine ⟨_, _, rfl, hs1, hst1, k3, ?_, k4⟩
          rw [k5]; omega
        · have hlt := k7 rfl hrem1
          obtain ⟨st', l', hl, hs', hst', d1, d2, d3⟩ := ih st1 l1 hs1 hst1 (by omega)
          refine ⟨st', l', hl, hs', hst', ?_, ?_, ?_⟩
          · rw [d1, k3, k4, k6, List.append_assoc, ← List.take_add]
            congr 2
            omega
          · rw [d2, k5, k6, k4, List.length_drop]
            omega
          · rw [d3, k4, k6, List.drop_drop]
            congr 1
            omega

theorem passBound_le (bufs : List MediaBuffer) (st : State) :
    passBound bufs st ≤ 2 * bufs.length + 5 := by
  unfold passBound
  split <;> split <;> (try split) <;> omega

theorem fillFinish_stream {st : State} {l : Locals} {now : Int} {r : FillResult}
    (h : fillFinish st l now = .ok r) :
    r.state.mInputBuffer = st.mInputBuffer ∧ r.state.mIsFirstBuffer = st.mIsFirstBuffer ∧
    r.state.mFirstBuffer = st.mFirstBuffer ∧ r.state.reads = st.reads ∧
    r.state.mSeeking = st.mSeeking ∧ r.state.mReachedEOS = st.mReachedEOS ∧
    r.state.mFirstBufferResult = st.mFirstBufferResult ∧
    r.size_done = l.size_done ∧ r.data = l.data := by
  simp only [fillFinish, State.log] at h
  split_ifs at h <;> cases h <;> exact ⟨rfl, rfl, rfl, rfl, rfl, rfl, rfl, rfl, rfl⟩

theorem fillFinish_session {st : State} {source : MediaSource} {l : Locals} {now : Int}
    {r : FillResult} (hs : Session st source) (h : fillFinish st l now = .ok r) :
    Session r.state source := by
  obtain ⟨a1, a2, -, a4, a5, a6, a7, a8, a9⟩ := fillFinish_config h
  obtain ⟨-, b2, b3, -, -, -, b7, -, -⟩ := fillFinish_stream h
  exact
    { started := a1.trans hs.started
      hasSource := a9.trans hs.hasSource
      wellFormed := hs.wellFormed
      output := by rw [a5, a6]; exact hs.output
      eosOutput := by rw [a5, a7, a8]; exact hs.eosOutput
      frameSize := by rw [a4]; exact hs.frameSize
      sampleRate := by rw [a2]; exact hs.sampleRate
      firstBuffer := by rw [b2, b3, b7]; exact hs.firstBuffer }

/-- A call of `fillBuffer` in the middle of a stream, with enough passes
allowed: it returns the next `size` bytes to come, or what is left of them. -/
theorem fillBuffer_stream {source : MediaSource} {bufs : List MediaBuffer}
    (hy : source.Yields bufs) (hb : ∀ b ∈ bufs, b.InBounds) {st : State}
    (hs : Session st source) (hst : Streaming source bufs st)
    (fuel : Nat) (out : Output) (size : Nat) (now : Int)
    (hfuel : 2 * bufs.length + 5 ≤ fuel) :
    ∃ r, fillBuffer fuel st out size now = .ok r ∧ Session r.state source ∧
      Streaming source bufs r.state ∧
      r.data = (upcoming bufs st).take size ∧
      r.size_done = min size (upcoming bufs st).length ∧
      upcoming bufs r.state = (upcoming bufs st).drop size := by
  cases heos : st.mReachedEOS with
  | true =>
    have hnil := hst.eos heos
    refine ⟨{ state := st, size_done := 0, data := [] }, ?_, hs, hst, ?_, ?_, ?_⟩
    · simp only [fillBuffer, heos, if_true]
    · rw [hnil]; simp
    · rw [hnil]; simp
    · rw [hnil]; simp
  | false =>
    obtain ⟨st1, l1, hl, hs1, hst1, d1, d2, d3⟩ :=
      fillLoop_stream out hy hb fuel st (Locals.init size) hs hst
        (le_trans (passBound_le bufs st) hfuel)
    obtain ⟨h1, h2⟩ := fillLoop_locals fuel hl (by simp [Locals.init]) (by simp [Locals.init])
    obtain ⟨r, hr⟩ := fillFinish_ok st1 l1 now hs1.frameSize h1 h2
    obtain ⟨b1, b2, b3, b4, b5, b6, -, b8, b9⟩ := fillFinish_stream hr
    obtain ⟨c1, c2, -⟩ := hst1.of_same b1 b2 b3 b4 (b5.trans hst1.noSeek)
      (fun h => Or.inl (b6 ▸ h))
    refine ⟨r, ?_, fillFinish_session hs1 hr, c1, ?_, ?_, ?_⟩
    · simp only [fillBuffer, heos, Bool.false_eq_true, if_false, hl, hr]
    · rw [b9, d1]; simp [Locals.init]
    · rw [b8, d2]; simp [Locals.init]
    · rw [c2, d3]; simp [Locals.init]

/-- A sequence of calls of `fillBuffer` in the middle of a stream, each with
enough passes allowed: they return, and what they write and return is what
the specification says for the bytes to come. -/
theorem fillSeq_stream {source : MediaSource} {bufs : List MediaBuffer}
    (hy : source.Yields bufs) (hb : ∀ b ∈ bufs, b.InBounds) (calls : List FillCall) :
    ∀ (st : State), Session st source → Streaming source bufs st →
      (∀ c ∈ calls, 2 * bufs.length + 5 ≤ c.fuel) →
      ∃ st' rs, fillSeq st calls = .ok (st', rs) ∧
        rs.map FillResult.data = specChunks (upcoming bufs st) (calls.map FillCall.size) ∧
        rs.map FillResult.size_done =
          specReturns (upcoming bufs st).length (calls.map FillCall.size) := by
  induction calls with
  | nil =>
    intro st _ _ _
    exact ⟨st, [], rfl, rfl, rfl⟩
  | cons c cs ih =>
    intro st hs hst hfuel
    obtain ⟨r, hr, hs1, hst1, d1, d2, d3⟩ :=
      fillBuffer_stream hy hb hs hst c.fuel c.out c.size c.now
        (hfuel c (List.mem_cons_self _ _))
    obtain ⟨st', rs, hseq, e1, e2⟩ :=
      ih r.state hs1 hst1 (fun x hx => hfuel x (List.mem_cons_of_mem _ hx))
    refine ⟨st', r :: rs, ?_, ?_, ?_⟩
    · simp only [fillSeq, hr, hseq]
    · simp only [List.map_cons, specChunks, e1, d1, d3]
    · simp only [List.map_cons, specReturns, e2, d2, d3, List.length_drop]
      congr 2
      omega

theorem specChunks_written (rs : List FillResult) :
    ∀ (s : List Nat) (ns : List Nat), rs.map FillResult.data = specChunks s ns →
      writtenBytes rs = s.take ns.sum := by
  induction rs with
  | nil =>
    intro s ns h
    cases ns with
    | nil => simp [writtenBytes]
    | cons n ns => simp [specChunks] at h
  | cons r rs ih =>
    intro s ns h
    cases ns with
    | nil => simp [specChunks] at h
    | cons n ns =>
      simp only [List.map_cons, specChunks, List.cons.injEq] at h
      simp only [writtenBytes, List.sum_cons, ih _ _ h.2, h.1, List.take_add]

theorem take_min_length (s : List Nat) (n : Nat) : s.take (min n s.length) = s.take n := by
  rcases Nat.le_total n s.length with h | h
  · rw [Nat.min_eq_left h]
  · rw [Nat.min_eq_right h, List.take_length, List.take_of_length_le h]

theorem startOutput_stream {st st' : State} {out : Output} {format : MetaData} {b : Bool}
    {s : status_t} (h : startOutput st out format b = .ok (st', s))
    (h0 : st.mStarted = false) (hstarted : st'.mStarted = true) :
    st'.mInputBuffer = st.mInputBuffer ∧ st'.mIsFirstBuffer = st.mIsFirstBuffer ∧
    st'.mFirstBuffer = st.mFirstBuffer ∧ st'.reads = st.reads ∧
    st'.mSeeking = st.mSeeking ∧ st'.mReachedEOS = st.mReachedEOS := by
  cases b
  all_goals
    simp only [startOutput, startCleanup, releaseFirstBuffer, State.log, Bool.false_eq_true,
      if_false, if_true] at h
    repeat' split at h
    all_goals cases h
    all_goals first
      | exact ⟨rfl, rfl, rfl, rfl, rfl, rfl⟩
      | (exfalso
         have h2 : st.mStarted = true := hstarted
         rw [h0] at h2
         cases h2)

theorem payloads_head (bufs : List MediaBuffer) :
    heldPayload bufs[0]? ++ payloads (bufs.drop 1) = payloads bufs := by
  cases bufs with
  | nil => rfl
  | cons b bs => simp [heldPayload, payloads]

/-- After the first read made by `start`, the bytes to come are the payloads
of the buffers of the source. -/
theorem startRead_stream {st st' : State} {source : MediaSource} {out : Output} {b : Bool}
    {s : status_t} {bufs : List MediaBuffer}
    (h : startRead st source out b = .ok (st', s)) (hy : source.Yields bufs)
    (h0 : st.mStarted = false) (hreads : st.reads = []) (hsk : st.mSeeking = false)
    (hin : st.mInputBuffer = none) (heos : st.mReachedEOS = false)
    (hstarted : st'.mStarted = true) :
    Streaming source bufs st' ∧ upcoming bufs st' = payloads bufs := by
  have hbuf : (source.read [none]).buffer = bufs[0]? := hy 0
  simp only [startRead, State.log, hsk, hreads, Bool.false_eq_true, if_false,
    List.nil_append] at h
  split_ifs at h with hf hfc hsome
  · obtain ⟨a1, a2, a3, a4, a5, a6⟩ := startOutput_stream h h0 hstarted
    simp only at a1 a2 a3 a4 a5 a6
    have hnone : bufs[0]? = none := by
      rw [← hbuf]
      cases hx : (source.read [none]).buffer with
      | none => rfl
      | some x => simp [hx] at hsome
    have hup : upcoming bufs st' = payloads bufs := by
      simp only [upcoming, a1, a2, a4, hin, heldPayload, Bool.false_eq_true, if_false,
        List.nil_append, List.length_singleton]
      rw [← payloads_head bufs, hnone]
      rfl
    refine ⟨⟨a5, by rw [a4]; rfl, ?_, ?_, ?_⟩, hup⟩
    · intro x hx; rw [a1, hin] at hx; cases hx
    · intro hx; rw [a2] at hx; cases hx
    · intro hx; rw [a6, heos] at hx; cases hx
  · obtain ⟨a1, a2, a3, a4, a5, a6⟩ := startOutput_stream h h0 hstarted
    simp only at a1 a2 a3 a4 a5 a6
    have hup : upcoming bufs st' = payloads bufs := by
      simp only [upcoming, a1, a2, a3, a4, hin, heldPayload, if_true,
        List.nil_append, List.length_singleton, hbuf]
      exact payloads_head bufs
    refine ⟨⟨a5, by rw [a4]; rfl, ?_, ?_, ?_⟩, hup⟩
    · intro x hx; rw [a1, hin] at hx; cases hx
    · intro _
      rw [a3, a4]
      exact ⟨by simp, rfl⟩
    · intro hx; rw [a6, heos] at hx; cases hx

/-- After `setSource` and `start` on a new player, the bytes to come are the
payloads of the buffers of the source. -/
theorem start_stream {st0 st : State} {source : MediaSource} {out : Output} {b : Bool}
    {bufs : List MediaBuffer} (hnew : IsNew st0)
    (hrun : run st0 [.setSource source, .start out b] = .ok st)
    (hy : source.Yields bufs) (hstarted : st.mStarted = true) :
    Streaming source bufs st ∧ upcoming bufs st = payloads bufs := by
  have hfacts : st0.mSource = none ∧ st0.mStarted = false ∧ st0.mSeeking = false ∧
      st0.mInputBuffer = none ∧ st0.mReachedEOS = false := by
    rcases hnew with ⟨a, b, c, n, s, rfl⟩ | ⟨a, b, c, n, s, rfl⟩ <;>
      exact ⟨rfl, rfl, rfl, rfl, rfl⟩
  obtain ⟨f1, f2, f3, f4, f5⟩ := hfacts
  simp only [run, step, setSource, f1, Option.isSome_none, Bool.false_eq_true, if_false] at hrun
  cases hst : start { st0 with mSource := some source, reads := [] } out b with
  | error f => rw [hst] at hrun; cases hrun
  | ok p =>
    obtain ⟨s1, r⟩ := p
    rw [hst] at hrun
    simp only [Except.map, Except.ok.injEq] at hrun
    subst hrun
    simp only [start, f2, Bool.false_eq_true, if_false, State.log] at hst
    split_ifs at hst with hb hsrc
    · exact startRead_stream hst hy rfl rfl f3 f4 f5 hstarted
    · cases hst
      exact Bool.noConfusion hstarted
    · exact startRead_stream hst hy rfl rfl f3 f4 f5 hstarted

/-- C21: for a source that yields the buffers `bufs` and then an end
condition, on a player started on it from new, in a session where the buffers
are within their bounds, and for every sequence of calls of `fillBuffer` with
no seek, each allowed `2 * bufs.length + 5` passes of its loop: the calls
return; call j writes the next `nj` bytes of the payloads `p1 ++ ... ++ pk`,
or what is left of them, and returns their number, the minimum of `nj` and of
the bytes not yet delivered; the bytes written by the calls, one after the
other, are the prefix of the payloads of length `min (n1 + ... + nm)
(|p1| + ... + |pk|)`. -/
theorem stream_fidelity (st0 st : State) (source : MediaSource) (bufs : List MediaBuffer)
    (out : Output) (sourceAlreadyStarted : Bool) (calls : List FillCall)
    (hnew : IsNew st0)
    (hrun : run st0 [.setSource source, .start out sourceAlreadyStarted] = .ok st)
    (hs : Session st source) (hy : source.Yields bufs) (hb : ∀ b ∈ bufs, b.InBounds)
    (hfuel : ∀ c ∈ calls, 2 * bufs.length + 5 ≤ c.fuel) :
    ∃ st' rs, fillSeq st calls = .ok (st', rs) ∧
      rs.map FillResult.data = specChunks (payloads bufs) (calls.map FillCall.size) ∧
      rs.map FillResult.size_done =
        specReturns (payloads bufs).length (calls.map FillCall.size) ∧
      writtenBytes rs =
        (payloads bufs).take
          (min (calls.map FillCall.size).sum (payloads bufs).length) := by
  obtain ⟨hst, hup⟩ := start_stream hnew hrun hy hs.started
  obtain ⟨st', rs, hseq, e1, e2⟩ := fillSeq_stream hy hb calls st hs hst hfuel
  rw [hup] at e1 e2
  exact ⟨st', rs, hseq, e1, e2, by rw [take_min_length]; exact specChunks_written rs _ _ e1⟩

theorem exSource_yields : exSource.Yields exBuffers := by
  intro n
  rcases n with _ | _ | n
  · rfl
  · rfl
  · simp [exSource, exBuffers]

theorem exBuffers_inBounds : ∀ b ∈ exBuffers, b.InBounds := by
  intro b hb
  simp only [exBuffers, List.mem_cons, List.mem_singleton, List.not_mem_nil, or_false] at hb
  rcases hb with rfl | rfl <;> simp [MediaBuffer.InBounds]

theorem stream_fidelity_witness :
    IsNew (construct true false true 0 0) ∧
    run (construct true false true 0 0) [.setSource exSource, .start exOutput false] =
      .ok exStarted ∧
    Session exStarted exSource ∧ exSource.Yields exBuffers ∧
    (∀ b ∈ exBuffers, b.InBounds) ∧
    (∀ c ∈ exStreamCalls, 2 * exBuffers.length + 5 ≤ c.fuel) ∧
    ∃ st' rs, fillSeq exStarted exStreamCalls = .ok (st', rs) ∧
      rs.map FillResult.data =
        specChunks (payloads exBuffers) (exStreamCalls.map FillCall.size) ∧
      rs.map FillResult.size_done =
        specReturns (payloads exBuffers).length (exStreamCalls.map FillCall.size) ∧
      writtenBytes rs =
        (payloads exBuffers).take
          (min (exStreamCalls.map FillCall.size).sum (payloads exBuffers).length) :=
  ⟨Or.inl ⟨_, _, _, _, _, rfl⟩, rfl, exStarted_session, exSource_yields, exBuffers_inBounds,
    by decide,
    stream_fidelity (construct true false true 0 0) exStarted exSource exBuffers exOutput
      false exStreamCalls (Or.inl ⟨_, _, _, _, _, rfl⟩) rfl exStarted_session exSource_yields
      exBuffers_inBounds (by decide)⟩

/-- The three calls exStreamCalls on exStarted write `[1, 2, 3]`, `[4, 5]` and
`[6]` and return 3, 2 and 1: the second call crosses from the first buffer of
the source to the second, and the third gets what is left. -/
theorem exStreamFills_data :
    fillSeq exStarted exStreamCalls = .ok exStreamFills ∧
    exStreamFills.2.map FillResult.data = [[1, 2, 3], [4, 5], [6]] ∧
    exStreamFills.2.map FillResult.size_done = [3, 2, 1] ∧
    payloads exBuffers = [1, 2, 3, 4, 5, 6] := ⟨rfl, rfl, rfl, rfl⟩

end AudioPlayer
